import Mathlib

/-!
# Verification of the SSO login core (`internal/aws`, `sso.go`)

Shallow embedding of the credential-resolution subsystem: paginated
account/role listing (`ListAccounts` / `ListRoles`), the login workflow
(`RunLogin`) and account/role selection (`handleAccountRoleSelection`),
together with a faithful embedding of Go's `sort.Slice` (the pattern-defeating
quicksort used by the Go standard library since Go 1.19), which the selection
code uses to order candidates.

External collaborators (the SSO client, the interactive selector
`ui.RunSelector`, the config/credentials writers) are modelled as oracle
parameters supplying their outcomes; the control flow around them is
translated from the source.
-/

namespace Swa

/-- `types.AccountInfo` from the AWS SSO SDK: the fields the program reads
(`AccountId`, `AccountName`).  In Go these are `*string` fields that the code
dereferences unconditionally; we model them as plain strings.  The unused
`EmailAddress` field is omitted. -/
structure AccountInfo where
  accountId : String
  accountName : String
  deriving DecidableEq, Repr, Inhabited

/-- `types.RoleInfo`: the program reads only `RoleName`. -/
structure RoleInfo where
  roleName : String
  deriving DecidableEq, Repr, Inhabited

/-- `types.RoleCredentials`: opaque payload passed from `GetRoleCredentials`
to `WriteProfile`; the login code never inspects its fields. -/
structure RoleCredentials where
  accessKeyId : String
  secretAccessKey : String
  sessionToken : String
  expiration : Int
  deriving DecidableEq, Repr, Inhabited

/-- Decidable equality of `Except` outcomes (needed to evaluate concrete
runs with `decide`). -/
instance {ε α : Type} [DecidableEq ε] [DecidableEq α] : DecidableEq (Except ε α) := fun
  | .ok a, .ok b => decidable_of_iff (a = b) (by simp)
  | .error e, .error f => decidable_of_iff (e = f) (by simp)
  | .ok _, .error _ => isFalse (by simp)
  | .error _, .ok _ => isFalse (by simp)

/-! ## Pagination (`ListAccounts`, `ListRoles`)

Both Go functions run the same loop: call the provider with the current
continuation token, append `result.AccountList` (resp. `RoleList`) to the
accumulator, stop when `result.NextToken == nil`, otherwise continue with the
returned token.  The provider is modelled as the finite sequence of responses
it returns to the successive calls; `hasNext` is `NextToken != nil`. -/

/-- One provider response: a successful page with its items and whether a
continuation token was returned, or a call failure. -/
inductive PageResult (α : Type) where
  | ok (items : List α) (hasNext : Bool)
  | err (e : String)
  deriving DecidableEq, Repr

/-- The paging loop shared by `ListAccounts` and `ListRoles`, with the running
accumulator `acc` (`allAccounts` / `allRoles` in the source).  The `[]` case is
unreachable for a well-formed provider (one that keeps answering while it
keeps returning continuation tokens); we return the accumulator there. -/
def listPagedGo (acc : List α) : List (PageResult α) → Except String (List α)
  | [] => .ok acc
  | .err e :: _ => .error e
  | .ok items hasNext :: rest =>
      if hasNext then listPagedGo (acc ++ items) rest else .ok (acc ++ items)

/-- `(s *SSOManager) ListAccounts`: aggregate all account pages. -/
def listAccountsGo (pages : List (PageResult AccountInfo)) :
    Except String (List AccountInfo) :=
  listPagedGo [] pages

/-- `(s *SSOManager) ListRoles`: aggregate all role pages (same loop as
`ListAccounts`, over `RoleInfo`). -/
def listRolesGo (pages : List (PageResult RoleInfo)) :
    Except String (List RoleInfo) :=
  listPagedGo [] pages

/-- A well-formed provider trace: at least one response, every response is a
successful page, every page before the last carries a continuation token and
the last does not.  This is exactly the shape of responses a correct provider
gives the paging loop. -/
def ChainOK : List (PageResult α) → Prop
  | [] => False
  | [.ok _ hasNext] => hasNext = false
  | .ok _ hasNext :: rest@(_ :: _) => hasNext = true ∧ ChainOK rest
  | .err _ :: _ => False

/-- The items of a successful page (`[]` for a failed call; never used on
failures). -/
def PageResult.items : PageResult α → List α
  | .ok items _ => items
  | .err _ => []

/-! ## Go's `sort.Slice`

`handleAccountRoleSelection` sorts candidates with
`sort.Slice(xs, func(i, j int) bool { return *xs[i].Name < *xs[j].Name })`.
`sort.Slice` is Go's pattern-defeating quicksort (`pdqsort_func` in
`sort/zsortfunc.go`, Go ≥ 1.19); it is documented as **not** stable.  The
functions below are direct transcriptions of that implementation.  Loops are
translated to fuel-based recursion (the fuel passed at every call site is at
least the number of iterations the Go loop performs, so the out-of-fuel
branches are unreachable); this keeps every definition executable by `decide`.
Out-of-range reads/swaps cannot occur on the Go side for in-contract inputs;
`aget`/`aswap` totalize them (default value / no-op). -/

section GoSort

variable {α : Type} [Inhabited α]

/-- Total array read (`data[i]` on the Go side). -/
def aget (xs : Array α) (i : Nat) : α := xs.getD i default

/-- Total array swap (`data.Swap(i, j)` on the Go side). -/
def aswap (xs : Array α) (i j : Nat) : Array α :=
  if h : i < xs.size ∧ j < xs.size then xs.swap ⟨i, h.1⟩ ⟨j, h.2⟩ else xs

variable (less : α → α → Bool)

/-- `data.Less(i, j)`. -/
def lessAt (xs : Array α) (i j : Nat) : Bool := less (aget xs i) (aget xs j)

/-- Inner loop of `insertionSort_func`:
`for j := i; j > a && data.Less(j, j-1); j-- { data.Swap(j, j-1) }`. -/
def insInner : Nat → Array α → Nat → Nat → Array α
  | 0, xs, _, _ => xs
  | f+1, xs, a, j =>
      if a < j ∧ lessAt less xs j (j-1) then insInner f (aswap xs j (j-1)) a (j-1)
      else xs

/-- Outer loop of `insertionSort_func`: `for i := a + 1; i < b; i++`. -/
def insOuter : Nat → Array α → Nat → Nat → Nat → Array α
  | 0, xs, _, _, _ => xs
  | f+1, xs, a, b, i =>
      if i < b then insOuter f (insInner less (i - a) xs a i) a b (i+1)
      else xs

/-- `insertionSort_func(data, a, b)`: sorts `data[a:b]`. -/
def insertionSortGo (xs : Array α) (a b : Nat) : Array α :=
  insOuter less (b - a) xs a b (a+1)

/-- `siftDown_func(data, lo, hi, first)`: sift-down for the implicit max-heap
on `data[first : first+hi]`, starting at `root = lo`. -/
def siftDownGo : Nat → Array α → Nat → Nat → Nat → Array α
  | 0, xs, _, _, _ => xs
  | f+1, xs, root, hi, first =>
      let child := 2*root + 1
      if child ≥ hi then xs
      else
        let child :=
          if child + 1 < hi ∧ lessAt less xs (first+child) (first+child+1) then child + 1
          else child
        if ¬ lessAt less xs (first+root) (first+child) then xs
        else siftDownGo f (aswap xs (first+root) (first+child)) child hi first

/-- Heap-construction loop of `heapSort_func`:
`for i := (hi - 1) / 2; i >= 0; i--` — `cnt` iterations remain, the next
processed root is `cnt - 1`. -/
def heapBuild : Nat → Array α → Nat → Nat → Array α
  | 0, xs, _, _ => xs
  | k+1, xs, hi, first => heapBuild k (siftDownGo less hi xs k hi first) hi first

/-- Pop loop of `heapSort_func`:
`for i := hi - 1; i >= 0; i-- { data.Swap(first, first+i); siftDown(data, lo, i, first) }`. -/
def heapPop : Nat → Array α → Nat → Array α
  | 0, xs, _ => xs
  | k+1, xs, first =>
      heapPop k (siftDownGo less k (aswap xs first (first+k)) 0 k first) first

/-- `heapSort_func(data, a, b)`. -/
def heapSortGo (xs : Array α) (a b : Nat) : Array α :=
  let hi := b - a
  heapPop less hi (heapBuild less ((hi - 1) / 2 + 1) xs hi a) a

/-- `reverseRange_func`: `i, j := a, b-1; for i < j { swap; i++; j-- }`. -/
def revRange : Nat → Array α → Nat → Nat → Array α
  | 0, xs, _, _ => xs
  | f+1, xs, i, j => if i < j then revRange f (aswap xs i j) (i+1) (j-1) else xs

/-- `reverseRange_func(data, a, b)`. -/
def reverseRangeGo (xs : Array α) (a b : Nat) : Array α :=
  revRange (b - a) xs a (b - 1)

/-- Halving loop for `bitsLen` (fuel-based so that the kernel can evaluate
it; fuel `≥ n` always suffices). -/
def bitsLenAux : Nat → Nat → Nat
  | 0, _ => 0
  | f+1, n => if n = 0 then 0 else bitsLenAux f (n / 2) + 1

/-- `bits.Len(uint(n))`: number of bits needed to represent `n`. -/
def bitsLen (n : Nat) : Nat := bitsLenAux n n

/-- Truncation to `uint64`. -/
def u64 (n : Nat) : Nat := n % (2^64)

/-- `(r *xorshift).Next()`: `*r ^= *r << 13; *r ^= *r >> 7; *r ^= *r << 17`. -/
def xorshiftNext (r : Nat) : Nat × Nat :=
  let r1 := u64 (Nat.xor r (u64 (r <<< 13)))
  let r2 := u64 (Nat.xor r1 (r1 >>> 7))
  let r3 := u64 (Nat.xor r2 (u64 (r2 <<< 17)))
  (r3, r3)

/-- Swap loop of `breakPatterns_func` (`for i := 0; i < 3; i++`); `i` is the
current iteration index, fuel is `3 - i`. -/
def breakLoop : Nat → Array α → Nat → Nat → Nat → Nat → Nat → Nat → Array α
  | 0, xs, _, _, _, _, _, _ => xs
  | t+1, xs, r, i, idx, a, length, modulus =>
      let v := (xorshiftNext r).1
      let r' := (xorshiftNext r).2
      let other := Nat.land v (modulus - 1)
      let other2 := if other ≥ length then other - length else other
      breakLoop t (aswap xs (idx - 1 + i) (a + other2)) r' (i+1) idx a length modulus

/-- `breakPatterns_func(data, a, b)`: deterministically scrambles three
elements around the middle (the xorshift generator is seeded with the range
length). -/
def breakPatternsGo (xs : Array α) (a b : Nat) : Array α :=
  let length := b - a
  if length ≥ 8 then
    let modulus := 2 ^ (bitsLen length)
    let idx := a + (length/4)*2 - 1
    breakLoop 3 xs (u64 length) 0 idx a length modulus
  else xs

/-- The `sortedHint` values of the Go implementation. -/
inductive SortedHint where
  | increasing
  | decreasing
  | unknown
  deriving DecidableEq, Repr, Inhabited

/-- `order2_func(data, a, b, &swaps)`. -/
def order2 (xs : Array α) (a b swaps : Nat) : Nat × Nat × Nat :=
  if lessAt less xs b a then (b, a, swaps+1) else (a, b, swaps)

/-- `median_func(data, a, b, c, &swaps)`: index of the median of three. -/
def medianIdx (xs : Array α) (a b c swaps : Nat) : Nat × Nat :=
  let p1 := order2 less xs a b swaps
  let p2 := order2 less xs p1.2.1 c p1.2.2
  let p3 := order2 less xs p1.1 p2.1 p2.2.2
  (p3.2.1, p3.2.2)

/-- `medianAdjacent_func(data, a, &swaps)`. -/
def medianAdjacent (xs : Array α) (a swaps : Nat) : Nat × Nat :=
  medianIdx less xs (a-1) a (a+1) swaps

/-- `choosePivot_func(data, a, b)`: pivot index and sortedness hint. -/
def choosePivotGo (xs : Array α) (a b : Nat) : Nat × SortedHint :=
  let l := b - a
  let i := a + l/4*1
  let j := a + l/4*2
  let k := a + l/4*3
  let js :=
    if l ≥ 8 then
      if l ≥ 50 then
        let m1 := medianAdjacent less xs i 0
        let m2 := medianAdjacent less xs j m1.2
        let m3 := medianAdjacent less xs k m2.2
        medianIdx less xs m1.1 m2.1 m3.1 m3.2
      else medianIdx less xs i j k 0
    else (j, 0)
  if js.2 = 0 then (js.1, .increasing)
  else if js.2 = 12 then (js.1, .decreasing)
  else (js.1, .unknown)

/-- Forward scan of `partition_func`: `for i <= j && data.Less(i, a) { i++ }`. -/
def scanUp : Nat → Array α → Nat → Nat → Nat → Nat
  | 0, _, _, i, _ => i
  | f+1, xs, a, i, j =>
      if i ≤ j ∧ lessAt less xs i a then scanUp f xs a (i+1) j else i

/-- Backward scan of `partition_func`: `for i <= j && !data.Less(j, a) { j-- }`. -/
def scanDown : Nat → Array α → Nat → Nat → Nat → Nat
  | 0, _, _, _, j => j
  | f+1, xs, a, i, j =>
      if i ≤ j ∧ ¬ lessAt less xs j a then scanDown f xs a i (j-1) else j

/-- Main loop of `partition_func` (after the first scan round): returns the
final `j` and the permuted array. -/
def partLoop : Nat → Array α → Nat → Nat → Nat → Nat × Array α
  | 0, xs, _, _, j => (j, xs)
  | f+1, xs, a, i, j =>
      let i' := scanUp less (j+1-i) xs a i j
      let j' := scanDown less (j+2) xs a i' j
      if i' > j' then (j', xs)
      else partLoop f (aswap xs i' j') a (i'+1) (j'-1)

/-- `partition_func(data, a, b, pivot)`: Hoare-style partition around the
pivot (moved to slot `a` first, to its final slot last).  Returns
`(newpivot, alreadyPartitioned, data)`. -/
def partitionGo (xs : Array α) (a b pivot : Nat) : Nat × Bool × Array α :=
  let xs1 := aswap xs a pivot
  let i := a + 1
  let j := b - 1
  let i1 := scanUp less (j+1-i) xs1 a i j
  let j1 := scanDown less (j+2) xs1 a i1 j
  if i1 > j1 then (j1, true, aswap xs1 j1 a)
  else
    let xs2 := aswap xs1 i1 j1
    let pl := partLoop less b xs2 a (i1+1) (j1-1)
    (pl.1, false, aswap pl.2 pl.1 a)

/-- Forward scan of `partitionEqual_func`: `for i <= j && !data.Less(a, i) { i++ }`. -/
def scanUpEq : Nat → Array α → Nat → Nat → Nat → Nat
  | 0, _, _, i, _ => i
  | f+1, xs, a, i, j =>
      if i ≤ j ∧ ¬ lessAt less xs a i then scanUpEq f xs a (i+1) j else i

/-- Backward scan of `partitionEqual_func`: `for i <= j && data.Less(a, j) { j-- }`. -/
def scanDownEq : Nat → Array α → Nat → Nat → Nat → Nat
  | 0, _, _, _, j => j
  | f+1, xs, a, i, j =>
      if i ≤ j ∧ lessAt less xs a j then scanDownEq f xs a i (j-1) else j

/-- Loop of `partitionEqual_func`: returns the final `i` and the array. -/
def partEqLoop : Nat → Array α → Nat → Nat → Nat → Nat × Array α
  | 0, xs, _, i, _ => (i, xs)
  | f+1, xs, a, i, j =>
      let i' := scanUpEq less (j+1-i) xs a i j
      let j' := scanDownEq less (j+2) xs a i' j
      if i' > j' then (i', xs)
      else partEqLoop f (aswap xs i' j') a (i'+1) (j'-1)

/-- `partitionEqual_func(data, a, b, pivot)`: partitions `data[a:b]` into
elements equal to and greater than the pivot; returns `(newpivot, data)`. -/
def partitionEqualGo (xs : Array α) (a b pivot : Nat) : Nat × Array α :=
  let xs1 := aswap xs a pivot
  partEqLoop less b xs1 a (a+1) (b-1)

/-- Scan of `partialInsertionSort_func`:
`for i < b && !data.Less(i, i-1) { i++ }`. -/
def pisScan : Nat → Array α → Nat → Nat → Nat
  | 0, _, _, i => i
  | f+1, xs, b, i =>
      if i < b ∧ ¬ lessAt less xs i (i-1) then pisScan f xs b (i+1) else i

/-- Left-shift loop of `partialInsertionSort_func`:
`for j := i - 1; j >= 1; j-- { if !data.Less(j, j-1) break; swap }`.
Note the Go bound really is `j >= 1`, not `j >= a+1`; inside pdqsort the
element at `a-1` (a previous pivot) is `≤` the whole range, so the loop never
walks below `a` there. -/
def shiftLeftGo : Nat → Array α → Nat → Array α
  | 0, xs, _ => xs
  | f+1, xs, j =>
      if 1 ≤ j ∧ lessAt less xs j (j-1) then shiftLeftGo f (aswap xs j (j-1)) (j-1)
      else xs

/-- Right-shift loop of `partialInsertionSort_func`:
`for j := i + 1; j < b; j++ { if !data.Less(j, j-1) break; swap }`. -/
def shiftRightGo : Nat → Array α → Nat → Nat → Array α
  | 0, xs, _, _ => xs
  | f+1, xs, b, j =>
      if j < b ∧ lessAt less xs j (j-1) then shiftRightGo f (aswap xs j (j-1)) b (j+1)
      else xs

/-- Step loop of `partialInsertionSort_func` (`for j := 0; j < maxSteps; j++`,
`maxSteps = 5`); returns whether the range was (made) sorted, plus the array. -/
def partInsLoop : Nat → Array α → Nat → Nat → Nat → Bool × Array α
  | 0, xs, _, _, _ => (false, xs)
  | t+1, xs, a, b, i =>
      let i' := pisScan less (b - i) xs b i
      if i' = b then (true, xs)
      else if b - a < 50 then (false, xs)
      else
        let xs1 := aswap xs i' (i'-1)
        let xs2 := if i' - a ≥ 2 then shiftLeftGo less (i'-1) xs1 (i'-1) else xs1
        let xs3 := if b - i' ≥ 2 then shiftRightGo less (b - (i'+1)) xs2 b (i'+1) else xs2
        partInsLoop t xs3 a b i'

/-- `partialInsertionSort_func(data, a, b)`: partially sorts the range,
reporting whether it ended up sorted. -/
def partInsSortGo (xs : Array α) (a b : Nat) : Bool × Array α :=
  partInsLoop less 5 xs a b (a+1)

/-- `pdqsort_func(data, a, b, limit)`.  The Go `for {}` loop and the recursive
calls are merged into one fuel recursion; every loop re-entry and recursive
call strictly shrinks `b - a`, so fuel `≥ b - a` at the top call suffices.
Recursive calls restart with `wasBalanced = wasPartitioned = true` (fresh
locals in Go); the loop continuation keeps the updated flags. -/
def pdqsortGo : Nat → Array α → Nat → Nat → Nat → Bool → Bool → Array α
  | 0, xs, _, _, _, _, _ => xs
  | f+1, xs, a, b, limit, wasBalanced, wasPartitioned =>
      let length := b - a
      if length ≤ 12 then insertionSortGo less xs a b
      else if limit = 0 then heapSortGo less xs a b
      else
        let xsL := if ¬ wasBalanced then breakPatternsGo xs a b else xs
        let limit' := if ¬ wasBalanced then limit - 1 else limit
        let pv := choosePivotGo less xsL a b
        let xsR := if pv.2 = .decreasing then reverseRangeGo xsL a b else xsL
        let pivot := if pv.2 = .decreasing then (b - 1) - (pv.1 - a) else pv.1
        let hint := if pv.2 = .decreasing then SortedHint.increasing else pv.2
        let ps :=
          if wasBalanced ∧ wasPartitioned ∧ hint = .increasing
          then partInsSortGo less xsR a b
          else (false, xsR)
        if ps.1 then ps.2
        else if 0 < a ∧ ¬ lessAt less ps.2 (a-1) pivot then
          let pe := partitionEqualGo less ps.2 a b pivot
          pdqsortGo f pe.2 pe.1 b limit' wasBalanced wasPartitioned
        else
          let pq := partitionGo less ps.2 a b pivot
          let mid := pq.1
          let wasB := decide (min (mid - a) (b - mid) ≥ length / 8)
          if mid - a < b - mid then
            pdqsortGo f (pdqsortGo f pq.2.2 a mid limit' true true) (mid+1) b limit' wasB pq.2.1
          else
            pdqsortGo f (pdqsortGo f pq.2.2 (mid+1) b limit' true true) a mid limit' wasB pq.2.1

/-- `sort.Slice(x, less)`:
`length := rv.Len(); limit := bits.Len(uint(length)); pdqsort_func(…, 0, length, limit)`. -/
def sortSliceGo (l : List α) : List α :=
  let n := l.length
  (pdqsortGo less n l.toArray 0 n (bitsLen n) true true).toList

end GoSort

/-- Code-point comparison of characters (`c < d` on the numeric values). -/
def charLtGo (c d : Char) : Bool := decide (c.toNat < d.toNat)

/-- Lexicographic comparison of character lists. -/
def charsLtGo : List Char → List Char → Bool
  | _, [] => false
  | [], _ :: _ => true
  | c :: cs, d :: ds =>
      if charLtGo c d then true
      else if charLtGo d c then false
      else charsLtGo cs ds

/-- Go's `<` on strings: bytewise lexicographic comparison of the UTF-8
encodings, which coincides with code-point lexicographic comparison (UTF-8
preserves code-point order). -/
def strLtGo (s t : String) : Bool := charsLtGo s.data t.data

/-- The comparator of the account sort:
`sort.Slice(accounts, func(i, j) { return *accounts[i].AccountName < *accounts[j].AccountName })`
(case-sensitive ordinal string comparison). -/
def lessAccount (x y : AccountInfo) : Bool := strLtGo x.accountName y.accountName

/-- The comparator of the role sort (`*roles[i].RoleName < *roles[j].RoleName`). -/
def lessRole (x y : RoleInfo) : Bool := strLtGo x.roleName y.roleName

/-- The account sort performed at the top of `handleAccountRoleSelection`. -/
def sortAccountsGo (l : List AccountInfo) : List AccountInfo := sortSliceGo lessAccount l

/-- The role sort performed before role selection. -/
def sortRolesGo (l : List RoleInfo) : List RoleInfo := sortSliceGo lessRole l

/-! ## Account/role selection (`handleAccountRoleSelection`)

The interactive selector `ui.RunSelector(title, options)` is an external
collaborator; it is modelled as a function from the options list to its
outcome (`(int, error)` in Go: an error, `-1` for "nothing selected", or the
selected index).  The remaining collaborators (`ListRoles` provider pages,
`GetRoleCredentials`, `WriteProfile`, `SaveSession`, `CleanupStaleSessions`)
are likewise supplied as oracles; the control flow is from the source. -/

/-- ASCII case folding (`unicode.SimpleFold` restricted to ASCII). -/
def toLowerGo (c : Char) : Char :=
  if 65 ≤ c.toNat ∧ c.toNat ≤ 90 then Char.ofNat (c.toNat + 32) else c

/-- `strings.EqualFold(s, t)`: case-insensitive equality (modelled for ASCII,
where Go's simple case folding is exactly ASCII lower-casing). -/
def equalFoldGo (s t : String) : Bool :=
  s.data.map toLowerGo == t.data.map toLowerGo

/-- Outcome of one selection phase: the chosen candidate or the error
returned, plus the options list handed to `ui.RunSelector` (or `none` when
the interactive chooser was never invoked). -/
structure SelectOutcome (α : Type) where
  result : Except String α
  chooserArgs : Option (List String)
  deriving Repr

/-- One selection phase of `handleAccountRoleSelection`, shared by the
account block (lines 428–462) and the structurally identical role block
(lines 483–517): scan the sorted candidates for a case-insensitive exact
match of the hint (`strings.EqualFold`, first match wins); without a hint or
without a match, invoke the interactive chooser on the rendered candidate
list.  A chooser error is wrapped with `errPre`; a chooser answer of `-1`
yields `noSelMsg`; any other answer indexes the sorted list (`Go` would
panic on an out-of-range index, modelled as an error outcome). -/
def selectFromSorted (render name : α → String) (errPre noSelMsg : String)
    (sorted : List α) (hint : String)
    (chooser : List String → Except String Int) : SelectOutcome α :=
  let found := if hint ≠ "" then sorted.find? (fun x => equalFoldGo (name x) hint) else none
  match found with
  | some x => ⟨.ok x, none⟩
  | none =>
      let opts := sorted.map render
      match chooser opts with
      | .error e => ⟨.error (errPre ++ e), some opts⟩
      | .ok idx =>
          if idx = -1 then ⟨.error noSelMsg, some opts⟩
          else if 0 ≤ idx then
            match sorted.get? idx.toNat with
            | some x => ⟨.ok x, some opts⟩
            | none => ⟨.error "panic: runtime error: index out of range", some opts⟩
          else ⟨.error "panic: runtime error: index out of range", some opts⟩

/-- `fmt.Sprintf("%s (%s)", *account.AccountName, *account.AccountId)`. -/
def renderAccount (a : AccountInfo) : String :=
  a.accountName ++ " (" ++ a.accountId ++ ")"

/-- Role options are the bare role names. -/
def renderRole (r : RoleInfo) : String := r.roleName

/-- The account-selection phase of `handleAccountRoleSelection`
(lines 420–462): sort, match the hint, fall back to the chooser. -/
def selectAccountGo (accounts : List AccountInfo) (hint : String)
    (chooser : List String → Except String Int) : SelectOutcome AccountInfo :=
  selectFromSorted renderAccount AccountInfo.accountName
    "error selecting account: " "no account selected" (sortAccountsGo accounts) hint chooser

/-- The role-selection phase of `handleAccountRoleSelection`
(lines 475–517): sort, match the hint, fall back to the chooser. -/
def selectRoleGo (roles : List RoleInfo) (hint : String)
    (chooser : List String → Except String Int) : SelectOutcome RoleInfo :=
  selectFromSorted renderRole RoleInfo.roleName
    "error selecting role: " "no role selected" (sortRolesGo roles) hint chooser

/-- The data carried by a successful login (used for the final success
message and the exported profile name). -/
structure LoginResult where
  profileName : String
  accountId : String
  accountName : String
  roleName : String
  deriving DecidableEq, Repr

/-- Outcomes of the external collaborators used by
`handleAccountRoleSelection`.  `rolePages` are the provider responses for
`ListRoles` on the selected account; `getRoleCredentials` is keyed by
`(accountId, roleName)`; `writeProfile` returns the profile name. -/
structure HandleEnv where
  accountChooser : List String → Except String Int
  roleChooser : List String → Except String Int
  rolePages : String → List (PageResult RoleInfo)
  getRoleCredentials : String → String → Except String RoleCredentials
  writeProfile : String → String → String → RoleCredentials → Except String String
  saveSession : String → String → String → String → Except String Unit
  cleanupStaleSessions : Except String Nat

/-- Result of `handleAccountRoleSelection`, instrumented with the options
lists passed to the two chooser invocations (if any) and whether the
stale-session sweep was reached. -/
structure HandleTrace where
  result : Except String LoginResult
  accountChooserArgs : Option (List String)
  roleChooserArgs : Option (List String)
  cleanupRan : Bool
  deriving Repr

/-- `(s *SSOManager) handleAccountRoleSelection` (lines 419–546): sort the
accounts, select an account (hint match or chooser), list and sort the
roles, select a role, fetch role credentials, write the profile (fatal on
error), save the session (fatal on error, line 535), then run the
stale-session cleanup discarding its outcome
(`_ = awscconfig.CleanupStaleSessions()`, line 539) and report success. -/
def handleAccountRoleSelectionGo (env : HandleEnv) (accounts : List AccountInfo)
    (accountName roleName : String) : HandleTrace :=
  let accSel := selectAccountGo accounts accountName env.accountChooser
  match accSel.result with
  | .error e => ⟨.error e, accSel.chooserArgs, none, false⟩
  | .ok acc =>
    match listRolesGo (env.rolePages acc.accountId) with
    | .error e => ⟨.error ("error listing roles: " ++ e), accSel.chooserArgs, none, false⟩
    | .ok roles =>
      if roles.isEmpty then
        ⟨.error "no roles found for this account", accSel.chooserArgs, none, false⟩
      else
        let roleSel := selectRoleGo roles roleName env.roleChooser
        match roleSel.result with
        | .error e => ⟨.error e, accSel.chooserArgs, roleSel.chooserArgs, false⟩
        | .ok role =>
          match env.getRoleCredentials acc.accountId role.roleName with
          | .error e =>
              ⟨.error ("error getting role credentials: " ++ e),
               accSel.chooserArgs, roleSel.chooserArgs, false⟩
          | .ok creds =>
            match env.writeProfile acc.accountName acc.accountId role.roleName creds with
            | .error e =>
                ⟨.error ("error writing profile: " ++ e),
                 accSel.chooserArgs, roleSel.chooserArgs, false⟩
            | .ok profileName =>
              match env.saveSession profileName acc.accountId acc.accountName role.roleName with
              | .error e =>
                  ⟨.error ("error saving session: " ++ e),
                   accSel.chooserArgs, roleSel.chooserArgs, false⟩
              | .ok _ =>
                  ⟨.ok ⟨profileName, acc.accountId, acc.accountName, role.roleName⟩,
                   accSel.chooserArgs, roleSel.chooserArgs, true⟩

/-! ## The login workflow (`RunLogin`)

Collaborator outcomes are indexed by call count where a collaborator can be
invoked more than once in a run (`GetCachedToken`, `ListAccounts`), so the
model can distinguish the first attempt from the retry.
`SaveAccountCache` failures only print a warning (lines 374–377 and 411–414)
and have no further effect on the workflow, so the call is not modelled. -/

/-- Outcomes of the collaborators used by `RunLogin`. -/
structure LoginEnv where
  startUrlEmpty : Bool
  newCredentialsManager : Except String Unit
  getCachedToken : Nat → Except String String
  authenticate : Except String Unit
  accountPages : Nat → List (PageResult AccountInfo)
  handleEnv : HandleEnv

/-- Result of `RunLogin`, instrumented with how many times `Authenticate`,
`ListAccounts` and `GetCachedToken` were invoked. -/
structure LoginTrace where
  result : Except String LoginResult
  authCalls : Nat
  listCalls : Nat
  tokenCalls : Nat
  deriving Repr

/-- The re-authentication tail of `RunLogin` (lines 383–416), entered when
there is no usable cached token (or `force` is set): authenticate once, read
the fresh token, list accounts once, fail on an empty directory, and hand
over to account/role selection.  `tc`/`lc` are the numbers of
`GetCachedToken`/`ListAccounts` calls already made by the cached-token fast
path. -/
def runLoginAuthPath (env : LoginEnv) (accountName roleName : String)
    (tc lc : Nat) : LoginTrace :=
  match env.authenticate with
  | .error e => ⟨.error ("SSO authentication failed: " ++ e), 1, lc, tc⟩
  | .ok _ =>
    match env.getCachedToken tc with
    | .error e => ⟨.error ("failed to get access token: " ++ e), 1, lc, tc + 1⟩
    | .ok _ =>
      match listAccountsGo (env.accountPages lc) with
      | .error e => ⟨.error ("error listing accounts: " ++ e), 1, lc + 1, tc + 1⟩
      | .ok accounts =>
        if accounts.length = 0 then ⟨.error "no accounts found", 1, lc + 1, tc + 1⟩
        else
          ⟨(handleAccountRoleSelectionGo env.handleEnv accounts accountName roleName).result,
           1, lc + 1, tc + 1⟩

/-! ### Specification predicates for the sort proofs -/

/-- Adjacent-sortedness of `xs[a:b]`. -/
def sortedRange {α : Type} [Inhabited α] (less : α → α → Bool) (xs : Array α)
    (a b : Nat) : Prop :=
  ∀ i, a ≤ i → i + 1 < b → less (aget xs (i+1)) (aget xs i) = false

/-- Every element of `xs[a:b]` is `< p`. -/
def allLt {α : Type} [Inhabited α] (less : α → α → Bool) (xs : Array α)
    (a b : Nat) (p : α) : Prop :=
  ∀ k, a ≤ k → k < b → less (aget xs k) p = true

/-- Every element of `xs[a:b]` is `≥ p`. -/
def allGe {α : Type} [Inhabited α] (less : α → α → Bool) (xs : Array α)
    (a b : Nat) (p : α) : Prop :=
  ∀ k, a ≤ k → k < b → less (aget xs k) p = false

/-- Every element of `xs[a:b]` is `≤ p`. -/
def allLe {α : Type} [Inhabited α] (less : α → α → Bool) (xs : Array α)
    (a b : Nat) (p : α) : Prop :=
  ∀ k, a ≤ k → k < b → less p (aget xs k) = false

/-- Every element of `xs[a:b]` is `> p`. -/
def allGt {α : Type} [Inhabited α] (less : α → α → Bool) (xs : Array α)
    (a b : Nat) (p : α) : Prop :=
  ∀ k, a ≤ k → k < b → less p (aget xs k) = true

/-- The elements of `xs[a:b]` as a list. -/
def slice {α : Type} (xs : Array α) (a b : Nat) : List α :=
  (xs.toList.drop a).take (b - a)

/-- `k` is a node of the binary-heap subtree rooted at `root`
(children of `m` are `2m+1` and `2m+2`). -/
inductive IsDesc (root : Nat) : Nat → Prop where
  | refl : IsDesc root root
  | left : ∀ {k}, IsDesc root k → IsDesc root (2*k+1)
  | right : ∀ {k}, IsDesc root k → IsDesc root (2*k+2)

/-- Heap property on `xs[first : first+cnt]` for all roots `≥ m`:
parents are not less than their children. -/
def heapFrom {α : Type} [Inhabited α] (less : α → α → Bool) (xs : Array α)
    (first cnt m : Nat) : Prop :=
  ∀ r c, m ≤ r → (c = 2*r+1 ∨ c = 2*r+2) → c < cnt →
    less (aget xs (first+r)) (aget xs (first+c)) = false

/-- Asymmetry of a boolean strict comparator. -/
def Asymm {α : Type} (less : α → α → Bool) : Prop :=
  ∀ x y, less x y = true → less y x = false

/-- Transitivity of the non-strict order `¬ less · ·` induced by a boolean
strict comparator (`less b a = false` reads `a ≤ b`). -/
def NegTrans {α : Type} (less : α → α → Bool) : Prop :=
  ∀ x y z, less y x = false → less z y = false → less z x = false

/-- The sortedness half of the sorting claim, for a key function: the output
is ascending (non-strictly) in Go string order. -/
def sortedByKey {α : Type} [Inhabited α] (key : α → String) (l : List α) : Prop :=
  ∀ i, i < l.length → ∀ j, j < l.length → i < j →
    strLtGo (key (l.getD j default)) (key (l.getD i default)) = false

/-- The stability half of the sorting claim: any two entries of the output
with equal names appear in the same relative order as in the input (entry
positions measured by `indexOf`; the entries of the inputs used below are
pairwise distinct, so `indexOf` identifies them uniquely). -/
def keepsTieOrder (input output : List AccountInfo) : Prop :=
  ∀ i, i < output.length → ∀ j, j < output.length → i < j →
    (output.getD i default).accountName = (output.getD j default).accountName →
    input.indexOf (output.getD i default) < input.indexOf (output.getD j default)

/-- Fifty accounts with strictly descending names except for the equal pair
at positions 0 and 1 (`accountId` records the original position).  On this
input `sort.Slice`'s pivot sampling reports a descending range
(`choosePivot` performs 12 swaps), `pdqsort` reverses the whole range —
swapping the order of the two equal-named entries — and
`partialInsertionSort` then confirms the range sorted and returns. -/
def exAccounts : List AccountInfo :=
  [   ⟨"0", "98"⟩, ⟨"1", "98"⟩, ⟨"2", "97"⟩, ⟨"3", "96"⟩, ⟨"4", "95"⟩, ⟨"5", "94"⟩, ⟨"6", "93"⟩,
   ⟨"7", "92"⟩, ⟨"8", "91"⟩, ⟨"9", "90"⟩, ⟨"10", "89"⟩, ⟨"11", "88"⟩, ⟨"12", "87"⟩,
   ⟨"13", "86"⟩, ⟨"14", "85"⟩, ⟨"15", "84"⟩, ⟨"16", "83"⟩, ⟨"17", "82"⟩, ⟨"18", "81"⟩,
   ⟨"19", "80"⟩, ⟨"20", "79"⟩, ⟨"21", "78"⟩, ⟨"22", "77"⟩, ⟨"23", "76"⟩, ⟨"24", "75"⟩,
   ⟨"25", "74"⟩, ⟨"26", "73"⟩, ⟨"27", "72"⟩, ⟨"28", "71"⟩, ⟨"29", "70"⟩, ⟨"30", "69"⟩,
   ⟨"31", "68"⟩, ⟨"32", "67"⟩, ⟨"33", "66"⟩, ⟨"34", "65"⟩, ⟨"35", "64"⟩, ⟨"36", "63"⟩,
   ⟨"37", "62"⟩, ⟨"38", "61"⟩, ⟨"39", "60"⟩, ⟨"40", "59"⟩, ⟨"41", "58"⟩, ⟨"42", "57"⟩,
   ⟨"43", "56"⟩, ⟨"44", "55"⟩, ⟨"45", "54"⟩, ⟨"46", "53"⟩, ⟨"47", "52"⟩, ⟨"48", "51"⟩,
   ⟨"49", "50"⟩]

/-- `sortAccountsGo exAccounts`, written out: the input reversed. -/
def exAccountsSorted : List AccountInfo :=
  [   ⟨"49", "50"⟩, ⟨"48", "51"⟩, ⟨"47", "52"⟩, ⟨"46", "53"⟩, ⟨"45", "54"⟩, ⟨"44", "55"⟩,
   ⟨"43", "56"⟩, ⟨"42", "57"⟩, ⟨"41", "58"⟩, ⟨"40", "59"⟩, ⟨"39", "60"⟩, ⟨"38", "61"⟩,
   ⟨"37", "62"⟩, ⟨"36", "63"⟩, ⟨"35", "64"⟩, ⟨"34", "65"⟩, ⟨"33", "66"⟩, ⟨"32", "67"⟩,
   ⟨"31", "68"⟩, ⟨"30", "69"⟩, ⟨"29", "70"⟩, ⟨"28", "71"⟩, ⟨"27", "72"⟩, ⟨"26", "73"⟩,
   ⟨"25", "74"⟩, ⟨"24", "75"⟩, ⟨"23", "76"⟩, ⟨"22", "77"⟩, ⟨"21", "78"⟩, ⟨"20", "79"⟩,
   ⟨"19", "80"⟩, ⟨"18", "81"⟩, ⟨"17", "82"⟩, ⟨"16", "83"⟩, ⟨"15", "84"⟩, ⟨"14", "85"⟩,
   ⟨"13", "86"⟩, ⟨"12", "87"⟩, ⟨"11", "88"⟩, ⟨"10", "89"⟩, ⟨"9", "90"⟩, ⟨"8", "91"⟩,
   ⟨"7", "92"⟩, ⟨"6", "93"⟩, ⟨"5", "94"⟩, ⟨"4", "95"⟩, ⟨"3", "96"⟩, ⟨"2", "97"⟩, ⟨"1", "98"⟩,
   ⟨"0", "98"⟩]

/-! ### Concrete collaborator environments

Small concrete instantiations used to evaluate the model at specific inputs
(for counterexamples and witnesses). -/

/-- A one-account directory entry. -/
def acctDev : AccountInfo := ⟨"111", "Dev"⟩

/-- A one-role directory entry. -/
def roleAdmin : RoleInfo := ⟨"Admin"⟩

/-- Concrete credentials payload. -/
def credsX : RoleCredentials := ⟨"AKIA", "SECRET", "TOK", 0⟩

/-- Collaborators for a run in which everything succeeds except the session
write (`SaveSession` fails with `disk full`). -/
def envSessionFail : HandleEnv where
  accountChooser := fun _ => .ok 0
  roleChooser := fun _ => .ok 0
  rolePages := fun _ => [.ok [roleAdmin] false]
  getRoleCredentials := fun _ _ => .ok credsX
  writeProfile := fun _ _ _ _ => .ok "dev-admin"
  saveSession := fun _ _ _ _ => .error "disk full"
  cleanupStaleSessions := .ok 0

/-- Collaborators for a fully successful run in which only the stale-session
cleanup sweep fails. -/
def envCleanupFail : HandleEnv where
  accountChooser := fun _ => .ok 0
  roleChooser := fun _ => .ok 0
  rolePages := fun _ => [.ok [roleAdmin] false]
  getRoleCredentials := fun _ _ => .ok credsX
  writeProfile := fun _ _ _ _ => .ok "dev-admin"
  saveSession := fun _ _ _ _ => .ok ()
  cleanupStaleSessions := .error "cannot read session file"

/-- Collaborators for a fully successful run. -/
def envAllOk : HandleEnv where
  accountChooser := fun _ => .ok 0
  roleChooser := fun _ => .ok 0
  rolePages := fun _ => [.ok [roleAdmin] false]
  getRoleCredentials := fun _ _ => .ok credsX
  writeProfile := fun _ _ _ _ => .ok "dev-admin"
  saveSession := fun _ _ _ _ => .ok ()
  cleanupStaleSessions := .ok 0

/-- `(s *SSOManager) RunLogin` (lines 352–417): missing configuration fails
at once; otherwise, unless `force` is set, try the cached token and use it
if listing accounts with it succeeds with a non-empty result; on any failure
of that fast path (no cached token, listing error, or empty listing) fall
through to the re-authentication tail. -/
def runLoginGo (env : LoginEnv) (force : Bool) (accountName roleName : String) : LoginTrace :=
  if env.startUrlEmpty then
    ⟨.error "no SSO configuration found. Please run 'awsc config init' first", 0, 0, 0⟩
  else
    match env.newCredentialsManager with
    | .error e => ⟨.error ("failed to create credentials manager: " ++ e), 0, 0, 0⟩
    | .ok _ =>
      if force then runLoginAuthPath env accountName roleName 0 0
      else
        match env.getCachedToken 0 with
        | .error _ => runLoginAuthPath env accountName roleName 1 0
        | .ok _ =>
          match listAccountsGo (env.accountPages 0) with
          | .error _ => runLoginAuthPath env accountName roleName 1 1
          | .ok accounts =>
            if accounts.length > 0 then
              ⟨(handleAccountRoleSelectionGo env.handleEnv accounts accountName roleName).result,
               0, 1, 1⟩
            else runLoginAuthPath env accountName roleName 1 1

/-- Collaborators for a run in which both choosers report "no selection"
(the user aborts the interactive picker). -/
def envAbort : HandleEnv where
  accountChooser := fun _ => .ok (-1)
  roleChooser := fun _ => .ok (-1)
  rolePages := fun _ => [.ok [roleAdmin] false]
  getRoleCredentials := fun _ _ => .ok credsX
  writeProfile := fun _ _ _ _ => .ok "dev-admin"
  saveSession := fun _ _ _ _ => .ok ()
  cleanupStaleSessions := .ok 0

/-- Login collaborators: cached token readable, but listing accounts with it
fails, and the subsequent authentication attempt is refused. -/
def envAuthRefused : LoginEnv where
  startUrlEmpty := false
  newCredentialsManager := .ok ()
  getCachedToken := fun _ => .ok "cached-token"
  authenticate := .error "access denied"
  accountPages := fun _ => [.err "connection reset"]
  handleEnv := envAllOk

/-- Login collaborators: cached token valid, first account listing succeeds
but is empty, re-authentication succeeds, and the second listing returns one
account. -/
def envEmptyThenOk : LoginEnv where
  startUrlEmpty := false
  newCredentialsManager := .ok ()
  getCachedToken := fun _ => .ok "cached-token"
  authenticate := .ok ()
  accountPages := fun k => if k = 0 then [.ok [] false] else [.ok [acctDev] false]
  handleEnv := envAllOk

/-- Login collaborators: every account listing (cached or fresh) succeeds
with an empty directory. -/
def envEmptyTwice : LoginEnv where
  startUrlEmpty := false
  newCredentialsManager := .ok ()
  getCachedToken := fun _ => .ok "cached-token"
  authenticate := .ok ()
  accountPages := fun _ => [.ok [] false]
  handleEnv := envAllOk

end Swa

namespace Swa

/-! ## Theorems: pagination -/

theorem listPagedGo_chainOK : ∀ (pages : List (PageResult α)), ChainOK pages →
    ∀ acc, listPagedGo acc pages = .ok (acc ++ (pages.map PageResult.items).flatten) := by
  intro pages
  induction pages with
  | nil => intro h; simp [ChainOK] at h
  | cons p rest ih =>
    intro h acc
    cases p with
    | err e => cases rest <;> simp [ChainOK] at h
    | ok items hasNext =>
      cases rest with
      | nil =>
        simp only [ChainOK] at h
        subst h
        simp [listPagedGo, PageResult.items]
      | cons q qs =>
        simp only [ChainOK] at h
        obtain ⟨h1, h2⟩ := h
        subst h1
        simp only [listPagedGo, if_true]
        rw [ih h2]
        simp [PageResult.items, List.append_assoc]

theorem listPagedGo_err_of_front (front : List (PageResult α)) (e : String)
    (rest : List (PageResult α))
    (h : ∀ p ∈ front, ∃ items, p = .ok items true) :
    ∀ acc, listPagedGo acc (front ++ .err e :: rest) = .error e := by
  induction front with
  | nil => intro acc; simp [listPagedGo]
  | cons p ps ih =>
    intro acc
    obtain ⟨items, rfl⟩ := h p (by simp)
    simp only [List.cons_append, listPagedGo, if_pos]
    exact ih (fun q hq => h q (by simp [hq])) _

/-! ## Permutation lemmas for the sort

Every mutation performed by the sort is a swap, so every helper permutes the
array; these lemmas are what the selection theorems need (membership and
length preservation). -/

theorem cons_get_set_perm : ∀ (l : List α) (m : Nat) (h : m < l.length) (a : α),
    (l.get ⟨m, h⟩ :: l.set m a).Perm (a :: l) := by
  intro l
  induction l with
  | nil => intro m h; simp at h
  | cons b t ih =>
    intro m h a
    cases m with
    | zero => exact List.Perm.swap a b t
    | succ m =>
      exact ((List.Perm.swap b _ _).trans
        (List.Perm.cons b (ih m (by simpa using h) a))).trans (List.Perm.swap a b t)

theorem set_set_get_perm : ∀ (l : List α) (i j : Nat) (hi : i < l.length)
    (hj : j < l.length),
    ((l.set i (l.get ⟨j, hj⟩)).set j (l.get ⟨i, hi⟩)).Perm l := by
  intro l
  induction l with
  | nil => intro i j hi; simp at hi
  | cons b t ih =>
    intro i j hi hj
    cases i with
    | zero =>
      cases j with
      | zero => exact List.Perm.refl _
      | succ j =>
        simpa using cons_get_set_perm t j (by simpa using hj) b
    | succ i =>
      cases j with
      | zero =>
        simpa using cons_get_set_perm t i (by simpa using hi) b
      | succ j =>
        simpa using List.Perm.cons b (ih i j (by simpa using hi) (by simpa using hj))

theorem aswap_toList_perm {α : Type} [Inhabited α] (xs : Array α) (i j : Nat) :
    (aswap xs i j).toList.Perm xs.toList := by
  unfold aswap
  split
  · rename_i h
    rw [Array.toList_swap]
    simp only [Array.get_eq_getElem, Array.getElem_eq_getElem_toList]
    exact set_set_get_perm xs.toList i j (by simpa using h.1) (by simpa using h.2)
  · exact List.Perm.refl _

section SortPermLemmas

variable {α : Type} [Inhabited α] (less : α → α → Bool)

theorem insInner_perm : ∀ (f : Nat) (xs : Array α) (a j : Nat),
    (insInner less f xs a j).toList.Perm xs.toList := by
  intro f
  induction f with
  | zero => intro xs a j; exact .refl _
  | succ f ih =>
    intro xs a j
    simp only [insInner]
    split
    · exact (ih _ _ _).trans (aswap_toList_perm _ _ _)
    · exact .refl _

theorem insOuter_perm : ∀ (f : Nat) (xs : Array α) (a b i : Nat),
    (insOuter less f xs a b i).toList.Perm xs.toList := by
  intro f
  induction f with
  | zero => intro xs a b i; exact .refl _
  | succ f ih =>
    intro xs a b i
    simp only [insOuter]
    split
    · exact (ih _ _ _ _).trans (insInner_perm _ _ _ _ _)
    · exact .refl _

theorem insertionSortGo_perm (xs : Array α) (a b : Nat) :
    (insertionSortGo less xs a b).toList.Perm xs.toList :=
  insOuter_perm less _ xs a b (a+1)

theorem siftDownGo_perm : ∀ (f : Nat) (xs : Array α) (root hi first : Nat),
    (siftDownGo less f xs root hi first).toList.Perm xs.toList := by
  intro f
  induction f with
  | zero => intro xs root hi first; exact .refl _
  | succ f ih =>
    intro xs root hi first
    simp only [siftDownGo]
    split
    · exact .refl _
    · split <;> split
      · exact .refl _
      · exact (ih _ _ _ _).trans (aswap_toList_perm _ _ _)
      · exact .refl _
      · exact (ih _ _ _ _).trans (aswap_toList_perm _ _ _)

theorem heapBuild_perm : ∀ (k : Nat) (xs : Array α) (hi first : Nat),
    (heapBuild less k xs hi first).toList.Perm xs.toList := by
  intro k
  induction k with
  | zero => intro xs hi first; exact .refl _
  | succ k ih =>
    intro xs hi first
    simp only [heapBuild]
    exact (ih _ _ _).trans (siftDownGo_perm _ _ _ _ _ _)

theorem heapPop_perm : ∀ (k : Nat) (xs : Array α) (first : Nat),
    (heapPop less k xs first).toList.Perm xs.toList := by
  intro k
  induction k with
  | zero => intro xs first; exact .refl _
  | succ k ih =>
    intro xs first
    simp only [heapPop]
    exact (ih _ _).trans ((siftDownGo_perm _ _ _ _ _ _).trans (aswap_toList_perm _ _ _))

theorem heapSortGo_perm (xs : Array α) (a b : Nat) :
    (heapSortGo less xs a b).toList.Perm xs.toList := by
  simp only [heapSortGo]
  exact (heapPop_perm _ _ _ _).trans (heapBuild_perm _ _ _ _ _)

theorem revRange_perm : ∀ (f : Nat) (xs : Array α) (i j : Nat),
    (revRange f xs i j).toList.Perm xs.toList := by
  intro f
  induction f with
  | zero => intro xs i j; exact .refl _
  | succ f ih =>
    intro xs i j
    simp only [revRange]
    split
    · exact (ih _ _ _).trans (aswap_toList_perm _ _ _)
    · exact .refl _

theorem reverseRangeGo_perm (xs : Array α) (a b : Nat) :
    (reverseRangeGo xs a b).toList.Perm xs.toList :=
  revRange_perm _ xs a (b-1)

theorem breakLoop_perm : ∀ (t : Nat) (xs : Array α) (r i idx a length modulus : Nat),
    (breakLoop t xs r i idx a length modulus).toList.Perm xs.toList := by
  intro t
  induction t with
  | zero => intro xs r i idx a length modulus; exact .refl _
  | succ t ih =>
    intro xs r i idx a length modulus
    simp only [breakLoop]
    exact (ih _ _ _ _ _ _ _).trans (aswap_toList_perm _ _ _)

theorem breakPatternsGo_perm (xs : Array α) (a b : Nat) :
    (breakPatternsGo xs a b).toList.Perm xs.toList := by
  simp only [breakPatternsGo]
  split
  · exact breakLoop_perm _ _ _ _ _ _ _ _
  · exact .refl _

theorem partLoop_perm : ∀ (f : Nat) (xs : Array α) (a i j : Nat),
    ((partLoop less f xs a i j).2).toList.Perm xs.toList := by
  intro f
  induction f with
  | zero => intro xs a i j; exact .refl _
  | succ f ih =>
    intro xs a i j
    simp only [partLoop]
    split
    · exact .refl _
    · exact (ih _ _ _ _).trans (aswap_toList_perm _ _ _)

theorem partitionGo_perm (xs : Array α) (a b pivot : Nat) :
    ((partitionGo less xs a b pivot).2.2).toList.Perm xs.toList := by
  simp only [partitionGo]
  split
  · exact (aswap_toList_perm _ _ _).trans (aswap_toList_perm _ _ _)
  · exact ((aswap_toList_perm _ _ _).trans
      ((partLoop_perm less _ _ _ _ _).trans
        ((aswap_toList_perm _ _ _).trans (aswap_toList_perm _ _ _))))

theorem partEqLoop_perm : ∀ (f : Nat) (xs : Array α) (a i j : Nat),
    ((partEqLoop less f xs a i j).2).toList.Perm xs.toList := by
  intro f
  induction f with
  | zero => intro xs a i j; exact .refl _
  | succ f ih =>
    intro xs a i j
    simp only [partEqLoop]
    split
    · exact .refl _
    · exact (ih _ _ _ _).trans (aswap_toList_perm _ _ _)

theorem partitionEqualGo_perm (xs : Array α) (a b pivot : Nat) :
    ((partitionEqualGo less xs a b pivot).2).toList.Perm xs.toList := by
  simp only [partitionEqualGo]
  exact (partEqLoop_perm less _ _ _ _ _).trans (aswap_toList_perm _ _ _)

theorem shiftLeftGo_perm : ∀ (f : Nat) (xs : Array α) (j : Nat),
    (shiftLeftGo less f xs j).toList.Perm xs.toList := by
  intro f
  induction f with
  | zero => intro xs j; exact .refl _
  | succ f ih =>
    intro xs j
    simp only [shiftLeftGo]
    split
    · exact (ih _ _).trans (aswap_toList_perm _ _ _)
    · exact .refl _

theorem shiftRightGo_perm : ∀ (f : Nat) (xs : Array α) (b j : Nat),
    (shiftRightGo less f xs b j).toList.Perm xs.toList := by
  intro f
  induction f with
  | zero => intro xs b j; exact .refl _
  | succ f ih =>
    intro xs b j
    simp only [shiftRightGo]
    split
    · exact (ih _ _ _).trans (aswap_toList_perm _ _ _)
    · exact .refl _

theorem partInsLoop_perm : ∀ (t : Nat) (xs : Array α) (a b i : Nat),
    ((partInsLoop less t xs a b i).2).toList.Perm xs.toList := by
  intro t
  induction t with
  | zero => intro xs a b i; exact .refl _
  | succ t ih =>
    intro xs a b i
    simp only [partInsLoop]
    split
    · exact .refl _
    · split
      · exact .refl _
      · refine (ih _ _ _ _).trans ?_
        split
        · split
          · exact (shiftRightGo_perm less _ _ _ _).trans
              ((shiftLeftGo_perm less _ _ _).trans (aswap_toList_perm _ _ _))
          · exact (shiftRightGo_perm less _ _ _ _).trans (aswap_toList_perm _ _ _)
        · split
          · exact (shiftLeftGo_perm less _ _ _).trans (aswap_toList_perm _ _ _)
          · exact aswap_toList_perm _ _ _

theorem partInsSortGo_perm (xs : Array α) (a b : Nat) :
    ((partInsSortGo less xs a b).2).toList.Perm xs.toList :=
  partInsLoop_perm less 5 xs a b (a+1)

set_option maxHeartbeats 1600000 in
theorem pdqsortGo_perm : ∀ (f : Nat) (xs : Array α) (a b limit : Nat) (wb wp : Bool),
    (pdqsortGo less f xs a b limit wb wp).toList.Perm xs.toList := by
  intro f
  induction f with
  | zero => intro xs a b limit wb wp; exact .refl _
  | succ f ih =>
    intro xs a b limit wb wp
    simp only [pdqsortGo]
    split
    · exact insertionSortGo_perm less xs a b
    · split
      · exact heapSortGo_perm less xs a b
      · -- the partitioning branch; chain the permutations of each stage
        have hL : (if ¬ wb = true then breakPatternsGo xs a b else xs).toList.Perm xs.toList := by
          split
          · exact breakPatternsGo_perm _ _ _
          · exact .refl _
        set xsL := if ¬ wb = true then breakPatternsGo xs a b else xs with hxsL
        have hR : (if (choosePivotGo less xsL a b).2 = SortedHint.decreasing then
            reverseRangeGo xsL a b else xsL).toList.Perm xsL.toList := by
          split
          · exact reverseRangeGo_perm _ _ _
          · exact .refl _
        set xsR := if (choosePivotGo less xsL a b).2 = SortedHint.decreasing then
            reverseRangeGo xsL a b else xsL with hxsR
        have hP : ∀ (c : Prop) [Decidable c],
            ((if c then partInsSortGo less xsR a b else (false, xsR)).2).toList.Perm
              xsR.toList := by
          intro c hc
          split
          · exact partInsSortGo_perm _ _ _ _
          · exact .refl _
        have hPs := hP (wb = true ∧ wp = true ∧
          (if (choosePivotGo less xsL a b).2 = SortedHint.decreasing then
            SortedHint.increasing else (choosePivotGo less xsL a b).2) = SortedHint.increasing)
        set ps := if wb = true ∧ wp = true ∧
          (if (choosePivotGo less xsL a b).2 = SortedHint.decreasing then
            SortedHint.increasing else (choosePivotGo less xsL a b).2) = SortedHint.increasing
          then partInsSortGo less xsR a b else (false, xsR) with hps
        have base : ps.2.toList.Perm xs.toList := (hPs.trans hR).trans hL
        repeat' split
        all_goals first
          | exact base
          | exact (ih _ _ _ _ _ _).trans ((partitionEqualGo_perm less _ _ _ _).trans base)
          | exact (ih _ _ _ _ _ _).trans ((ih _ _ _ _ _ _).trans
              ((partitionGo_perm less _ _ _ _).trans base))

theorem sortSliceGo_perm (l : List α) : (sortSliceGo less l).Perm l := by
  have h := pdqsortGo_perm less l.length l.toArray 0 l.length (bitsLen l.length) true true
  rw [Array.toList_toArray] at h
  exact h

end SortPermLemmas

theorem sortAccountsGo_perm (l : List AccountInfo) : (sortAccountsGo l).Perm l :=
  sortSliceGo_perm lessAccount l

theorem sortRolesGo_perm (l : List RoleInfo) : (sortRolesGo l).Perm l :=
  sortSliceGo_perm lessRole l

/-! ## Lemmas about one selection phase -/

theorem find?_pred_of_eq_some {α : Type} (p : α → Bool) :
    ∀ (l : List α) (x : α), l.find? p = some x → p x = true := by
  intro l x h
  exact List.find?_some h

theorem mem_of_find?_eq_some' {α : Type} (p : α → Bool) :
    ∀ (l : List α) (x : α), l.find? p = some x → x ∈ l := by
  intro l x h
  exact List.mem_of_find?_eq_some h

theorem selectFromSorted_found {α : Type} (render name : α → String) (ep ns : String)
    (sorted : List α) (hint : String) (chooser : List String → Except String Int)
    (hne : hint ≠ "") (hm : ∃ x, x ∈ sorted ∧ equalFoldGo (name x) hint = true) :
    (selectFromSorted render name ep ns sorted hint chooser).chooserArgs = none ∧
    ∃ x, (selectFromSorted render name ep ns sorted hint chooser).result = .ok x ∧
      x ∈ sorted ∧ equalFoldGo (name x) hint = true := by
  have hs : (sorted.find? (fun x => equalFoldGo (name x) hint)).isSome := by
    rw [List.find?_isSome]
    obtain ⟨x, hx1, hx2⟩ := hm
    exact ⟨x, hx1, hx2⟩
  obtain ⟨x, hx⟩ := Option.isSome_iff_exists.mp hs
  have hif : (if hint ≠ "" then sorted.find? (fun x => equalFoldGo (name x) hint)
      else none) = some x := by
    rw [if_pos hne]; exact hx
  refine ⟨?_, x, ?_, mem_of_find?_eq_some' _ sorted x hx,
    find?_pred_of_eq_some _ sorted x hx⟩
  · simp only [selectFromSorted, hif]
  · simp only [selectFromSorted, hif]

theorem selectFromSorted_no_match {α : Type} (render name : α → String) (ep ns : String)
    (sorted : List α) (hint : String) (chooser : List String → Except String Int)
    (hnm : hint = "" ∨ ∀ x ∈ sorted, equalFoldGo (name x) hint = false) :
    (selectFromSorted render name ep ns sorted hint chooser).chooserArgs =
      some (sorted.map render) ∧
    (∀ e, chooser (sorted.map render) = .error e →
      (selectFromSorted render name ep ns sorted hint chooser).result = .error (ep ++ e)) ∧
    (chooser (sorted.map render) = .ok (-1) →
      (selectFromSorted render name ep ns sorted hint chooser).result = .error ns) ∧
    (∀ (k : Nat) (x : α), chooser (sorted.map render) = .ok (k : Int) →
      sorted.get? k = some x →
      (selectFromSorted render name ep ns sorted hint chooser).result = .ok x) := by
  have hfound : (if hint ≠ "" then sorted.find? (fun x => equalFoldGo (name x) hint)
      else none) = none := by
    rcases hnm with h | h
    · simp [h]
    · split
      · rw [List.find?_eq_none]
        intro x hx
        simp [h x hx]
      · rfl
  simp only [selectFromSorted, hfound]
  refine ⟨?_, ?_, ?_, ?_⟩
  · rcases hc : chooser (sorted.map render) with e | idx
    · simp
    · by_cases h1 : idx = -1
      · simp [h1]
      · by_cases h2 : (0 : Int) ≤ idx
        · simp only [if_neg h1, if_pos h2]
          rcases hg : sorted.get? idx.toNat with _ | y <;> simp [hg, h1, h2]
        · simp [h1, h2]
  · intro e he; simp [he]
  · intro he; simp [he]
  · intro k x hk hgx
    have hne1 : (k : Int) ≠ -1 := by omega
    have hge : (0 : Int) ≤ (k : Int) := by omega
    rw [List.get?_eq_getElem?] at hgx
    simp [hk, hne1, hge, hgx]

/-! ## Theorems for the claims on selection and the login tail -/

/-- **C1**: for every candidate list and every non-empty hint matching some
candidate case-insensitively, account selection (and identically role
selection) returns a matching entry of the list immediately, without
invoking the interactive chooser. -/
theorem claim1_hint_match_skips_chooser :
    (∀ (accounts : List AccountInfo) (hint : String)
        (chooser : List String → Except String Int),
      hint ≠ "" → (∃ a, a ∈ accounts ∧ equalFoldGo a.accountName hint = true) →
      (selectAccountGo accounts hint chooser).chooserArgs = none ∧
      ∃ a, (selectAccountGo accounts hint chooser).result = .ok a ∧
        a ∈ accounts ∧ equalFoldGo a.accountName hint = true) ∧
    (∀ (roles : List RoleInfo) (hint : String)
        (chooser : List String → Except String Int),
      hint ≠ "" → (∃ r, r ∈ roles ∧ equalFoldGo r.roleName hint = true) →
      (selectRoleGo roles hint chooser).chooserArgs = none ∧
      ∃ r, (selectRoleGo roles hint chooser).result = .ok r ∧
        r ∈ roles ∧ equalFoldGo r.roleName hint = true) := by
  constructor
  · intro accounts hint chooser hne hm
    obtain ⟨a, ha, hfold⟩ := hm
    have hm2 : ∃ x, x ∈ sortAccountsGo accounts ∧ equalFoldGo x.accountName hint = true :=
      ⟨a, (sortAccountsGo_perm accounts).mem_iff.mpr ha, hfold⟩
    obtain ⟨h1, x, h2, h3, h4⟩ := selectFromSorted_found renderAccount AccountInfo.accountName
      "error selecting account: " "no account selected" (sortAccountsGo accounts) hint
      chooser hne hm2
    exact ⟨h1, x, h2, (sortAccountsGo_perm accounts).mem_iff.mp h3, h4⟩
  · intro roles hint chooser hne hm
    obtain ⟨r, hr, hfold⟩ := hm
    have hm2 : ∃ x, x ∈ sortRolesGo roles ∧ equalFoldGo x.roleName hint = true :=
      ⟨r, (sortRolesGo_perm roles).mem_iff.mpr hr, hfold⟩
    obtain ⟨h1, x, h2, h3, h4⟩ := selectFromSorted_found renderRole RoleInfo.roleName
      "error selecting role: " "no role selected" (sortRolesGo roles) hint chooser hne hm2
    exact ⟨h1, x, h2, (sortRolesGo_perm roles).mem_iff.mp h3, h4⟩

/-- Witness for C1 at a concrete input: hint `"dev"` matches account `Dev`
case-insensitively; no chooser call happens (the chooser supplied here would
fail the run if it were consulted). -/
theorem claim1_witness :
    (("dev" : String) ≠ "" ∧
      ∃ a, a ∈ [(⟨"222", "Prod"⟩ : AccountInfo), acctDev] ∧
        equalFoldGo a.accountName "dev" = true) ∧
    ((selectAccountGo [⟨"222", "Prod"⟩, acctDev] "dev" (fun _ => .error "unused")).chooserArgs
        = none ∧
      ∃ a, (selectAccountGo [⟨"222", "Prod"⟩, acctDev] "dev"
          (fun _ => .error "unused")).result = .ok a ∧
        a ∈ [(⟨"222", "Prod"⟩ : AccountInfo), acctDev] ∧
        equalFoldGo a.accountName "dev" = true) :=
  ⟨⟨by decide, acctDev, by decide, by decide⟩,
    claim1_hint_match_skips_chooser.1 [⟨"222", "Prod"⟩, acctDev] "dev"
      (fun _ => .error "unused") (by decide) ⟨acctDev, by decide, by decide⟩⟩

/-- **C4**: for well-formed provider traces, `ListAccounts`/`ListRoles`
return the concatenation of the page contents in page order, and any two
well-formed pagings of the same items yield the same aggregate. -/
theorem claim4_pagination_concat_split_independent
    (pa pa2 : List (PageResult AccountInfo)) (pr pr2 : List (PageResult RoleInfo))
    (ha : ChainOK pa) (ha2 : ChainOK pa2) (hr : ChainOK pr) (hr2 : ChainOK pr2)
    (hsa : (pa2.map PageResult.items).flatten = (pa.map PageResult.items).flatten)
    (hsr : (pr2.map PageResult.items).flatten = (pr.map PageResult.items).flatten) :
    listAccountsGo pa = .ok ((pa.map PageResult.items).flatten) ∧
    listAccountsGo pa2 = listAccountsGo pa ∧
    listRolesGo pr = .ok ((pr.map PageResult.items).flatten) ∧
    listRolesGo pr2 = listRolesGo pr := by
  have e1 := listPagedGo_chainOK pa ha []
  have e2 := listPagedGo_chainOK pa2 ha2 []
  have e3 := listPagedGo_chainOK pr hr []
  have e4 := listPagedGo_chainOK pr2 hr2 []
  simp only [List.nil_append] at e1 e2 e3 e4
  refine ⟨e1, ?_, e3, ?_⟩
  · show listPagedGo [] pa2 = listPagedGo [] pa
    rw [e1, e2, hsa]
  · show listPagedGo [] pr2 = listPagedGo [] pr
    rw [e3, e4, hsr]

/-- Witness for C4: the same single account split into one page of one item
plus an empty final page, versus a single final page. -/
theorem claim4_witness :
    (ChainOK [PageResult.ok [acctDev] true, PageResult.ok [] false] ∧
      ChainOK [PageResult.ok [acctDev] false] ∧
      ChainOK [PageResult.ok [roleAdmin] false] ∧
      ChainOK [PageResult.ok ([] : List RoleInfo) true, PageResult.ok [roleAdmin] false]) ∧
    (listAccountsGo [PageResult.ok [acctDev] true, PageResult.ok [] false] =
        .ok (([PageResult.ok [acctDev] true,
          PageResult.ok [] false].map PageResult.items).flatten) ∧
      listAccountsGo [PageResult.ok [acctDev] false] =
        listAccountsGo [PageResult.ok [acctDev] true, PageResult.ok [] false] ∧
      listRolesGo [PageResult.ok [roleAdmin] false] =
        .ok (([PageResult.ok [roleAdmin] false].map PageResult.items).flatten) ∧
      listRolesGo [PageResult.ok ([] : List RoleInfo) true, PageResult.ok [roleAdmin] false] =
        listRolesGo [PageResult.ok [roleAdmin] false]) :=
  ⟨⟨by simp [ChainOK], by simp [ChainOK], by simp [ChainOK], by simp [ChainOK]⟩,
    claim4_pagination_concat_split_independent
      [PageResult.ok [acctDev] true, PageResult.ok [] false]
      [PageResult.ok [acctDev] false]
      [PageResult.ok [roleAdmin] false]
      [PageResult.ok ([] : List RoleInfo) true, PageResult.ok [roleAdmin] false]
      (by simp [ChainOK]) (by simp [ChainOK]) (by simp [ChainOK]) (by simp [ChainOK])
      (by decide) (by decide)⟩

/-- **C6**: a failing page fetch aborts `ListAccounts`/`ListRoles` with that
error; results of earlier successful pages are discarded (the outcome is an
`error`, which carries no items). -/
theorem claim6_page_error_discards_partial
    (frontA : List (PageResult AccountInfo)) (restA : List (PageResult AccountInfo))
    (frontR : List (PageResult RoleInfo)) (restR : List (PageResult RoleInfo))
    (eA eR : String)
    (hfa : ∀ p ∈ frontA, ∃ items, p = .ok items true)
    (hfr : ∀ p ∈ frontR, ∃ items, p = .ok items true) :
    listAccountsGo (frontA ++ .err eA :: restA) = .error eA ∧
    listRolesGo (frontR ++ .err eR :: restR) = .error eR :=
  ⟨listPagedGo_err_of_front frontA eA restA hfa [],
   listPagedGo_err_of_front frontR eR restR hfr []⟩

/-- Witness for C6: one successful page of one account followed by a failing
page: the account from the first page is discarded. -/
theorem claim6_witness :
    ((∀ p ∈ [PageResult.ok [acctDev] true], ∃ items, p = .ok items true) ∧
      (∀ p ∈ [PageResult.ok [roleAdmin] true], ∃ items, p = .ok items true)) ∧
    (listAccountsGo ([PageResult.ok [acctDev] true] ++ .err "throttled" :: []) =
        .error "throttled" ∧
      listRolesGo ([PageResult.ok [roleAdmin] true] ++ .err "throttled" :: []) =
        .error "throttled") :=
  ⟨⟨by intro p hp; rw [List.mem_singleton] at hp; exact ⟨[acctDev], by rw [hp]⟩,
    by intro p hp; rw [List.mem_singleton] at hp; exact ⟨[roleAdmin], by rw [hp]⟩⟩,
   claim6_page_error_discards_partial [PageResult.ok [acctDev] true] []
     [PageResult.ok [roleAdmin] true] [] "throttled" "throttled"
     (by intro p hp; rw [List.mem_singleton] at hp; exact ⟨[acctDev], by rw [hp]⟩)
     (by intro p hp; rw [List.mem_singleton] at hp; exact ⟨[roleAdmin], by rw [hp]⟩)⟩

/-- **C2, counterexample**: a run in which everything up to and including the
profile write succeeds and only `SaveSession` fails does *not* complete
successfully — `handleAccountRoleSelection` aborts with
`error saving session: …` (line 535), contradicting the claim that a
session-write failure is downgraded to a warning. -/
theorem claim2_counterexample :
    (handleAccountRoleSelectionGo envSessionFail [acctDev] "dev" "admin").result =
      .error "error saving session: disk full" := by decide

/-- **C2, amended**: when the profile write succeeds but the session write
fails, the login *aborts* with `error saving session: …`; the session-write
failure is fatal (only the account-cache write and the stale-session cleanup
are downgraded). -/
theorem claim2_amended_session_write_failure_is_fatal
    (env : HandleEnv) (accounts : List AccountInfo) (aN rN : String)
    (acc : AccountInfo) (roles : List RoleInfo) (role : RoleInfo)
    (creds : RoleCredentials) (pn e : String)
    (hacc : (selectAccountGo accounts aN env.accountChooser).result = .ok acc)
    (hroles : listRolesGo (env.rolePages acc.accountId) = .ok roles)
    (hne : roles.isEmpty = false)
    (hrole : (selectRoleGo roles rN env.roleChooser).result = .ok role)
    (hcred : env.getRoleCredentials acc.accountId role.roleName = .ok creds)
    (hprof : env.writeProfile acc.accountName acc.accountId role.roleName creds = .ok pn)
    (hsess : env.saveSession pn acc.accountId acc.accountName role.roleName = .error e) :
    (handleAccountRoleSelectionGo env accounts aN rN).result =
      .error ("error saving session: " ++ e) := by
  simp only [handleAccountRoleSelectionGo, hacc, hroles, hne, hrole, hcred, hprof, hsess]
  rfl

/-- Witness for the amended C2 at the concrete run of the counterexample. -/
theorem claim2_amended_witness :
    ((selectAccountGo [acctDev] "dev" envSessionFail.accountChooser).result = .ok acctDev ∧
      listRolesGo (envSessionFail.rolePages acctDev.accountId) = .ok [roleAdmin] ∧
      ([roleAdmin] : List RoleInfo).isEmpty = false ∧
      (selectRoleGo [roleAdmin] "admin" envSessionFail.roleChooser).result = .ok roleAdmin ∧
      envSessionFail.getRoleCredentials acctDev.accountId roleAdmin.roleName = .ok credsX ∧
      envSessionFail.writeProfile acctDev.accountName acctDev.accountId roleAdmin.roleName
        credsX = .ok "dev-admin" ∧
      envSessionFail.saveSession "dev-admin" acctDev.accountId acctDev.accountName
        roleAdmin.roleName = .error "disk full") ∧
    (handleAccountRoleSelectionGo envSessionFail [acctDev] "dev" "admin").result =
      .error ("error saving session: " ++ "disk full") :=
  ⟨⟨by decide, by decide, by decide, by decide, by decide, by decide, by decide⟩,
    claim2_amended_session_write_failure_is_fatal envSessionFail [acctDev] "dev" "admin"
      acctDev [roleAdmin] roleAdmin credsX "dev-admin" "disk full"
      (by decide) (by decide) (by decide) (by decide) (by decide) (by decide) (by decide)⟩

/-- **C7**: once the run reaches the post-session-save stage, a failing
stale-session cleanup sweep never aborts the login: its outcome is discarded
(line 539) and the workflow still reports success. -/
theorem claim7_cleanup_failure_swallowed
    (env : HandleEnv) (accounts : List AccountInfo) (aN rN : String)
    (acc : AccountInfo) (roles : List RoleInfo) (role : RoleInfo)
    (creds : RoleCredentials) (pn e : String)
    (hacc : (selectAccountGo accounts aN env.accountChooser).result = .ok acc)
    (hroles : listRolesGo (env.rolePages acc.accountId) = .ok roles)
    (hne : roles.isEmpty = false)
    (hrole : (selectRoleGo roles rN env.roleChooser).result = .ok role)
    (hcred : env.getRoleCredentials acc.accountId role.roleName = .ok creds)
    (hprof : env.writeProfile acc.accountName acc.accountId role.roleName creds = .ok pn)
    (hsess : env.saveSession pn acc.accountId acc.accountName role.roleName = .ok ())
    (hclean : env.cleanupStaleSessions = .error e) :
    (handleAccountRoleSelectionGo env accounts aN rN).result =
      .ok ⟨pn, acc.accountId, acc.accountName, role.roleName⟩ ∧
    (handleAccountRoleSelectionGo env accounts aN rN).cleanupRan = true := by
  simp only [handleAccountRoleSelectionGo, hacc, hroles, hne, hrole, hcred, hprof, hsess]
  exact ⟨rfl, rfl⟩

/-- **C8**: when the interactive chooser yields no selection (`-1`, the user
aborting) or fails, the selection workflow fails with an error propagated by
`handleAccountRoleSelection`; no default account or role is substituted.
Stated for the account phase and, for runs that reach it, the role phase. -/
theorem claim8_chooser_abort_is_error :
    (∀ (env : HandleEnv) (accounts : List AccountInfo) (aN rN : String),
      (aN = "" ∨ ∀ a ∈ accounts, equalFoldGo a.accountName aN = false) →
      env.accountChooser ((sortAccountsGo accounts).map renderAccount) = .ok (-1) →
      (handleAccountRoleSelectionGo env accounts aN rN).result =
        .error "no account selected") ∧
    (∀ (env : HandleEnv) (accounts : List AccountInfo) (aN rN e : String),
      (aN = "" ∨ ∀ a ∈ accounts, equalFoldGo a.accountName aN = false) →
      env.accountChooser ((sortAccountsGo accounts).map renderAccount) = .error e →
      (handleAccountRoleSelectionGo env accounts aN rN).result =
        .error ("error selecting account: " ++ e)) ∧
    (∀ (env : HandleEnv) (accounts : List AccountInfo) (aN rN : String)
        (acc : AccountInfo) (roles : List RoleInfo),
      (selectAccountGo accounts aN env.accountChooser).result = .ok acc →
      listRolesGo (env.rolePages acc.accountId) = .ok roles →
      roles.isEmpty = false →
      (rN = "" ∨ ∀ r ∈ roles, equalFoldGo r.roleName rN = false) →
      env.roleChooser ((sortRolesGo roles).map renderRole) = .ok (-1) →
      (handleAccountRoleSelectionGo env accounts aN rN).result =
        .error "no role selected") ∧
    (∀ (env : HandleEnv) (accounts : List AccountInfo) (aN rN e : String)
        (acc : AccountInfo) (roles : List RoleInfo),
      (selectAccountGo accounts aN env.accountChooser).result = .ok acc →
      listRolesGo (env.rolePages acc.accountId) = .ok roles →
      roles.isEmpty = false →
      (rN = "" ∨ ∀ r ∈ roles, equalFoldGo r.roleName rN = false) →
      env.roleChooser ((sortRolesGo roles).map renderRole) = .error e →
      (handleAccountRoleSelectionGo env accounts aN rN).result =
        .error ("error selecting role: " ++ e)) := by
  have accNm : ∀ (accounts : List AccountInfo) (aN : String),
      (aN = "" ∨ ∀ a ∈ accounts, equalFoldGo a.accountName aN = false) →
      (aN = "" ∨ ∀ x ∈ sortAccountsGo accounts, equalFoldGo x.accountName aN = false) := by
    intro accounts aN hnm
    rcases hnm with h | h
    · exact Or.inl h
    · exact Or.inr fun x hx => h x ((sortAccountsGo_perm accounts).mem_iff.mp hx)
  have roleNm : ∀ (roles : List RoleInfo) (rN : String),
      (rN = "" ∨ ∀ r ∈ roles, equalFoldGo r.roleName rN = false) →
      (rN = "" ∨ ∀ x ∈ sortRolesGo roles, equalFoldGo x.roleName rN = false) := by
    intro roles rN hnm
    rcases hnm with h | h
    · exact Or.inl h
    · exact Or.inr fun x hx => h x ((sortRolesGo_perm roles).mem_iff.mp hx)
  refine ⟨?_, ?_, ?_, ?_⟩
  · intro env accounts aN rN hnm hch
    have hres : (selectAccountGo accounts aN env.accountChooser).result =
        .error "no account selected" :=
      (selectFromSorted_no_match renderAccount AccountInfo.accountName
        "error selecting account: " "no account selected" (sortAccountsGo accounts) aN
        env.accountChooser (accNm accounts aN hnm)).2.2.1 hch
    simp only [handleAccountRoleSelectionGo, hres]
  · intro env accounts aN rN e hnm hch
    have hres : (selectAccountGo accounts aN env.accountChooser).result =
        .error ("error selecting account: " ++ e) :=
      (selectFromSorted_no_match renderAccount AccountInfo.accountName
        "error selecting account: " "no account selected" (sortAccountsGo accounts) aN
        env.accountChooser (accNm accounts aN hnm)).2.1 e hch
    simp only [handleAccountRoleSelectionGo, hres]
  · intro env accounts aN rN acc roles hacc hroles hne hnm hch
    have hres : (selectRoleGo roles rN env.roleChooser).result =
        .error "no role selected" :=
      (selectFromSorted_no_match renderRole RoleInfo.roleName
        "error selecting role: " "no role selected" (sortRolesGo roles) rN
        env.roleChooser (roleNm roles rN hnm)).2.2.1 hch
    simp only [handleAccountRoleSelectionGo, hacc, hroles, hne, hres]
    rfl
  · intro env accounts aN rN e acc roles hacc hroles hne hnm hch
    have hres : (selectRoleGo roles rN env.roleChooser).result =
        .error ("error selecting role: " ++ e) :=
      (selectFromSorted_no_match renderRole RoleInfo.roleName
        "error selecting role: " "no role selected" (sortRolesGo roles) rN
        env.roleChooser (roleNm roles rN hnm)).2.1 e hch
    simp only [handleAccountRoleSelectionGo, hacc, hroles, hne, hres]
    rfl

/-- Witness for C8: with no hint and a chooser answering `-1`, the workflow
fails with `no account selected`. -/
theorem claim8_witness :
    ((("" : String) = "" ∨
        ∀ a ∈ [acctDev], equalFoldGo a.accountName "" = false) ∧
      envAbort.accountChooser ((sortAccountsGo [acctDev]).map renderAccount) = .ok (-1)) ∧
    (handleAccountRoleSelectionGo envAbort [acctDev] "" "").result =
      .error "no account selected" :=
  ⟨⟨Or.inl rfl, by decide⟩,
    claim8_chooser_abort_is_error.1 envAbort [acctDev] "" "" (Or.inl rfl) (by decide)⟩

/-- Witness for C7 at a concrete run with a failing cleanup. -/
theorem claim7_witness :
    ((selectAccountGo [acctDev] "dev" envCleanupFail.accountChooser).result = .ok acctDev ∧
      listRolesGo (envCleanupFail.rolePages acctDev.accountId) = .ok [roleAdmin] ∧
      ([roleAdmin] : List RoleInfo).isEmpty = false ∧
      (selectRoleGo [roleAdmin] "admin" envCleanupFail.roleChooser).result = .ok roleAdmin ∧
      envCleanupFail.getRoleCredentials acctDev.accountId roleAdmin.roleName = .ok credsX ∧
      envCleanupFail.writeProfile acctDev.accountName acctDev.accountId roleAdmin.roleName
        credsX = .ok "dev-admin" ∧
      envCleanupFail.saveSession "dev-admin" acctDev.accountId acctDev.accountName
        roleAdmin.roleName = .ok () ∧
      envCleanupFail.cleanupStaleSessions = .error "cannot read session file") ∧
    ((handleAccountRoleSelectionGo envCleanupFail [acctDev] "dev" "admin").result =
        .ok ⟨"dev-admin", acctDev.accountId, acctDev.accountName, roleAdmin.roleName⟩ ∧
      (handleAccountRoleSelectionGo envCleanupFail [acctDev] "dev" "admin").cleanupRan =
        true) :=
  ⟨⟨by decide, by decide, by decide, by decide, by decide, by decide, by decide, by decide⟩,
    claim7_cleanup_failure_swallowed envCleanupFail [acctDev] "dev" "admin"
      acctDev [roleAdmin] roleAdmin credsX "dev-admin" "cannot read session file"
      (by decide) (by decide) (by decide) (by decide) (by decide) (by decide) (by decide)
      (by decide)⟩

/-! ## Lemmas for the login workflow (`RunLogin`) -/

theorem data_append (p q : String) : (p ++ q).data = p.data ++ q.data := by
  cases p
  cases q
  rfl

theorem append_ne_of_head (p t : String) (c : Char) (cs : List Char)
    (hp : p.data = c :: cs) (hh : p.data.head? ≠ t.data.head?) :
    ∀ e, p ++ e ≠ t := by
  intro e heq
  apply hh
  rw [String.ext_iff] at heq
  rw [data_append, hp] at heq
  rw [← heq, hp]
  rfl

/-- The call counts of the re-authentication tail: exactly one
authentication; at most one further token read and one further listing, the
listing happening exactly when both the authentication and the token read
succeed. -/
theorem runLoginAuthPath_trace (env : LoginEnv) (aN rN : String) (tc lc : Nat) :
    (runLoginAuthPath env aN rN tc lc).authCalls = 1 ∧
    (runLoginAuthPath env aN rN tc lc).listCalls ≤ lc + 1 ∧
    (runLoginAuthPath env aN rN tc lc).tokenCalls ≤ tc + 1 ∧
    (∀ t2, env.authenticate = .ok () → env.getCachedToken tc = .ok t2 →
      (runLoginAuthPath env aN rN tc lc).listCalls = lc + 1) := by
  rcases ha : env.authenticate with ea | u
  · have htr : runLoginAuthPath env aN rN tc lc =
        ⟨.error ("SSO authentication failed: " ++ ea), 1, lc, tc⟩ := by
      simp only [runLoginAuthPath, ha]
    rw [htr]
    exact ⟨rfl, Nat.le_succ lc, Nat.le_succ tc,
      fun t2 h1 => nomatch h1⟩
  · rcases ht : env.getCachedToken tc with et | t2
    · have htr : runLoginAuthPath env aN rN tc lc =
          ⟨.error ("failed to get access token: " ++ et), 1, lc, tc + 1⟩ := by
        simp only [runLoginAuthPath, ha, ht]
      rw [htr]
      exact ⟨rfl, Nat.le_succ lc, Nat.le_refl (tc + 1),
        fun t2 h1 h2 => nomatch h2⟩
    · rcases hl : listAccountsGo (env.accountPages lc) with el | accounts
      · have htr : runLoginAuthPath env aN rN tc lc =
            ⟨.error ("error listing accounts: " ++ el), 1, lc + 1, tc + 1⟩ := by
          simp only [runLoginAuthPath, ha, ht, hl]
        rw [htr]
        exact ⟨rfl, Nat.le_refl (lc + 1), Nat.le_refl (tc + 1), fun _ _ _ => rfl⟩
      · by_cases hz : accounts.length = 0
        · have htr : runLoginAuthPath env aN rN tc lc =
              ⟨.error "no accounts found", 1, lc + 1, tc + 1⟩ := by
            simp only [runLoginAuthPath, ha, ht, hl, if_pos hz]
          rw [htr]
          exact ⟨rfl, Nat.le_refl (lc + 1), Nat.le_refl (tc + 1), fun _ _ _ => rfl⟩
        · have htr : runLoginAuthPath env aN rN tc lc =
              ⟨(handleAccountRoleSelectionGo env.handleEnv accounts aN rN).result,
               1, lc + 1, tc + 1⟩ := by
            simp only [runLoginAuthPath, ha, ht, hl, if_neg hz]
          rw [htr]
          exact ⟨rfl, Nat.le_refl (lc + 1), Nat.le_refl (tc + 1), fun _ _ _ => rfl⟩

/-- The error outcomes one selection phase can produce. -/
theorem selectFromSorted_error_shapes {α : Type} (render name : α → String)
    (ep ns : String) (sorted : List α) (hint : String)
    (chooser : List String → Except String Int) (s : String)
    (h : (selectFromSorted render name ep ns sorted hint chooser).result = .error s) :
    s = ns ∨ s = "panic: runtime error: index out of range" ∨ ∃ e, s = ep ++ e := by
  rcases hf : (if hint ≠ "" then sorted.find? (fun x => equalFoldGo (name x) hint)
      else none) with _ | x
  · rcases hc : chooser (sorted.map render) with e | idx
    · have hres : (selectFromSorted render name ep ns sorted hint chooser).result =
          .error (ep ++ e) := by simp only [selectFromSorted, hf, hc]
      rw [hres] at h
      simp only [Except.error.injEq] at h
      exact Or.inr (Or.inr ⟨e, h.symm⟩)
    · by_cases h1 : idx = -1
      · have hres : (selectFromSorted render name ep ns sorted hint chooser).result =
            .error ns := by simp only [selectFromSorted, hf, hc, if_pos h1]
        rw [hres] at h
        simp only [Except.error.injEq] at h
        exact Or.inl h.symm
      · by_cases h2 : (0 : Int) ≤ idx
        · rcases hg : sorted[idx.toNat]? with _ | y
          · have hres : (selectFromSorted render name ep ns sorted hint chooser).result =
                .error "panic: runtime error: index out of range" := by
              simp only [selectFromSorted, hf, hc, if_neg h1, if_pos h2,
                List.get?_eq_getElem?, hg]
            rw [hres] at h
            simp only [Except.error.injEq] at h
            exact Or.inr (Or.inl h.symm)
          · have hres : (selectFromSorted render name ep ns sorted hint chooser).result =
                .ok y := by
              simp only [selectFromSorted, hf, hc, if_neg h1, if_pos h2,
                List.get?_eq_getElem?, hg]
            rw [hres] at h
            cases h
        · have hres : (selectFromSorted render name ep ns sorted hint chooser).result =
              .error "panic: runtime error: index out of range" := by
            simp only [selectFromSorted, hf, hc, if_neg h1, if_neg h2]
          rw [hres] at h
          simp only [Except.error.injEq] at h
          exact Or.inr (Or.inl h.symm)
  · have hres : (selectFromSorted render name ep ns sorted hint chooser).result =
        .ok x := by simp only [selectFromSorted, hf]
    rw [hres] at h
    cases h

/-- The error outcomes `handleAccountRoleSelection` can produce: each is
either one of its fixed messages or carries one of its fixed prefixes.  In
particular none of them is the string `no accounts found`. -/
theorem handle_error_shapes (env : HandleEnv) (accounts : List AccountInfo)
    (aN rN s : String)
    (h : (handleAccountRoleSelectionGo env accounts aN rN).result = .error s) :
    s = "no roles found for this account" ∨ s = "no account selected" ∨
    s = "no role selected" ∨ s = "panic: runtime error: index out of range" ∨
    ∃ e, s = "error selecting account: " ++ e ∨ s = "error selecting role: " ++ e ∨
      s = "error listing roles: " ++ e ∨ s = "error getting role credentials: " ++ e ∨
      s = "error writing profile: " ++ e ∨ s = "error saving session: " ++ e := by
  rcases ha : (selectAccountGo accounts aN env.accountChooser).result with ea | acc
  · have hres : (handleAccountRoleSelectionGo env accounts aN rN).result = .error ea := by
      simp only [handleAccountRoleSelectionGo, ha]
    rw [hres] at h
    simp only [Except.error.injEq] at h
    subst h
    rcases selectFromSorted_error_shapes renderAccount AccountInfo.accountName
      "error selecting account: " "no account selected" (sortAccountsGo accounts) aN
      env.accountChooser ea ha with h1 | h1 | ⟨e, h1⟩
    · exact Or.inr (Or.inl h1)
    · exact Or.inr (Or.inr (Or.inr (Or.inl h1)))
    · exact Or.inr (Or.inr (Or.inr (Or.inr ⟨e, Or.inl h1⟩)))
  · rcases hr : listRolesGo (env.rolePages acc.accountId) with er | roles
    · have hres : (handleAccountRoleSelectionGo env accounts aN rN).result =
          .error ("error listing roles: " ++ er) := by
        simp only [handleAccountRoleSelectionGo, ha, hr]
      rw [hres] at h
      simp only [Except.error.injEq] at h
      exact Or.inr (Or.inr (Or.inr (Or.inr ⟨er, Or.inr (Or.inr (Or.inl h.symm))⟩)))
    · by_cases hne : roles.isEmpty
      · have hres : (handleAccountRoleSelectionGo env accounts aN rN).result =
            .error "no roles found for this account" := by
          simp only [handleAccountRoleSelectionGo, ha, hr, hne, if_pos]
        rw [hres] at h
        simp only [Except.error.injEq] at h
        exact Or.inl h.symm
      · have hne2 : roles.isEmpty = false := by simpa using hne
        rcases hrs : (selectRoleGo roles rN env.roleChooser).result with er | role
        · have hres : (handleAccountRoleSelectionGo env accounts aN rN).result =
              .error er := by
            simp only [handleAccountRoleSelectionGo, ha, hr, hne2, hrs]
            rfl
          rw [hres] at h
          simp only [Except.error.injEq] at h
          subst h
          rcases selectFromSorted_error_shapes renderRole RoleInfo.roleName
            "error selecting role: " "no role selected" (sortRolesGo roles) rN
            env.roleChooser er hrs with h1 | h1 | ⟨e, h1⟩
          · exact Or.inr (Or.inr (Or.inl h1))
          · exact Or.inr (Or.inr (Or.inr (Or.inl h1)))
          · exact Or.inr (Or.inr (Or.inr (Or.inr ⟨e, Or.inr (Or.inl h1)⟩)))
        · rcases hcred : env.getRoleCredentials acc.accountId role.roleName with ec | creds
          · have hres : (handleAccountRoleSelectionGo env accounts aN rN).result =
                .error ("error getting role credentials: " ++ ec) := by
              simp only [handleAccountRoleSelectionGo, ha, hr, hne2, hrs, hcred]
              rfl
            rw [hres] at h
            simp only [Except.error.injEq] at h
            exact Or.inr (Or.inr (Or.inr (Or.inr
              ⟨ec, Or.inr (Or.inr (Or.inr (Or.inl h.symm)))⟩)))
          · rcases hw : env.writeProfile acc.accountName acc.accountId role.roleName creds
              with ew | pn
            · have hres : (handleAccountRoleSelectionGo env accounts aN rN).result =
                  .error ("error writing profile: " ++ ew) := by
                simp only [handleAccountRoleSelectionGo, ha, hr, hne2, hrs, hcred, hw]
                rfl
              rw [hres] at h
              simp only [Except.error.injEq] at h
              exact Or.inr (Or.inr (Or.inr (Or.inr
                ⟨ew, Or.inr (Or.inr (Or.inr (Or.inr (Or.inl h.symm))))⟩)))
            · rcases hss : env.saveSession pn acc.accountId acc.accountName role.roleName
                with es | u
              · have hres : (handleAccountRoleSelectionGo env accounts aN rN).result =
                    .error ("error saving session: " ++ es) := by
                  simp only [handleAccountRoleSelectionGo, ha, hr, hne2, hrs, hcred,
                    hw, hss]
                  rfl
                rw [hres] at h
                simp only [Except.error.injEq] at h
                exact Or.inr (Or.inr (Or.inr (Or.inr
                  ⟨es, Or.inr (Or.inr (Or.inr (Or.inr (Or.inr h.symm))))⟩)))
              · have hres : (handleAccountRoleSelectionGo env accounts aN rN).result =
                    .ok ⟨pn, acc.accountId, acc.accountName, role.roleName⟩ := by
                  simp only [handleAccountRoleSelectionGo, ha, hr, hne2, hrs, hcred,
                    hw, hss]
                  rfl
                rw [hres] at h
                cases h

/-- No error of `handleAccountRoleSelection` is the string
`no accounts found`. -/
theorem handle_result_ne_no_accounts (env : HandleEnv) (accounts : List AccountInfo)
    (aN rN : String)
    (h : (handleAccountRoleSelectionGo env accounts aN rN).result =
      .error "no accounts found") : False := by
  rcases handle_error_shapes env accounts aN rN "no accounts found" h with
    h1 | h1 | h1 | h1 | ⟨e, h1 | h1 | h1 | h1 | h1 | h1⟩
  · exact absurd h1 (by decide)
  · exact absurd h1 (by decide)
  · exact absurd h1 (by decide)
  · exact absurd h1 (by decide)
  · exact append_ne_of_head "error selecting account: " "no accounts found"
      _ _ rfl (by decide) e h1.symm
  · exact append_ne_of_head "error selecting role: " "no accounts found"
      _ _ rfl (by decide) e h1.symm
  · exact append_ne_of_head "error listing roles: " "no accounts found"
      _ _ rfl (by decide) e h1.symm
  · exact append_ne_of_head "error getting role credentials: " "no accounts found"
      _ _ rfl (by decide) e h1.symm
  · exact append_ne_of_head "error writing profile: " "no accounts found"
      _ _ rfl (by decide) e h1.symm
  · exact append_ne_of_head "error saving session: " "no accounts found"
      _ _ rfl (by decide) e h1.symm

/-- **C9, counterexample**: `force=false`, the cached token reads fine but
listing accounts with it fails, and the re-authentication attempt is
refused.  Authentication is performed exactly once, but the account listing
is *not* retried (one listing call in total), contradicting the claim that
on the fallback path "the account listing is retried exactly once". -/
theorem claim9_counterexample :
    (runLoginGo envAuthRefused false "" "").authCalls = 1 ∧
    (runLoginGo envAuthRefused false "" "").listCalls = 1 := by decide

/-- **C9, amended**: with `force=false`, if the cached token works and the
first listing succeeds non-empty, no authentication happens and the listing
runs exactly once.  Otherwise authentication runs exactly once, and the
listing is run exactly once more — so twice in total when the fast path
attempted it, once when the cached token was unreadable — provided the
authentication and the fresh token read succeed; when one of them fails the
workflow aborts without retrying the listing.  In every case at most one
authentication, two listings and two token reads happen. -/
theorem claim9_amended_retry_discipline (env : LoginEnv) (aN rN : String)
    (hcfg : env.startUrlEmpty = false) (hmgr : env.newCredentialsManager = .ok ()) :
    (∀ tok accounts, env.getCachedToken 0 = .ok tok →
      listAccountsGo (env.accountPages 0) = .ok accounts → 0 < accounts.length →
      (runLoginGo env false aN rN).authCalls = 0 ∧
      (runLoginGo env false aN rN).listCalls = 1 ∧
      (runLoginGo env false aN rN).tokenCalls = 1) ∧
    ((¬ ∃ tok accounts, env.getCachedToken 0 = .ok tok ∧
        listAccountsGo (env.accountPages 0) = .ok accounts ∧ 0 < accounts.length) →
      (runLoginGo env false aN rN).authCalls = 1 ∧
      (runLoginGo env false aN rN).listCalls ≤ 2 ∧
      (runLoginGo env false aN rN).tokenCalls ≤ 2 ∧
      (∀ t2, env.authenticate = .ok () → env.getCachedToken 1 = .ok t2 →
        (runLoginGo env false aN rN).listCalls =
          (match env.getCachedToken 0 with | .ok _ => 2 | .error _ => 1))) := by
  constructor
  · intro tok accounts h0 hl hlen
    have htr : runLoginGo env false aN rN =
        ⟨(handleAccountRoleSelectionGo env.handleEnv accounts aN rN).result, 0, 1, 1⟩ := by
      simp only [runLoginGo, hcfg, hmgr, h0, hl, if_pos hlen]
      rfl
    rw [htr]
    exact ⟨rfl, rfl, rfl⟩
  · intro hno
    rcases h0 : env.getCachedToken 0 with e0 | tok
    · have htr : runLoginGo env false aN rN = runLoginAuthPath env aN rN 1 0 := by
        simp only [runLoginGo, hcfg, hmgr, h0]
        rfl
      obtain ⟨t1, t2, t3, t4⟩ := runLoginAuthPath_trace env aN rN 1 0
      rw [htr]
      exact ⟨t1, by omega, by omega, fun t hA hT => t4 t hA hT⟩
    · rcases hl : listAccountsGo (env.accountPages 0) with el | accounts
      · have htr : runLoginGo env false aN rN = runLoginAuthPath env aN rN 1 1 := by
          simp only [runLoginGo, hcfg, hmgr, h0, hl]
          rfl
        obtain ⟨t1, t2, t3, t4⟩ := runLoginAuthPath_trace env aN rN 1 1
        rw [htr]
        exact ⟨t1, by omega, by omega, fun t hA hT => t4 t hA hT⟩
      · have hz : ¬ accounts.length > 0 := by
          intro hpos
          exact hno ⟨tok, accounts, h0, hl, hpos⟩
        have htr : runLoginGo env false aN rN = runLoginAuthPath env aN rN 1 1 := by
          simp only [runLoginGo, hcfg, hmgr, h0, hl, if_neg hz]
          rfl
        obtain ⟨t1, t2, t3, t4⟩ := runLoginAuthPath_trace env aN rN 1 1
        rw [htr]
        exact ⟨t1, by omega, by omega, fun t hA hT => t4 t hA hT⟩

/-- Witness for the amended C9 on the counterexample run: fallback entered,
one authentication, and (since authentication fails) a single listing. -/
theorem claim9_amended_witness :
    (envAuthRefused.startUrlEmpty = false ∧
      envAuthRefused.newCredentialsManager = .ok () ∧
      ¬ (∃ tok accounts, envAuthRefused.getCachedToken 0 = .ok tok ∧
        listAccountsGo (envAuthRefused.accountPages 0) = .ok accounts ∧
        0 < accounts.length)) ∧
    ((runLoginGo envAuthRefused false "" "").authCalls = 1 ∧
      (runLoginGo envAuthRefused false "" "").listCalls ≤ 2 ∧
      (runLoginGo envAuthRefused false "" "").tokenCalls ≤ 2 ∧
      (∀ t2, envAuthRefused.authenticate = .ok () →
        envAuthRefused.getCachedToken 1 = .ok t2 →
        (runLoginGo envAuthRefused false "" "").listCalls =
          (match envAuthRefused.getCachedToken 0 with | .ok _ => 2 | .error _ => 1))) :=
  ⟨⟨rfl, rfl, fun h => by obtain ⟨tok, accounts, h0, hl, hp⟩ := h; exact nomatch hl⟩,
    (claim9_amended_retry_discipline envAuthRefused "" "" rfl rfl).2
      (fun h => by obtain ⟨tok, accounts, h0, hl, hp⟩ := h; exact nomatch hl)⟩

/-- **C10**: with `force=false`, a valid cached token whose listing succeeds
but is empty does not fail the run with the no-accounts error; the workflow
falls through to the full re-authentication tail.  Conversely, whenever a
`force=false` run fails with `no accounts found`, an authentication has been
performed: the error can only arise after a fresh authentication. -/
theorem claim10_empty_cached_listing_falls_through :
    (∀ (env : LoginEnv) (aN rN tok : String),
      env.startUrlEmpty = false → env.newCredentialsManager = .ok () →
      env.getCachedToken 0 = .ok tok →
      listAccountsGo (env.accountPages 0) = .ok [] →
      runLoginGo env false aN rN = runLoginAuthPath env aN rN 1 1 ∧
      (runLoginGo env false aN rN).authCalls = 1) ∧
    (∀ (env : LoginEnv) (aN rN : String),
      (runLoginGo env false aN rN).result = .error "no accounts found" →
      (runLoginGo env false aN rN).authCalls = 1) := by
  constructor
  · intro env aN rN tok hcfg hmgr h0 hl
    have htr : runLoginGo env false aN rN = runLoginAuthPath env aN rN 1 1 := by
      simp only [runLoginGo, hcfg, hmgr, h0, hl]
      rfl
    exact ⟨htr, by rw [htr]; exact (runLoginAuthPath_trace env aN rN 1 1).1⟩
  · intro env aN rN h
    rcases hcfg : env.startUrlEmpty with _ | _
    · rcases hmgr : env.newCredentialsManager with em | u
      · have htr : runLoginGo env false aN rN =
            ⟨.error ("failed to create credentials manager: " ++ em), 0, 0, 0⟩ := by
          simp only [runLoginGo, hcfg, hmgr]
          rfl
        rw [htr] at h
        simp only [Except.error.injEq] at h
        exact absurd h (append_ne_of_head "failed to create credentials manager: "
          "no accounts found" _ _ rfl (by decide) em)
      · rcases h0 : env.getCachedToken 0 with e0 | tok
        · have htr : runLoginGo env false aN rN = runLoginAuthPath env aN rN 1 0 := by
            simp only [runLoginGo, hcfg, hmgr, h0]
            rfl
          rw [htr]
          exact (runLoginAuthPath_trace env aN rN 1 0).1
        · rcases hl : listAccountsGo (env.accountPages 0) with el | accounts
          · have htr : runLoginGo env false aN rN = runLoginAuthPath env aN rN 1 1 := by
              simp only [runLoginGo, hcfg, hmgr, h0, hl]
              rfl
            rw [htr]
            exact (runLoginAuthPath_trace env aN rN 1 1).1
          · by_cases hlen : accounts.length > 0
            · have htr : runLoginGo env false aN rN =
                  ⟨(handleAccountRoleSelectionGo env.handleEnv accounts aN rN).result,
                   0, 1, 1⟩ := by
                simp only [runLoginGo, hcfg, hmgr, h0, hl, if_pos hlen]
                rfl
              rw [htr] at h
              exact absurd h (fun hc =>
                handle_result_ne_no_accounts env.handleEnv accounts aN rN hc)
            · have htr : runLoginGo env false aN rN = runLoginAuthPath env aN rN 1 1 := by
                simp only [runLoginGo, hcfg, hmgr, h0, hl, if_neg hlen]
                rfl
              rw [htr]
              exact (runLoginAuthPath_trace env aN rN 1 1).1
    · have htr : runLoginGo env false aN rN =
          ⟨.error "no SSO configuration found. Please run 'awsc config init' first",
           0, 0, 0⟩ := by
        simp only [runLoginGo, hcfg]
        rfl
      rw [htr] at h
      simp only [Except.error.injEq] at h
      exact absurd h (by decide)

/-- Witness for C10: a run whose cached listing is empty falls through to
re-authentication; and a run where both listings are empty fails with
`no accounts found` after exactly one authentication. -/
theorem claim10_witness :
    ((envEmptyThenOk.startUrlEmpty = false ∧
        envEmptyThenOk.newCredentialsManager = .ok () ∧
        envEmptyThenOk.getCachedToken 0 = .ok "cached-token" ∧
        listAccountsGo (envEmptyThenOk.accountPages 0) = .ok []) ∧
      (runLoginGo envEmptyThenOk false "dev" "admin" =
          runLoginAuthPath envEmptyThenOk "dev" "admin" 1 1 ∧
        (runLoginGo envEmptyThenOk false "dev" "admin").authCalls = 1)) ∧
    ((runLoginGo envEmptyTwice false "dev" "admin").result =
        .error "no accounts found" ∧
      (runLoginGo envEmptyTwice false "dev" "admin").authCalls = 1) :=
  ⟨⟨⟨rfl, rfl, rfl, by decide⟩,
    claim10_empty_cached_listing_falls_through.1 envEmptyThenOk "dev" "admin"
      "cached-token" rfl rfl rfl (by decide)⟩,
   by decide,
   claim10_empty_cached_listing_falls_through.2 envEmptyTwice "dev" "admin" (by decide)⟩

set_option maxRecDepth 100000 in
set_option maxHeartbeats 2000000 in
/-- **C3, counterexample**: on `exAccounts` the account sort is *not*
stable: the two entries named `98` (input positions 0 and 1) come out in the
opposite order — `sort.Slice` is Go's pdqsort, which reverses the
detected-descending range wholesale.  This falsifies the claim that
candidates with equal names keep their original enumeration order. -/
theorem claim3_counterexample :
    ¬ (sortedByKey AccountInfo.accountName (sortAccountsGo exAccounts) ∧
       keepsTieOrder exAccounts (sortAccountsGo exAccounts)) := by
  intro hcl
  have h : sortAccountsGo exAccounts = exAccountsSorted := by decide
  have ht := hcl.2
  rw [h] at ht
  have hx := ht 48 (by decide) 49 (by decide) (by decide) (by decide)
  exact absurd hx (by decide)

/-! ## Sortedness of the embedded `sort.Slice`

The correctness development for the pdqsort embedding: each helper preserves
the array outside its range, permutes the values inside it, and establishes
its classical postcondition; the main induction glues these along the
quicksort recursion.  The comparator hypotheses (`asymm` and transitivity of
the negation) are discharged for the string-key comparators at the end. -/

section SortSpecBasic

variable {α : Type} [Inhabited α]

theorem aswap_size (xs : Array α) (i j : Nat) : (aswap xs i j).size = xs.size := by
  unfold aswap
  split
  · exact Array.size_swap ..
  · rfl

theorem aget_lt (xs : Array α) (k : Nat) (h : k < xs.size) : aget xs k = xs[k] := by
  simp [aget, Array.getD, h]

theorem aget_ge (xs : Array α) (k : Nat) (h : xs.size ≤ k) : aget xs k = default := by
  simp [aget, Array.getD, Nat.not_lt.mpr h]

theorem aget_aswap (xs : Array α) (i j k : Nat) (hi : i < xs.size) (hj : j < xs.size) :
    aget (aswap xs i j) k =
      if k = i then aget xs j else if k = j then aget xs i else aget xs k := by
  unfold aswap
  rw [dif_pos ⟨hi, hj⟩]
  by_cases hk : k < xs.size
  · have hk2 : k < (xs.swap ⟨i, hi⟩ ⟨j, hj⟩).size := by rw [Array.size_swap]; exact hk
    rw [aget_lt _ _ hk2]
    have hsw := Array.getElem_swap' xs ⟨i, hi⟩ ⟨j, hj⟩ k hk
    rw [hsw]
    by_cases h1 : k = i
    · simp [h1, aget_lt _ _ hj]
    · by_cases h2 : k = j
      · have h1' : ¬ j = i := fun h => h1 (h2.trans h)
        simp [h1, h2, h1', aget_lt _ _ hi]
      · simp [h1, h2, aget_lt _ _ hk]
  · have h1 : k ≠ i := fun h => hk (h ▸ hi)
    have h2 : k ≠ j := fun h => hk (h ▸ hj)
    rw [if_neg h1, if_neg h2, aget_ge _ _ (Nat.not_lt.mp hk),
      aget_ge _ _ (by rw [Array.size_swap]; exact Nat.not_lt.mp hk)]

theorem aget_aswap_ne (xs : Array α) (i j k : Nat) (h1 : k ≠ i) (h2 : k ≠ j) :
    aget (aswap xs i j) k = aget xs k := by
  unfold aswap
  split
  · rename_i hb
    have := aget_aswap xs i j k hb.1 hb.2
    unfold aswap at this
    rw [dif_pos hb] at this
    rw [this, if_neg h1, if_neg h2]
  · rfl

theorem aget_aswap_left (xs : Array α) (i j : Nat) (hi : i < xs.size) (hj : j < xs.size) :
    aget (aswap xs i j) i = aget xs j := by
  rw [aget_aswap xs i j i hi hj, if_pos rfl]

theorem aget_aswap_right (xs : Array α) (i j : Nat) (hi : i < xs.size) (hj : j < xs.size) :
    aget (aswap xs i j) j = aget xs i := by
  rw [aget_aswap xs i j j hi hj]
  by_cases h : j = i
  · rw [if_pos h, h]
  · rw [if_neg h, if_pos rfl]

theorem slice_length (xs : Array α) (a b : Nat) (hab : a ≤ b) (hb : b ≤ xs.size) :
    (slice xs a b).length = b - a := by
  simp only [slice, List.length_take, List.length_drop, Array.length_toList]
  omega

theorem slice_getElem (xs : Array α) (a b i : Nat) (hi : i < (slice xs a b).length) :
    (slice xs a b)[i] = aget xs (a + i) := by
  have h1 : i < b - a := by
    have := hi
    simp only [slice, List.length_take] at this
    omega
  have h2 : a + i < xs.toList.length := by
    have := hi
    simp only [slice, List.length_take, List.length_drop] at this
    omega
  have hx : a + i < xs.size := by rw [← Array.length_toList]; exact h2
  simp only [slice]
  rw [List.getElem_take, List.getElem_drop]
  rw [aget_lt xs (a+i) hx, Array.getElem_eq_getElem_toList]

theorem mem_slice_iff (xs : Array α) (a b : Nat) (hb : b ≤ xs.size) (v : α) :
    v ∈ slice xs a b ↔ ∃ k, a ≤ k ∧ k < b ∧ aget xs k = v := by
  constructor
  · intro hv
    obtain ⟨n, hn, he⟩ := List.mem_iff_getElem.mp hv
    rw [slice_getElem xs a b n hn] at he
    have hlen : n < b - a := by
      have := hn
      simp only [slice, List.length_take] at this
      omega
    exact ⟨a + n, by omega, by omega, he⟩
  · intro ⟨k, hk1, hk2, he⟩
    rw [List.mem_iff_getElem]
    have hlen : (slice xs a b).length = b - a := slice_length xs a b (by omega) hb
    refine ⟨k - a, by omega, ?_⟩
    rw [slice_getElem]
    have : a + (k - a) = k := by omega
    rw [this, he]

theorem take_eq_of_aget (xs ys : Array α) (a : Nat) (ha : a ≤ xs.size)
    (hsz : ys.size = xs.size)
    (hlow : ∀ k, k < a → aget ys k = aget xs k) :
    ys.toList.take a = xs.toList.take a := by
  apply List.ext_getElem
  · simp only [List.length_take, Array.length_toList]
    omega
  · intro i h1 h2
    rw [List.getElem_take, List.getElem_take]
    have hi : i < a := by simpa [Array.length_toList, ha, hsz] using h1
    have hx : i < xs.size := by omega
    have hy : i < ys.size := by omega
    have := hlow i hi
    rw [aget_lt _ _ hy, aget_lt _ _ hx,
      Array.getElem_eq_getElem_toList, Array.getElem_eq_getElem_toList] at this
    exact this

theorem drop_eq_of_aget (xs ys : Array α) (b : Nat) (hsz : ys.size = xs.size)
    (hhigh : ∀ k, b ≤ k → k < xs.size → aget ys k = aget xs k) :
    ys.toList.drop b = xs.toList.drop b := by
  apply List.ext_getElem
  · simp only [List.length_drop, Array.length_toList]
    omega
  · intro i h1 h2
    rw [List.getElem_drop, List.getElem_drop]
    have hx : b + i < xs.size := by
      simp only [List.length_drop, Array.length_toList] at h2
      omega
    have hy : b + i < ys.size := by omega
    have := hhigh (b + i) (by omega) hx
    rw [aget_lt _ _ hy, aget_lt _ _ hx,
      Array.getElem_eq_getElem_toList, Array.getElem_eq_getElem_toList] at this
    exact this

theorem slice_perm_of_perm_frame (xs ys : Array α) (a b : Nat)
    (hab : a ≤ b) (hb : b ≤ xs.size)
    (hperm : ys.toList.Perm xs.toList)
    (hlow : ∀ k, k < a → aget ys k = aget xs k)
    (hhigh : ∀ k, b ≤ k → k < xs.size → aget ys k = aget xs k) :
    (slice ys a b).Perm (slice xs a b) := by
  have hsz : ys.size = xs.size := by
    have := hperm.length_eq
    simpa [Array.length_toList] using this
  have htake := take_eq_of_aget xs ys a (by omega) hsz hlow
  have hdrop := drop_eq_of_aget xs ys b hsz hhigh
  have key : ∀ l : List α, l.take a ++ ((l.drop a).take (b - a) ++ l.drop b) = l := by
    intro l
    have h1 : (l.drop a).drop (b - a) = l.drop b := by
      rw [List.drop_drop]
      congr 1
      omega
    rw [← h1, List.take_append_drop, List.take_append_drop]
  have hyd : ys.toList =
      xs.toList.take a ++ ((ys.toList.drop a).take (b - a) ++ xs.toList.drop b) := by
    rw [← htake, ← hdrop, key]
  have hxd : xs.toList =
      xs.toList.take a ++ ((xs.toList.drop a).take (b - a) ++ xs.toList.drop b) := by
    rw [key]
  have h0 : (xs.toList.take a ++ ((ys.toList.drop a).take (b - a) ++ xs.toList.drop b)).Perm
      (xs.toList.take a ++ ((xs.toList.drop a).take (b - a) ++ xs.toList.drop b)) :=
    ((List.Perm.of_eq hyd.symm).trans hperm).trans (List.Perm.of_eq hxd)
  rw [slice, slice]
  have h1 := (List.perm_append_left_iff (xs.toList.take a)).mp h0
  exact (List.perm_append_right_iff (xs.toList.drop b)).mp h1

theorem range_all_transfer (P : α → Prop) (xs ys : Array α) (a b : Nat)
    (hb : b ≤ xs.size) (hsz : ys.size = xs.size)
    (h : (slice ys a b).Perm (slice xs a b))
    (hall : ∀ k, a ≤ k → k < b → P (aget xs k)) :
    ∀ k, a ≤ k → k < b → P (aget ys k) := by
  intro k hk1 hk2
  have hmem : aget ys k ∈ slice ys a b :=
    (mem_slice_iff ys a b (by omega) _).mpr ⟨k, hk1, hk2, rfl⟩
  have hmem2 : aget ys k ∈ slice xs a b := h.mem_iff.mp hmem
  obtain ⟨k2, hh1, hh2, hh3⟩ := (mem_slice_iff xs a b hb _).mp hmem2
  rw [← hh3]
  exact hall k2 hh1 hh2

end SortSpecBasic

section SortOrderFacts

variable {α : Type} (less : α → α → Bool)

theorem less_irrefl (ha : Asymm less) (x : α) : less x x = false := by
  cases h : less x x with
  | false => rfl
  | true => have h2 := ha x x h; rw [h] at h2; exact h2

theorem less_trans (ha : Asymm less) (ht : NegTrans less) {x y z : α}
    (h1 : less x y = true) (h2 : less y z = true) : less x z = true := by
  cases h : less x z with
  | true => rfl
  | false =>
    have h4 := ht z x y h (ha x y h1)
    rw [h2] at h4
    exact h4.symm

theorem less_of_le_of_lt (ht : NegTrans less) {a b c : α}
    (h1 : less b a = false) (h2 : less b c = true) : less a c = true := by
  cases h : less a c with
  | true => rfl
  | false =>
    have h4 := ht c a b h h1
    rw [h2] at h4
    exact h4.symm

theorem less_of_lt_of_le (ht : NegTrans less) {a b c : α}
    (h1 : less a b = true) (h2 : less c b = false) : less a c = true := by
  cases h : less a c with
  | true => rfl
  | false =>
    have h4 := ht b c a h2 h
    rw [h1] at h4
    exact h4.symm

end SortOrderFacts

section SortCorrectness

variable {α : Type} [Inhabited α] (less : α → α → Bool)

theorem lessAt_eq (xs : Array α) (i j : Nat) :
    lessAt less xs i j = less (aget xs i) (aget xs j) := rfl

theorem aget_toList_getD (xs : Array α) (k : Nat) :
    aget xs k = xs.toList.getD k default := by
  by_cases h : k < xs.size
  · rw [aget_lt xs k h]
    have hk : k < xs.toList.length := by rw [Array.length_toList]; exact h
    rw [List.getD_eq_getElem?_getD, List.getElem?_eq_getElem hk, Option.getD_some,
      Array.getElem_eq_getElem_toList]
  · rw [aget_ge xs k (Nat.not_lt.mp h)]
    have hk : xs.toList.length ≤ k := by rw [Array.length_toList]; exact Nat.not_lt.mp h
    rw [List.getD_eq_getElem?_getD, List.getElem?_eq_none hk]
    rfl

theorem sortedRange_pairwise {xs : Array α} {a b : Nat}
    (ht : NegTrans less) (hs : sortedRange less xs a b) :
    ∀ i j, a ≤ i → i < j → j < b → less (aget xs j) (aget xs i) = false := by
  intro i j hai hij hjb
  induction j with
  | zero => omega
  | succ j ihj =>
    by_cases hstep : i = j
    · subst hstep
      exact hs i hai hjb
    · have h1 : less (aget xs j) (aget xs i) = false := ihj (by omega) (by omega)
      have h2 : less (aget xs (j+1)) (aget xs j) = false := hs j (by omega) hjb
      exact ht (aget xs i) (aget xs j) (aget xs (j+1)) h1 h2

/-! ### Insertion sort (`insertionSort_func`) -/

theorem insInner_size : ∀ (f : Nat) (xs : Array α) (a j : Nat),
    (insInner less f xs a j).size = xs.size := by
  intro f
  induction f with
  | zero => intro xs a j; rfl
  | succ f ih =>
    intro xs a j
    simp only [insInner]
    split
    · rw [ih, aswap_size]
    · rfl

theorem insInner_frame : ∀ (f : Nat) (xs : Array α) (a j k : Nat),
    k < a ∨ j < k → aget (insInner less f xs a j) k = aget xs k := by
  intro f
  induction f with
  | zero => intro xs a j k hk; rfl
  | succ f ih =>
    intro xs a j k hk
    simp only [insInner]
    split
    · rename_i h
      have h1 := ih (aswap xs j (j-1)) a (j-1) k (by omega)
      rw [h1, aget_aswap_ne xs j (j-1) k (by omega) (by omega)]
    · rfl

theorem insInner_sorted (ha : Asymm less) (ht : NegTrans less) :
    ∀ (f : Nat) (xs : Array α) (a j e : Nat),
    j - a ≤ f → j < e → e ≤ xs.size →
    sortedRange less xs a j →
    sortedRange less xs j e →
    (a < j → ∀ k, j < k → k < e → less (aget xs k) (aget xs (j-1)) = false) →
    sortedRange less (insInner less f xs a j) a e := by
  intro f
  induction f with
  | zero =>
    intro xs a j e hf hje hsz hlow hhigh hbr
    have hj : j ≤ a := by omega
    intro i h1 h2
    exact hhigh i (by omega) h2
  | succ f ih =>
    intro xs a j e hf hje hsz hlow hhigh hbr
    simp only [insInner]
    split
    · rename_i h
      obtain ⟨haj, hless⟩ := h
      rw [lessAt_eq] at hless
      have hjsz : j < xs.size := by omega
      have hj1sz : j - 1 < xs.size := by omega
      have e1 : aget (aswap xs j (j-1)) j = aget xs (j-1) :=
        aget_aswap_left xs j (j-1) hjsz hj1sz
      have e2 : aget (aswap xs j (j-1)) (j-1) = aget xs j :=
        aget_aswap_right xs j (j-1) hjsz hj1sz
      apply ih (aswap xs j (j-1)) a (j-1) e (by omega) (by omega)
        (by rw [aswap_size]; exact hsz)
      · intro i h1 h2
        rw [aget_aswap_ne xs j (j-1) i (by omega) (by omega),
          aget_aswap_ne xs j (j-1) (i+1) (by omega) (by omega)]
        exact hlow i h1 (by omega)
      · intro i h1 h2
        by_cases hij : i = j - 1
        · subst hij
          have hjj : j - 1 + 1 = j := by omega
          rw [hjj, e1, e2]
          exact ha (aget xs j) (aget xs (j-1)) hless
        · by_cases hij2 : i = j
          · rw [hij2, e1, aget_aswap_ne xs j (j-1) (j+1) (by omega) (by omega)]
            exact hbr haj (j+1) (by omega) (by omega)
          · rw [aget_aswap_ne xs j (j-1) i (by omega) (by omega),
              aget_aswap_ne xs j (j-1) (i+1) (by omega) (by omega)]
            exact hhigh i (by omega) h2
      · intro haj1 k hk1 hk2
        have hj2 : j - 1 - 1 = j - 2 := by omega
        rw [hj2, aget_aswap_ne xs j (j-1) (j-2) (by omega) (by omega)]
        by_cases hkj : k = j
        · rw [hkj, e1]
          have hx := hlow (j-2) (by omega) (by omega)
          have hy : j - 2 + 1 = j - 1 := by omega
          rw [hy] at hx
          exact hx
        · rw [aget_aswap_ne xs j (j-1) k (by omega) (by omega)]
          have h1 : less (aget xs k) (aget xs (j-1)) = false :=
            hbr haj k (by omega) hk2
          have h2 := hlow (j-2) (by omega) (by omega)
          have hy : j - 2 + 1 = j - 1 := by omega
          rw [hy] at h2
          exact ht (aget xs (j-2)) (aget xs (j-1)) (aget xs k) h2 h1
    · rename_i h
      rw [Classical.not_and_iff_or_not_not] at h
      intro i h1 h2
      rcases h with h | h
      · exact hhigh i (by omega) h2
      · rw [lessAt_eq] at h
        have hfls : less (aget xs j) (aget xs (j-1)) = false := by
          cases hb : less (aget xs j) (aget xs (j-1))
          · rfl
          · exact absurd hb h
        by_cases hij : i + 1 < j
        · exact hlow i h1 hij
        · by_cases hij2 : i + 1 = j
          · have : i = j - 1 := by omega
            subst this
            rw [hij2]
            exact hfls
          · exact hhigh i (by omega) h2
  
theorem insOuter_size : ∀ (f : Nat) (xs : Array α) (a b i : Nat),
    (insOuter less f xs a b i).size = xs.size := by
  intro f
  induction f with
  | zero => intro xs a b i; rfl
  | succ f ih =>
    intro xs a b i
    simp only [insOuter]
    split
    · rw [ih, insInner_size]
    · rfl

theorem insOuter_frame : ∀ (f : Nat) (xs : Array α) (a b i k : Nat),
    k < a ∨ b ≤ k → aget (insOuter less f xs a b i) k = aget xs k := by
  intro f
  induction f with
  | zero => intro xs a b i k hk; rfl
  | succ f ih =>
    intro xs a b i k hk
    simp only [insOuter]
    split
    · rename_i h
      rw [ih _ a b (i+1) k hk, insInner_frame less _ _ a i k (by omega)]
    · rfl

theorem insOuter_sorted (ha : Asymm less) (ht : NegTrans less) :
    ∀ (f : Nat) (xs : Array α) (a b i : Nat),
    b - i ≤ f → a < i → b ≤ xs.size →
    sortedRange less xs a i →
    sortedRange less (insOuter less f xs a b i) a b := by
  intro f
  induction f with
  | zero =>
    intro xs a b i hf hai hsz hs
    intro k h1 h2
    exact hs k h1 (by omega)
  | succ f ih =>
    intro xs a b i hf hai hsz hs
    simp only [insOuter]
    split
    · rename_i h
      apply ih _ a b (i+1) (by omega) (by omega)
        (by rw [insInner_size]; exact hsz)
      apply insInner_sorted less ha ht (i - a) xs a i (i+1) (by omega) (by omega)
        (by omega) hs
      · intro k h1 h2
        omega
      · intro h1 k h2 h3
        omega
    · intro k h1 h2
      exact hs k h1 (by omega)

theorem insertionSortGo_size (xs : Array α) (a b : Nat) :
    (insertionSortGo less xs a b).size = xs.size :=
  insOuter_size less _ xs a b (a+1)

theorem insertionSortGo_frame (xs : Array α) (a b k : Nat)
    (hk : k < a ∨ b ≤ k) :
    aget (insertionSortGo less xs a b) k = aget xs k :=
  insOuter_frame less _ xs a b (a+1) k hk

theorem insertionSortGo_sorted (ha : Asymm less) (ht : NegTrans less)
    (xs : Array α) (a b : Nat) (hb : b ≤ xs.size) :
    sortedRange less (insertionSortGo less xs a b) a b := by
  apply insOuter_sorted less ha ht (b - a) xs a b (a+1) (by omega) (by omega) hb
  intro k h1 h2
  omega

end SortCorrectness

section SortCorrectness2

variable {α : Type} [Inhabited α] (less : α → α → Bool)

theorem range_transfer_via (P : α → Prop) (xs ys : Array α) (a b : Nat)
    (hab : a ≤ b) (hb : b ≤ xs.size) (hsz : ys.size = xs.size)
    (hperm : ys.toList.Perm xs.toList)
    (hlowf : ∀ k, k < a → aget ys k = aget xs k)
    (hhighf : ∀ k, b ≤ k → k < xs.size → aget ys k = aget xs k)
    (hall : ∀ k, a ≤ k → k < b → P (aget xs k)) :
    ∀ k, a ≤ k → k < b → P (aget ys k) :=
  range_all_transfer P xs ys a b hb hsz
    (slice_perm_of_perm_frame xs ys a b hab hb hperm hlowf hhighf) hall

theorem lb_transfer (xs ys : Array α) (a b : Nat) (hb : b ≤ xs.size)
    (hsz : ys.size = xs.size)
    (hperm : ys.toList.Perm xs.toList)
    (hlowf : ∀ k, k < a → aget ys k = aget xs k)
    (hhighf : ∀ k, b ≤ k → k < xs.size → aget ys k = aget xs k)
    (h : 0 < a → ∀ k, a ≤ k → k < b → less (aget xs k) (aget xs (a-1)) = false) :
    0 < a → ∀ k, a ≤ k → k < b → less (aget ys k) (aget ys (a-1)) = false := by
  intro ha0 k hk1 hk2
  by_cases hab : a ≤ b
  · have htr := range_transfer_via (fun x => less x (aget xs (a-1)) = false)
      xs ys a b hab hb hsz hperm hlowf hhighf (h ha0)
    rw [hlowf (a-1) (by omega)]
    exact htr k hk1 hk2
  · omega

/-! ### `partialInsertionSort_func` -/

theorem pisScan_spec : ∀ (f : Nat) (xs : Array α) (b i : Nat),
    b - i ≤ f → i ≤ b →
    i ≤ pisScan less f xs b i ∧ pisScan less f xs b i ≤ b ∧
    (∀ k, i ≤ k → k < pisScan less f xs b i →
      less (aget xs k) (aget xs (k-1)) = false) ∧
    (pisScan less f xs b i = b ∨
      less (aget xs (pisScan less f xs b i)) (aget xs (pisScan less f xs b i - 1)) = true) := by
  intro f
  induction f with
  | zero =>
    intro xs b i hf hib
    have : i = b := by omega
    simp only [pisScan]
    exact ⟨Nat.le_refl i, hib, fun k h1 h2 => by omega, Or.inl this⟩
  | succ f ih =>
    intro xs b i hf hib
    simp only [pisScan]
    split
    · rename_i h
      obtain ⟨hib2, hnl⟩ := h
      have hstep : less (aget xs i) (aget xs (i-1)) = false := by
        cases hb : less (aget xs i) (aget xs (i-1))
        · rfl
        · rw [lessAt_eq] at hnl; exact absurd hb hnl
      obtain ⟨r1, r2, r3, r4⟩ := ih xs b (i+1) (by omega) (by omega)
      refine ⟨by omega, r2, ?_, r4⟩
      intro k hk1 hk2
      by_cases hki : k = i
      · rw [hki]; exact hstep
      · exact r3 k (by omega) hk2
    · rename_i h
      refine ⟨Nat.le_refl i, hib, fun k h1 h2 => by omega, ?_⟩
      by_cases hib2 : i = b
      · exact Or.inl hib2
      · right
        cases hb : lessAt less xs i (i-1) with
        | true => rw [lessAt_eq] at hb; exact hb
        | false => exact absurd ⟨by omega, by simp [hb]⟩ h

theorem shiftLeftGo_spec (ha : Asymm less) (ht : NegTrans less) :
    ∀ (f : Nat) (xs : Array α) (a j e : Nat),
    j - a ≤ f → a ≤ j → j < e → e ≤ xs.size →
    sortedRange less xs a j →
    sortedRange less xs j e →
    (a < j → ∀ k, j < k → k < e → less (aget xs k) (aget xs (j-1)) = false) →
    (0 < a → less (aget xs j) (aget xs (a-1)) = false) →
    (shiftLeftGo less f xs j).size = xs.size ∧
    (∀ k, k < a → aget (shiftLeftGo less f xs j) k = aget xs k) ∧
    (∀ k, e ≤ k → aget (shiftLeftGo less f xs j) k = aget xs k) ∧
    sortedRange less (shiftLeftGo less f xs j) a e := by
  intro f
  induction f with
  | zero =>
    intro xs a j e hf haj hje hsz hlow hhigh hbr hmv
    have hja : j = a := by omega
    refine ⟨rfl, fun k hk => rfl, fun k hk => rfl, ?_⟩
    intro i h1 h2
    exact hhigh i (by omega) h2
  | succ f ih =>
    intro xs a j e hf haj hje hsz hlow hhigh hbr hmv
    simp only [shiftLeftGo]
    split
    · rename_i h
      obtain ⟨hj1, hless⟩ := h
      rw [lessAt_eq] at hless
      have haj2 : a < j := by
        rcases Nat.lt_or_ge a j with h2 | h2
        · exact h2
        · have hja : j = a := by omega
          have h0a : 0 < a := by omega
          have hmv2 := hmv h0a
          rw [hja] at hmv2
          rw [hja, hmv2] at hless
          exact absurd hless (by simp)
      have hjsz : j < xs.size := by omega
      have hj1sz : j - 1 < xs.size := by omega
      have e1 : aget (aswap xs j (j-1)) j = aget xs (j-1) :=
        aget_aswap_left xs j (j-1) hjsz hj1sz
      have e2 : aget (aswap xs j (j-1)) (j-1) = aget xs j :=
        aget_aswap_right xs j (j-1) hjsz hj1sz
      obtain ⟨q1, q2, q3, q4⟩ := ih (aswap xs j (j-1)) a (j-1) e (by omega) (by omega)
        (by omega) (by rw [aswap_size]; exact hsz)
        (by
          intro i h1 h2
          rw [aget_aswap_ne xs j (j-1) i (by omega) (by omega),
            aget_aswap_ne xs j (j-1) (i+1) (by omega) (by omega)]
          exact hlow i h1 (by omega))
        (by
          intro i h1 h2
          by_cases hij : i = j - 1
          · subst hij
            have hjj : j - 1 + 1 = j := by omega
            rw [hjj, e1, e2]
            exact ha (aget xs j) (aget xs (j-1)) hless
          · by_cases hij2 : i = j
            · rw [hij2, e1, aget_aswap_ne xs j (j-1) (j+1) (by omega) (by omega)]
              exact hbr haj2 (j+1) (by omega) (by omega)
            · rw [aget_aswap_ne xs j (j-1) i (by omega) (by omega),
                aget_aswap_ne xs j (j-1) (i+1) (by omega) (by omega)]
              exact hhigh i (by omega) h2)
        (by
          intro haj1 k hk1 hk2
          have hj2 : j - 1 - 1 = j - 2 := by omega
          rw [hj2, aget_aswap_ne xs j (j-1) (j-2) (by omega) (by omega)]
          by_cases hkj : k = j
          · rw [hkj, e1]
            have hx := hlow (j-2) (by omega) (by omega)
            have hy : j - 2 + 1 = j - 1 := by omega
            rw [hy] at hx
            exact hx
          · rw [aget_aswap_ne xs j (j-1) k (by omega) (by omega)]
            have h1 := hbr haj2 k (by omega) hk2
            have h2 := hlow (j-2) (by omega) (by omega)
            have hy : j - 2 + 1 = j - 1 := by omega
            rw [hy] at h2
            exact ht (aget xs (j-2)) (aget xs (j-1)) (aget xs k) h2 h1)
        (by
          intro h0a
          rw [e2, aget_aswap_ne xs j (j-1) (a-1) (by omega) (by omega)]
          exact hmv h0a)
      refine ⟨by rw [q1, aswap_size], ?_, ?_, q4⟩
      · intro k hk
        rw [q2 k hk, aget_aswap_ne xs j (j-1) k (by omega) (by omega)]
      · intro k hk
        rw [q3 k hk, aget_aswap_ne xs j (j-1) k (by omega) (by omega)]
    · rename_i h
      refine ⟨rfl, fun k hk => rfl, fun k hk => rfl, ?_⟩
      intro i h1 h2
      by_cases hj0 : 1 ≤ j
      · have hfls : less (aget xs j) (aget xs (j-1)) = false := by
          cases hb : lessAt less xs j (j-1) with
          | true => exact absurd ⟨hj0, hb⟩ h
          | false => rw [lessAt_eq] at hb; exact hb
        by_cases hij : i + 1 < j
        · exact hlow i h1 hij
        · by_cases hij2 : i + 1 = j
          · have hi : i = j - 1 := by omega
            rw [hij2, hi]
            exact hfls
          · exact hhigh i (by omega) h2
      · have hj : j = 0 := by omega
        have haz : a = 0 := by omega
        exact hhigh i (by omega) h2

theorem shiftRightGo_size : ∀ (f : Nat) (xs : Array α) (b j : Nat),
    (shiftRightGo less f xs b j).size = xs.size := by
  intro f
  induction f with
  | zero => intro xs b j; rfl
  | succ f ih =>
    intro xs b j
    simp only [shiftRightGo]
    split
    · rw [ih, aswap_size]
    · rfl

theorem shiftRightGo_frame : ∀ (f : Nat) (xs : Array α) (b j k : Nat),
    k + 1 < j ∨ b ≤ k → aget (shiftRightGo less f xs b j) k = aget xs k := by
  intro f
  induction f with
  | zero => intro xs b j k hk; rfl
  | succ f ih =>
    intro xs b j k hk
    simp only [shiftRightGo]
    split
    · rename_i h
      rw [ih (aswap xs j (j-1)) b (j+1) k (by omega),
        aget_aswap_ne xs j (j-1) k (by omega) (by omega)]
    · rfl

theorem partInsLoop_spec (ha : Asymm less) (ht : NegTrans less) :
    ∀ (t : Nat) (xs : Array α) (a b i : Nat),
    b ≤ xs.size → a < i → i ≤ b →
    sortedRange less xs a i →
    (0 < a → ∀ k, a ≤ k → k < b → less (aget xs k) (aget xs (a-1)) = false) →
    (partInsLoop less t xs a b i).2.size = xs.size ∧
    (∀ k, k < a → aget (partInsLoop less t xs a b i).2 k = aget xs k) ∧
    (∀ k, b ≤ k → aget (partInsLoop less t xs a b i).2 k = aget xs k) ∧
    ((partInsLoop less t xs a b i).1 = true →
      sortedRange less (partInsLoop less t xs a b i).2 a b) := by
  intro t
  induction t with
  | zero =>
    intro xs a b i hb hai hib hs hlb
    exact ⟨rfl, fun k hk => rfl, fun k hk => rfl, fun hcontra => nomatch hcontra⟩
  | succ t ih =>
    intro xs a b i hb hai hib hs hlb
    obtain ⟨p1, p2, p3, p4⟩ := pisScan_spec less (b - i) xs b i (Nat.le_refl _) hib
    simp only [partInsLoop]
    set iq := pisScan less (b - i) xs b i with hiq
    have hsort2 : sortedRange less xs a iq := by
      intro k h1 h2
      by_cases hki : k + 1 < i
      · exact hs k h1 hki
      · have hx := p3 (k+1) (by omega) h2
        have hy : k + 1 - 1 = k := by omega
        rw [hy] at hx
        exact hx
    split
    · rename_i hq
      exact ⟨rfl, fun k hk => rfl, fun k hk => rfl,
        fun htrue => by rw [← hq]; exact hsort2⟩
    · rename_i hq
      split
      · exact ⟨rfl, fun k hk => rfl, fun k hk => rfl, fun hcontra => nomatch hcontra⟩
      · rename_i hq50
        have hiqb : iq < b := by omega
        have haiq : a < iq := by omega
        have hdes : less (aget xs iq) (aget xs (iq-1)) = true := by
          rcases p4 with hx | hx
          · exact absurd hx hq
          · exact hx
        have hiqsz : iq < xs.size := by omega
        have hiq1sz : iq - 1 < xs.size := by omega
        have e1 : aget (aswap xs iq (iq-1)) iq = aget xs (iq-1) :=
          aget_aswap_left xs iq (iq-1) hiqsz hiq1sz
        have e2 : aget (aswap xs iq (iq-1)) (iq-1) = aget xs iq :=
          aget_aswap_right xs iq (iq-1) hiqsz hiq1sz
        set xs1 := aswap xs iq (iq-1) with hxs1
        have hxs1sz : xs1.size = xs.size := aswap_size xs iq (iq-1)
        have hxs1low : ∀ k, k < a → aget xs1 k = aget xs k := by
          intro k hk
          exact aget_aswap_ne xs iq (iq-1) k (by omega) (by omega)
        have hxs1high : ∀ k, b ≤ k → aget xs1 k = aget xs k := by
          intro k hk
          exact aget_aswap_ne xs iq (iq-1) k (by omega) (by omega)
        have hsort1low : sortedRange less xs1 a (iq-1) := by
          intro k h1 h2
          rw [hxs1, aget_aswap_ne xs iq (iq-1) k (by omega) (by omega),
            aget_aswap_ne xs iq (iq-1) (k+1) (by omega) (by omega)]
          exact hsort2 k h1 (by omega)
        set xs2 := if iq - a ≥ 2 then shiftLeftGo less (iq-1) xs1 (iq-1) else xs1 with hxs2
        have hxs2spec : xs2.size = xs.size ∧
            (∀ k, k < a → aget xs2 k = aget xs k) ∧
            (∀ k, iq ≤ k → aget xs2 k = aget xs1 k) ∧
            sortedRange less xs2 a iq := by
          rw [hxs2]
          split
          · rename_i hge2
            obtain ⟨q1, q2, q3, q4⟩ := shiftLeftGo_spec less ha ht (iq-1) xs1 a (iq-1) iq
              (by omega) (by omega) (by omega) (by rw [hxs1sz]; omega)
              hsort1low
              (by intro k h1 h2; omega)
              (by intro h1 k h2 h3; omega)
              (by
                intro h0a
                rw [e2, hxs1, aget_aswap_ne xs iq (iq-1) (a-1) (by omega) (by omega)]
                exact hlb h0a iq (by omega) hiqb)
            exact ⟨by rw [q1, hxs1sz], fun k hk => by rw [q2 k hk, hxs1low k hk],
              q3, q4⟩
          · rename_i hge2
            have hiqa : iq = a + 1 := by omega
            refine ⟨hxs1sz, hxs1low, fun k hk => rfl, ?_⟩
            intro k h1 h2
            omega
        obtain ⟨w1, w2, w3, w4⟩ := hxs2spec
        set xs3 := if b - iq ≥ 2 then shiftRightGo less (b - (iq+1)) xs2 b (iq+1) else xs2
          with hxs3
        have hxs3fr : ∀ k, k < iq ∨ b ≤ k → aget xs3 k = aget xs2 k := by
          intro k hk
          rw [hxs3]
          split
          · exact shiftRightGo_frame less (b - (iq+1)) xs2 b (iq+1) k (by omega)
          · rfl
        have hxs3sz : xs3.size = xs.size := by
          rw [hxs3]
          split
          · rw [shiftRightGo_size, w1]
          · exact w1
        have hxs3low : ∀ k, k < a → aget xs3 k = aget xs k := by
          intro k hk
          rw [hxs3fr k (Or.inl (by omega)), w2 k hk]
        have hxs3high : ∀ k, b ≤ k → aget xs3 k = aget xs k := by
          intro k hk
          rw [hxs3fr k (Or.inr hk), w3 k (by omega), hxs1high k hk]
        have hsort3 : sortedRange less xs3 a iq := by
          intro k h1 h2
          rw [hxs3fr k (Or.inl (by omega)), hxs3fr (k+1) (Or.inl (by omega))]
          exact w4 k h1 h2
        have hxs3perm : xs3.toList.Perm xs.toList := by
          have hp1 : xs1.toList.Perm xs.toList := aswap_toList_perm xs iq (iq-1)
          have hp2 : xs2.toList.Perm xs1.toList := by
            rw [hxs2]
            split
            · exact shiftLeftGo_perm less _ _ _
            · exact .refl _
          have hp3 : xs3.toList.Perm xs2.toList := by
            rw [hxs3]
            split
            · exact shiftRightGo_perm less _ _ _ _
            · exact .refl _
          exact (hp3.trans hp2).trans hp1
        have hlb3 : 0 < a → ∀ k, a ≤ k → k < b →
            less (aget xs3 k) (aget xs3 (a-1)) = false :=
          lb_transfer less xs xs3 a b hb hxs3sz hxs3perm hxs3low
            (fun k hk1 hk2 => hxs3high k hk1) hlb
        obtain ⟨r1, r2, r3, r4⟩ := ih xs3 a b iq (by rw [hxs3sz]; exact hb) haiq
          (by omega) hsort3 hlb3
        refine ⟨by rw [r1, hxs3sz], ?_, ?_, r4⟩
        · intro k hk
          rw [r2 k hk, hxs3low k hk]
        · intro k hk
          rw [r3 k hk, hxs3high k hk]

theorem partInsSortGo_spec (ha : Asymm less) (ht : NegTrans less)
    (xs : Array α) (a b : Nat) (hb : b ≤ xs.size) (hab : a < b)
    (hlb : 0 < a → ∀ k, a ≤ k → k < b → less (aget xs k) (aget xs (a-1)) = false) :
    (partInsSortGo less xs a b).2.size = xs.size ∧
    (∀ k, k < a → aget (partInsSortGo less xs a b).2 k = aget xs k) ∧
    (∀ k, b ≤ k → aget (partInsSortGo less xs a b).2 k = aget xs k) ∧
    ((partInsSortGo less xs a b).1 = true →
      sortedRange less (partInsSortGo less xs a b).2 a b) := by
  apply partInsLoop_spec less ha ht 5 xs a b (a+1) hb (by omega) (by omega)
  · intro k h1 h2
    omega
  · exact hlb

end SortCorrectness2

section SortCorrectness3

variable {α : Type} [Inhabited α] (less : α → α → Bool)

/-! ### `partition_func` -/

theorem scanUp_spec : ∀ (f : Nat) (xs : Array α) (a i j : Nat),
    j + 1 - i ≤ f → i ≤ j + 1 →
    i ≤ scanUp less f xs a i j ∧ scanUp less f xs a i j ≤ j + 1 ∧
    (∀ k, i ≤ k → k < scanUp less f xs a i j →
      less (aget xs k) (aget xs a) = true) ∧
    (scanUp less f xs a i j ≤ j →
      less (aget xs (scanUp less f xs a i j)) (aget xs a) = false) := by
  intro f
  induction f with
  | zero =>
    intro xs a i j hf hij
    have hi : i = j + 1 := by omega
    simp only [scanUp]
    exact ⟨Nat.le_refl i, by omega, fun k h1 h2 => by omega, fun h => by omega⟩
  | succ f ih =>
    intro xs a i j hf hij
    simp only [scanUp]
    split
    · rename_i h
      obtain ⟨hij2, hlt⟩ := h
      rw [lessAt_eq] at hlt
      obtain ⟨r1, r2, r3, r4⟩ := ih xs a (i+1) j (by omega) (by omega)
      refine ⟨by omega, r2, ?_, r4⟩
      intro k hk1 hk2
      by_cases hki : k = i
      · rw [hki]; exact hlt
      · exact r3 k (by omega) hk2
    · rename_i h
      refine ⟨Nat.le_refl i, hij, fun k h1 h2 => by omega, ?_⟩
      intro hle
      cases hb : lessAt less xs i a with
      | true => exact absurd ⟨hle, hb⟩ h
      | false => rw [lessAt_eq] at hb; exact hb

theorem scanDown_spec : ∀ (f : Nat) (xs : Array α) (a i j : Nat),
    j + 2 - i ≤ f → i ≤ j + 1 → 1 ≤ i →
    scanDown less f xs a i j ≤ j ∧ i - 1 ≤ scanDown less f xs a i j ∧
    (∀ k, scanDown less f xs a i j < k → k ≤ j →
      less (aget xs k) (aget xs a) = false) ∧
    (i ≤ scanDown less f xs a i j →
      less (aget xs (scanDown less f xs a i j)) (aget xs a) = true) := by
  intro f
  induction f with
  | zero =>
    intro xs a i j hf hij hi1
    omega
  | succ f ih =>
    intro xs a i j hf hij hi1
    simp only [scanDown]
    split
    · rename_i h
      obtain ⟨hij2, hge⟩ := h
      have hge2 : less (aget xs j) (aget xs a) = false := by
        cases hb : lessAt less xs j a with
        | true => rw [lessAt_eq] at hb; exact absurd hb hge
        | false => rw [lessAt_eq] at hb; exact hb
      obtain ⟨r1, r2, r3, r4⟩ := ih xs a i (j-1) (by omega) (by omega) hi1
      refine ⟨by omega, r2, ?_, r4⟩
      intro k hk1 hk2
      by_cases hkj : k = j
      · rw [hkj]; exact hge2
      · exact r3 k hk1 (by omega)
    · rename_i h
      refine ⟨Nat.le_refl j, by omega, fun k h1 h2 => by omega, ?_⟩
      intro hle
      cases hb : lessAt less xs j a with
      | true => rw [lessAt_eq] at hb; exact hb
      | false => exact absurd ⟨hle, by simp [hb]⟩ h

theorem partLoop_spec :
    ∀ (f : Nat) (xs : Array α) (a b i j : Nat),
    j + 2 - i ≤ f → a < i → i ≤ j + 1 → j + 1 ≤ b → b ≤ xs.size →
    (∀ k, a < k → k < i → less (aget xs k) (aget xs a) = true) →
    (∀ k, j < k → k < b → less (aget xs k) (aget xs a) = false) →
    ((partLoop less f xs a i j).2.size = xs.size ∧
     a ≤ (partLoop less f xs a i j).1 ∧ (partLoop less f xs a i j).1 ≤ j ∧
     (∀ k, k ≤ a ∨ j < k → aget (partLoop less f xs a i j).2 k = aget xs k) ∧
     (∀ k, a < k → k ≤ (partLoop less f xs a i j).1 →
        less (aget (partLoop less f xs a i j).2 k) (aget xs a) = true) ∧
     (∀ k, (partLoop less f xs a i j).1 < k → k < b →
        less (aget (partLoop less f xs a i j).2 k) (aget xs a) = false)) := by
  intro f
  induction f with
  | zero =>
    intro xs a b i j hf hai hij hjb hsz hlt hge
    omega
  | succ f ih =>
    intro xs a b i j hf hai hij hjb hsz hlt hge
    simp only [partLoop]
    obtain ⟨u1, u2, u3, u4⟩ := scanUp_spec less (j+1-i) xs a i j (Nat.le_refl _) hij
    set i1 := scanUp less (j+1-i) xs a i j with hi1
    obtain ⟨d1, d2, d3, d4⟩ := scanDown_spec less (j+2) xs a i1 j (by omega) u2 (by omega)
    set j1 := scanDown less (j+2) xs a i1 j with hj1
    have hscan : ∀ k, a < k → k < i1 → less (aget xs k) (aget xs a) = true := by
      intro k h1 h2
      by_cases hki : k < i
      · exact hlt k h1 hki
      · exact u3 k (by omega) h2
    have hskip : ∀ k, j1 < k → k < b → less (aget xs k) (aget xs a) = false := by
      intro k h1 h2
      by_cases hkj : k ≤ j
      · exact d3 k h1 hkj
      · exact hge k (by omega) h2
    split
    · rename_i hgt
      exact ⟨rfl, by omega, d1, fun k hk => rfl, fun k h1 h2 => hscan k h1 (by omega),
        fun k h1 h2 => hskip k h1 h2⟩
    · rename_i hng
      have hle : i1 ≤ j1 := by omega
      have hneq : i1 ≠ j1 := by
        intro heq
        have hx := u4 (by omega)
        have hy := d4 (by omega)
        rw [← heq] at hy
        rw [hx] at hy
        exact absurd hy (by simp)
      have hlt2 : i1 < j1 := by omega
      have hi1sz : i1 < xs.size := by omega
      have hj1sz : j1 < xs.size := by omega
      have es1 : aget (aswap xs i1 j1) i1 = aget xs j1 :=
        aget_aswap_left xs i1 j1 hi1sz hj1sz
      have es2 : aget (aswap xs i1 j1) j1 = aget xs i1 :=
        aget_aswap_right xs i1 j1 hi1sz hj1sz
      have hPa : aget (aswap xs i1 j1) a = aget xs a :=
        aget_aswap_ne xs i1 j1 a (by omega) (by omega)
      obtain ⟨r1, r2, r3, r4, r5, r6⟩ := ih (aswap xs i1 j1) a b (i1+1) (j1-1)
        (by omega) (by omega) (by omega) (by omega) (by rw [aswap_size]; exact hsz)
        (by
          intro k h1 h2
          by_cases hki : k = i1
          · rw [hki, es1, hPa]
            exact d4 hle
          · rw [aget_aswap_ne xs i1 j1 k (by omega) (by omega), hPa]
            exact hscan k h1 (by omega))
        (by
          intro k h1 h2
          by_cases hkj : k = j1
          · rw [hkj, es2, hPa]
            exact u4 (by omega)
          · rw [aget_aswap_ne xs i1 j1 k (by omega) (by omega), hPa]
            exact hskip k (by omega) h2)
      rw [hPa] at r5 r6
      refine ⟨by rw [r1, aswap_size], by omega, by omega, ?_, r5, r6⟩
      intro k hk
      rw [r4 k (by omega), aget_aswap_ne xs i1 j1 k (by omega) (by omega)]

theorem partitionGo_spec (xs : Array α) (a b pivot : Nat)
    (hsz : b ≤ xs.size) (hab : a + 2 ≤ b) (hp1 : a ≤ pivot) (hp2 : pivot < b) :
    (partitionGo less xs a b pivot).2.2.size = xs.size ∧
    a ≤ (partitionGo less xs a b pivot).1 ∧ (partitionGo less xs a b pivot).1 < b ∧
    (∀ k, k < a → aget (partitionGo less xs a b pivot).2.2 k = aget xs k) ∧
    (∀ k, b ≤ k → aget (partitionGo less xs a b pivot).2.2 k = aget xs k) ∧
    aget (partitionGo less xs a b pivot).2.2 (partitionGo less xs a b pivot).1
      = aget xs pivot ∧
    (∀ k, a ≤ k → k < (partitionGo less xs a b pivot).1 →
      less (aget (partitionGo less xs a b pivot).2.2 k) (aget xs pivot) = true) ∧
    (∀ k, (partitionGo less xs a b pivot).1 < k → k < b →
      less (aget (partitionGo less xs a b pivot).2.2 k) (aget xs pivot) = false) := by
  have hasz : a < xs.size := by omega
  have hpsz : pivot < xs.size := by omega
  have hP : aget (aswap xs a pivot) a = aget xs pivot :=
    aget_aswap_left xs a pivot hasz hpsz
  set xs1 := aswap xs a pivot with hxs1
  have hxs1sz : xs1.size = xs.size := aswap_size xs a pivot
  have hfr1 : ∀ k, k < a ∨ b ≤ k → aget xs1 k = aget xs k := by
    intro k hk
    exact aget_aswap_ne xs a pivot k (by omega) (by omega)
  obtain ⟨u1, u2, u3, u4⟩ := scanUp_spec less (b-1+1-(a+1)) xs1 a (a+1) (b-1)
    (Nat.le_refl _) (by omega)
  set i1 := scanUp less (b-1+1-(a+1)) xs1 a (a+1) (b-1) with hi1
  obtain ⟨d1, d2, d3, d4⟩ := scanDown_spec less (b-1+2) xs1 a i1 (b-1) (by omega) u2
    (by omega)
  set j1 := scanDown less (b-1+2) xs1 a i1 (b-1) with hj1
  simp only [partitionGo, ← hxs1, ← hi1, ← hj1]
  split
  · rename_i hgt
    have hj1a : a ≤ j1 := by omega
    have hj1sz : j1 < xs.size := by omega
    have ef1 : aget (aswap xs1 j1 a) j1 = aget xs1 a :=
      aget_aswap_left xs1 j1 a (by omega) (by omega)
    have ef2 : aget (aswap xs1 j1 a) a = aget xs1 j1 :=
      aget_aswap_right xs1 j1 a (by omega) (by omega)
    refine ⟨by rw [aswap_size, hxs1sz], hj1a, by omega, ?_, ?_, ?_, ?_, ?_⟩
    · intro k hk
      rw [aget_aswap_ne xs1 j1 a k (by omega) (by omega)]
      exact hfr1 k (Or.inl hk)
    · intro k hk
      rw [aget_aswap_ne xs1 j1 a k (by omega) (by omega)]
      exact hfr1 k (Or.inr hk)
    · rw [ef1, hP]
    · intro k hk1 hk2
      by_cases hka : k = a
      · rw [hka, ef2, ← hP]
        have hj1i : a + 1 ≤ j1 := by omega
        exact u3 j1 hj1i (by omega)
      · rw [aget_aswap_ne xs1 j1 a k (by omega) (by omega), ← hP]
        exact u3 k (by omega) (by omega)
    · intro k hk1 hk2
      rw [aget_aswap_ne xs1 j1 a k (by omega) (by omega), ← hP]
      by_cases hkj : k ≤ b - 1
      · exact d3 k hk1 (by omega)
      · omega
  · rename_i hng
    have hle : i1 ≤ j1 := by omega
    have hneq : i1 ≠ j1 := by
      intro heq
      have hx := u4 (by omega)
      have hy := d4 (by omega)
      rw [← heq] at hy
      rw [hx] at hy
      exact absurd hy (by simp)
    have hlt2 : i1 < j1 := by omega
    have hi1sz : i1 < xs.size := by omega
    have hj1sz : j1 < xs.size := by omega
    have es1 : aget (aswap xs1 i1 j1) i1 = aget xs1 j1 :=
      aget_aswap_left xs1 i1 j1 (by omega) (by omega)
    have es2 : aget (aswap xs1 i1 j1) j1 = aget xs1 i1 :=
      aget_aswap_right xs1 i1 j1 (by omega) (by omega)
    have hPa : aget (aswap xs1 i1 j1) a = aget xs1 a :=
      aget_aswap_ne xs1 i1 j1 a (by omega) (by omega)
    obtain ⟨r1, r2, r3, r4, r5, r6⟩ := partLoop_spec less b (aswap xs1 i1 j1) a b
      (i1+1) (j1-1) (by omega) (by omega) (by omega) (by omega)
      (by rw [aswap_size, hxs1sz]; exact hsz)
      (by
        intro k h1 h2
        by_cases hki : k = i1
        · rw [hki, es1, hPa]
          exact d4 hle
        · rw [aget_aswap_ne xs1 i1 j1 k (by omega) (by omega), hPa]
          exact u3 k (by omega) (by omega))
      (by
        intro k h1 h2
        by_cases hkj : k = j1
        · rw [hkj, es2, hPa]
          exact u4 (by omega)
        · rw [aget_aswap_ne xs1 i1 j1 k (by omega) (by omega), hPa]
          by_cases hkb : k ≤ b - 1
          · exact d3 k (by omega) (by omega)
          · omega)
    rw [hPa] at r5 r6
    set pl := partLoop less b (aswap xs1 i1 j1) a (i1+1) (j1-1) with hpl
    have hfmid : aget pl.2 a = aget xs1 a := by
      rw [r4 a (Or.inl (Nat.le_refl a)), hPa]
    have hplsz : pl.2.size = xs.size := by rw [r1, aswap_size, hxs1sz]
    have ef1 : aget (aswap pl.2 pl.1 a) pl.1 = aget pl.2 a :=
      aget_aswap_left pl.2 pl.1 a (by omega) (by omega)
    have ef2 : aget (aswap pl.2 pl.1 a) a = aget pl.2 pl.1 :=
      aget_aswap_right pl.2 pl.1 a (by omega) (by omega)
    refine ⟨by rw [aswap_size, hplsz], r2, by omega, ?_, ?_, ?_, ?_, ?_⟩
    · intro k hk
      rw [aget_aswap_ne pl.2 pl.1 a k (by omega) (by omega),
        r4 k (Or.inl (by omega)), aget_aswap_ne xs1 i1 j1 k (by omega) (by omega)]
      exact hfr1 k (Or.inl hk)
    · intro k hk
      rw [aget_aswap_ne pl.2 pl.1 a k (by omega) (by omega),
        r4 k (Or.inr (by omega)), aget_aswap_ne xs1 i1 j1 k (by omega) (by omega)]
      exact hfr1 k (Or.inr hk)
    · rw [ef1, hfmid, hP]
    · intro k hk1 hk2
      by_cases hka : k = a
      · rw [hka, ef2, ← hP]
        exact r5 pl.1 (by omega) (Nat.le_refl _)
      · rw [aget_aswap_ne pl.2 pl.1 a k (by omega) (by omega), ← hP]
        exact r5 k (by omega) (by omega)
    · intro k hk1 hk2
      rw [aget_aswap_ne pl.2 pl.1 a k (by omega) (by omega), ← hP]
      exact r6 k hk1 hk2

end SortCorrectness3

section SortCorrectness4

variable {α : Type} [Inhabited α] (less : α → α → Bool)

/-! ### `partitionEqual_func` -/

theorem scanUpEq_spec : ∀ (f : Nat) (xs : Array α) (a i j : Nat),
    j + 1 - i ≤ f → i ≤ j + 1 →
    i ≤ scanUpEq less f xs a i j ∧ scanUpEq less f xs a i j ≤ j + 1 ∧
    (∀ k, i ≤ k → k < scanUpEq less f xs a i j →
      less (aget xs a) (aget xs k) = false) ∧
    (scanUpEq less f xs a i j ≤ j →
      less (aget xs a) (aget xs (scanUpEq less f xs a i j)) = true) := by
  intro f
  induction f with
  | zero =>
    intro xs a i j hf hij
    have hi : i = j + 1 := by omega
    simp only [scanUpEq]
    exact ⟨Nat.le_refl i, by omega, fun k h1 h2 => by omega, fun h => by omega⟩
  | succ f ih =>
    intro xs a i j hf hij
    simp only [scanUpEq]
    split
    · rename_i h
      obtain ⟨hij2, hnl⟩ := h
      have hle : less (aget xs a) (aget xs i) = false := by
        cases hb : lessAt less xs a i with
        | true => rw [lessAt_eq] at hb; exact absurd hb hnl
        | false => rw [lessAt_eq] at hb; exact hb
      obtain ⟨r1, r2, r3, r4⟩ := ih xs a (i+1) j (by omega) (by omega)
      refine ⟨by omega, r2, ?_, r4⟩
      intro k hk1 hk2
      by_cases hki : k = i
      · rw [hki]; exact hle
      · exact r3 k (by omega) hk2
    · rename_i h
      refine ⟨Nat.le_refl i, hij, fun k h1 h2 => by omega, ?_⟩
      intro hle
      cases hb : lessAt less xs a i with
      | true => rw [lessAt_eq] at hb; exact hb
      | false => exact absurd ⟨hle, by simp [hb]⟩ h

theorem scanDownEq_spec : ∀ (f : Nat) (xs : Array α) (a i j : Nat),
    j + 2 - i ≤ f → i ≤ j + 1 → 1 ≤ i →
    scanDownEq less f xs a i j ≤ j ∧ i - 1 ≤ scanDownEq less f xs a i j ∧
    (∀ k, scanDownEq less f xs a i j < k → k ≤ j →
      less (aget xs a) (aget xs k) = true) ∧
    (i ≤ scanDownEq less f xs a i j →
      less (aget xs a) (aget xs (scanDownEq less f xs a i j)) = false) := by
  intro f
  induction f with
  | zero =>
    intro xs a i j hf hij hi1
    omega
  | succ f ih =>
    intro xs a i j hf hij hi1
    simp only [scanDownEq]
    split
    · rename_i h
      obtain ⟨hij2, hgt⟩ := h
      rw [lessAt_eq] at hgt
      obtain ⟨r1, r2, r3, r4⟩ := ih xs a i (j-1) (by omega) (by omega) hi1
      refine ⟨by omega, r2, ?_, r4⟩
      intro k hk1 hk2
      by_cases hkj : k = j
      · rw [hkj]; exact hgt
      · exact r3 k hk1 (by omega)
    · rename_i h
      refine ⟨Nat.le_refl j, by omega, fun k h1 h2 => by omega, ?_⟩
      intro hle
      cases hb : lessAt less xs a j with
      | true => exact absurd ⟨hle, hb⟩ h
      | false => rw [lessAt_eq] at hb; exact hb

theorem partEqLoop_spec :
    ∀ (f : Nat) (xs : Array α) (a b i j : Nat),
    j + 2 - i ≤ f → a < i → i ≤ j + 1 → j + 1 ≤ b → b ≤ xs.size →
    (∀ k, a < k → k < i → less (aget xs a) (aget xs k) = false) →
    (∀ k, j < k → k < b → less (aget xs a) (aget xs k) = true) →
    ((partEqLoop less f xs a i j).2.size = xs.size ∧
     i ≤ (partEqLoop less f xs a i j).1 ∧ (partEqLoop less f xs a i j).1 ≤ j + 1 ∧
     (∀ k, k ≤ a ∨ j < k → aget (partEqLoop less f xs a i j).2 k = aget xs k) ∧
     (∀ k, a < k → k < (partEqLoop less f xs a i j).1 →
        less (aget xs a) (aget (partEqLoop less f xs a i j).2 k) = false) ∧
     (∀ k, (partEqLoop less f xs a i j).1 ≤ k → k < b →
        less (aget xs a) (aget (partEqLoop less f xs a i j).2 k) = true)) := by
  intro f
  induction f with
  | zero =>
    intro xs a b i j hf hai hij hjb hsz hlo hhi
    omega
  | succ f ih =>
    intro xs a b i j hf hai hij hjb hsz hlo hhi
    simp only [partEqLoop]
    obtain ⟨u1, u2, u3, u4⟩ := scanUpEq_spec less (j+1-i) xs a i j (Nat.le_refl _) hij
    set i1 := scanUpEq less (j+1-i) xs a i j with hi1
    obtain ⟨d1, d2, d3, d4⟩ := scanDownEq_spec less (j+2) xs a i1 j (by omega) u2
      (by omega)
    set j1 := scanDownEq less (j+2) xs a i1 j with hj1
    have hscan : ∀ k, a < k → k < i1 → less (aget xs a) (aget xs k) = false := by
      intro k h1 h2
      by_cases hki : k < i
      · exact hlo k h1 hki
      · exact u3 k (by omega) h2
    have hskip : ∀ k, j1 < k → k < b → less (aget xs a) (aget xs k) = true := by
      intro k h1 h2
      by_cases hkj : k ≤ j
      · exact d3 k h1 hkj
      · exact hhi k (by omega) h2
    split
    · rename_i hgt
      refine ⟨rfl, u1, by omega, fun k hk => rfl,
        fun k h1 h2 => hscan k h1 h2, fun k h1 h2 => hskip k (by omega) h2⟩
    · rename_i hng
      have hle : i1 ≤ j1 := by omega
      have hneq : i1 ≠ j1 := by
        intro heq
        have hx := u4 (by omega)
        have hy := d4 (by omega)
        rw [← heq] at hy
        rw [hx] at hy
        exact absurd hy (by simp)
      have hlt2 : i1 < j1 := by omega
      have hi1sz : i1 < xs.size := by omega
      have hj1sz : j1 < xs.size := by omega
      have es1 : aget (aswap xs i1 j1) i1 = aget xs j1 :=
        aget_aswap_left xs i1 j1 hi1sz hj1sz
      have es2 : aget (aswap xs i1 j1) j1 = aget xs i1 :=
        aget_aswap_right xs i1 j1 hi1sz hj1sz
      have hPa : aget (aswap xs i1 j1) a = aget xs a :=
        aget_aswap_ne xs i1 j1 a (by omega) (by omega)
      obtain ⟨r1, r2, r3, r4, r5, r6⟩ := ih (aswap xs i1 j1) a b (i1+1) (j1-1)
        (by omega) (by omega) (by omega) (by omega) (by rw [aswap_size]; exact hsz)
        (by
          intro k h1 h2
          rw [hPa]
          by_cases hki : k = i1
          · rw [hki, es1]
            exact d4 hle
          · rw [aget_aswap_ne xs i1 j1 k (by omega) (by omega)]
            exact hscan k h1 (by omega))
        (by
          intro k h1 h2
          rw [hPa]
          by_cases hkj : k = j1
          · rw [hkj, es2]
            exact u4 (by omega)
          · rw [aget_aswap_ne xs i1 j1 k (by omega) (by omega)]
            exact hskip k (by omega) h2)
      rw [hPa] at r5 r6
      refine ⟨by rw [r1, aswap_size], by omega, by omega, ?_, r5, r6⟩
      intro k hk
      rw [r4 k (by omega), aget_aswap_ne xs i1 j1 k (by omega) (by omega)]

theorem partitionEqualGo_spec (ha : Asymm less) (xs : Array α) (a b pivot : Nat)
    (hsz : b ≤ xs.size) (hab : a + 2 ≤ b) (hp1 : a ≤ pivot) (hp2 : pivot < b) :
    (partitionEqualGo less xs a b pivot).2.size = xs.size ∧
    a < (partitionEqualGo less xs a b pivot).1 ∧
    (partitionEqualGo less xs a b pivot).1 ≤ b ∧
    (∀ k, k < a → aget (partitionEqualGo less xs a b pivot).2 k = aget xs k) ∧
    (∀ k, b ≤ k → aget (partitionEqualGo less xs a b pivot).2 k = aget xs k) ∧
    (∀ k, a ≤ k → k < (partitionEqualGo less xs a b pivot).1 →
      less (aget xs pivot) (aget (partitionEqualGo less xs a b pivot).2 k) = false) ∧
    (∀ k, (partitionEqualGo less xs a b pivot).1 ≤ k → k < b →
      less (aget xs pivot) (aget (partitionEqualGo less xs a b pivot).2 k) = true) := by
  have hasz : a < xs.size := by omega
  have hpsz : pivot < xs.size := by omega
  have hP : aget (aswap xs a pivot) a = aget xs pivot :=
    aget_aswap_left xs a pivot hasz hpsz
  set xs1 := aswap xs a pivot with hxs1
  have hxs1sz : xs1.size = xs.size := aswap_size xs a pivot
  have hfr1 : ∀ k, k < a ∨ b ≤ k → aget xs1 k = aget xs k := by
    intro k hk
    exact aget_aswap_ne xs a pivot k (by omega) (by omega)
  obtain ⟨r1, r2, r3, r4, r5, r6⟩ := partEqLoop_spec less b xs1 a b (a+1) (b-1)
    (by omega) (by omega) (by omega) (by omega) (by rw [hxs1sz]; exact hsz)
    (by intro k h1 h2; omega)
    (by intro k h1 h2; omega)
  rw [hP] at r5 r6
  simp only [partitionEqualGo, ← hxs1]
  refine ⟨by rw [r1, hxs1sz], by omega, by omega, ?_, ?_, ?_, ?_⟩
  · intro k hk
    rw [r4 k (Or.inl (by omega))]
    exact hfr1 k (Or.inl hk)
  · intro k hk
    rw [r4 k (Or.inr (by omega))]
    exact hfr1 k (Or.inr hk)
  · intro k hk1 hk2
    by_cases hka : k = a
    · rw [hka, r4 a (Or.inl (Nat.le_refl a)), hP]
      exact less_irrefl less ha (aget xs pivot)
    · exact r5 k (by omega) hk2
  · intro k hk1 hk2
    exact r6 k hk1 hk2

end SortCorrectness4

section SortCorrectness5

variable {α : Type} [Inhabited α] (less : α → α → Bool)

/-! ### `reverseRange_func`, `breakPatterns_func`, `choosePivot_func` -/

theorem revRange_size : ∀ (f : Nat) (xs : Array α) (i j : Nat),
    (revRange f xs i j).size = xs.size := by
  intro f
  induction f with
  | zero => intro xs i j; rfl
  | succ f ih =>
    intro xs i j
    simp only [revRange]
    split
    · rw [ih, aswap_size]
    · rfl

theorem revRange_frame : ∀ (f : Nat) (xs : Array α) (i j k : Nat),
    k < i ∨ j < k → aget (revRange f xs i j) k = aget xs k := by
  intro f
  induction f with
  | zero => intro xs i j k hk; rfl
  | succ f ih =>
    intro xs i j k hk
    simp only [revRange]
    split
    · rename_i h
      rw [ih (aswap xs i j) (i+1) (j-1) k (by omega),
        aget_aswap_ne xs i j k (by omega) (by omega)]
    · rfl

theorem reverseRangeGo_size (xs : Array α) (a b : Nat) :
    (reverseRangeGo xs a b).size = xs.size :=
  revRange_size (b - a) xs a (b - 1)

theorem reverseRangeGo_frame (xs : Array α) (a b k : Nat)
    (hk : k < a ∨ b ≤ k) (hab : a < b) :
    aget (reverseRangeGo xs a b) k = aget xs k :=
  revRange_frame (b - a) xs a (b - 1) k (by omega)

theorem bitsLenAux_bound : ∀ (f n : Nat), n ≤ f → 1 ≤ n →
    2 ^ bitsLenAux f n ≤ 2 * n := by
  intro f
  induction f with
  | zero => intro n h1 h2; omega
  | succ f ih =>
    intro n h1 h2
    simp only [bitsLenAux]
    rw [if_neg (by omega)]
    by_cases hn : n = 1
    · have h0 : bitsLenAux f (n/2) = 0 := by
        rw [hn]
        cases f
        · rfl
        · simp [bitsLenAux]
      rw [h0, hn]
      decide
    · have ihh := ih (n/2) (by omega) (by omega)
      have hpow : 2 ^ (bitsLenAux f (n/2) + 1) = 2 * 2 ^ bitsLenAux f (n/2) := by
        rw [Nat.pow_succ, Nat.mul_comm]
      rw [hpow]
      omega

theorem bitsLen_bound (n : Nat) (h : 1 ≤ n) : 2 ^ bitsLen n ≤ 2 * n :=
  bitsLenAux_bound n n (Nat.le_refl n) h

theorem breakLoop_size : ∀ (t : Nat) (xs : Array α) (r i idx a length modulus : Nat),
    (breakLoop t xs r i idx a length modulus).size = xs.size := by
  intro t
  induction t with
  | zero => intro xs r i idx a length modulus; rfl
  | succ t ih =>
    intro xs r i idx a length modulus
    simp only [breakLoop]
    rw [ih, aswap_size]

theorem breakLoop_frame : ∀ (t : Nat) (xs : Array α) (r i idx a length modulus k : Nat),
    modulus ≤ 2 * length →
    (∀ i2, i ≤ i2 → i2 < i + t → a ≤ idx - 1 + i2 ∧ idx - 1 + i2 < a + length) →
    (k < a ∨ a + length ≤ k) →
    aget (breakLoop t xs r i idx a length modulus) k = aget xs k := by
  intro t
  induction t with
  | zero => intro xs r i idx a length modulus k hml hpos hk; rfl
  | succ t ih =>
    intro xs r i idx a length modulus k hml hpos hk
    simp only [breakLoop]
    have hidx := hpos i (Nat.le_refl i) (by omega)
    set v := (xorshiftNext r).1 with hv
    set other := Nat.land v (modulus - 1) with hother
    have hole : other ≤ modulus - 1 := Nat.and_le_right
    have hlt : (if other ≥ length then other - length else other) < length := by
      split
      · omega
      · omega
    rw [ih _ _ _ _ _ _ _ k hml (fun i2 h1 h2 => hpos i2 (by omega) (by omega)) hk]
    exact aget_aswap_ne xs _ _ k (by omega) (by omega)

theorem breakPatternsGo_size (xs : Array α) (a b : Nat) :
    (breakPatternsGo xs a b).size = xs.size := by
  simp only [breakPatternsGo]
  split
  · exact breakLoop_size 3 xs _ 0 _ a _ _
  · rfl

theorem breakPatternsGo_frame (xs : Array α) (a b k : Nat)
    (hk : k < a ∨ b ≤ k) :
    aget (breakPatternsGo xs a b) k = aget xs k := by
  simp only [breakPatternsGo]
  split
  · rename_i hlen
    apply breakLoop_frame 3 xs (u64 (b-a)) 0 (a + (b-a)/4*2 - 1) a (b-a)
      (2 ^ bitsLen (b-a)) k (bitsLen_bound (b-a) (by omega))
    · intro i2 h1 h2
      omega
    · omega
  · rfl

theorem order2_snd_mem (xs : Array α) (a b s : Nat) :
    (order2 less xs a b s).2.1 = a ∨ (order2 less xs a b s).2.1 = b := by
  simp only [order2]
  split
  · exact Or.inl rfl
  · exact Or.inr rfl

theorem medianIdx_mem (xs : Array α) (a b c s : Nat) :
    (medianIdx less xs a b c s).1 = a ∨ (medianIdx less xs a b c s).1 = b ∨
      (medianIdx less xs a b c s).1 = c := by
  simp only [medianIdx, order2]
  repeat' split
  all_goals simp

theorem medianIdx_bounds (xs : Array α) (a b c s lo hi : Nat)
    (h1 : lo ≤ a) (h2 : a < hi) (h3 : lo ≤ b) (h4 : b < hi)
    (h5 : lo ≤ c) (h6 : c < hi) :
    lo ≤ (medianIdx less xs a b c s).1 ∧ (medianIdx less xs a b c s).1 < hi := by
  rcases medianIdx_mem less xs a b c s with h | h | h <;> rw [h] <;>
    exact ⟨by omega, by omega⟩

theorem medianAdjacent_mem (xs : Array α) (x s : Nat) :
    (medianAdjacent less xs x s).1 = x - 1 ∨ (medianAdjacent less xs x s).1 = x ∨
      (medianAdjacent less xs x s).1 = x + 1 :=
  medianIdx_mem less xs (x-1) x (x+1) s

theorem medianAdjacent_bounds (xs : Array α) (x s lo hi : Nat)
    (h1 : lo + 1 ≤ x) (h2 : x + 1 < hi) :
    lo ≤ (medianAdjacent less xs x s).1 ∧ (medianAdjacent less xs x s).1 < hi := by
  rcases medianAdjacent_mem less xs x s with h | h | h <;> rw [h] <;>
    exact ⟨by omega, by omega⟩

theorem choosePivotGo_bounds (xs : Array α) (a b : Nat) (hab : a + 8 ≤ b) :
    a ≤ (choosePivotGo less xs a b).1 ∧ (choosePivotGo less xs a b).1 < b := by
  have hsel : ∀ (p : Nat × Nat),
      ((if p.2 = 0 then (p.1, SortedHint.increasing)
        else if p.2 = 12 then (p.1, SortedHint.decreasing)
        else (p.1, SortedHint.unknown)) : Nat × SortedHint).1 = p.1 := by
    intro p
    split
    · rfl
    · split <;> rfl
  simp only [choosePivotGo]
  rw [hsel]
  split
  · split
    · rename_i h8 h50
      obtain ⟨q1, q2⟩ := medianAdjacent_bounds less xs (a + (b-a)/4*1) 0 a b
        (by omega) (by omega)
      obtain ⟨q3, q4⟩ := medianAdjacent_bounds less xs (a + (b-a)/4*2)
        (medianAdjacent less xs (a + (b-a)/4*1) 0).2 a b (by omega) (by omega)
      obtain ⟨q5, q6⟩ := medianAdjacent_bounds less xs (a + (b-a)/4*3)
        (medianAdjacent less xs (a + (b-a)/4*2)
          (medianAdjacent less xs (a + (b-a)/4*1) 0).2).2 a b (by omega) (by omega)
      exact medianIdx_bounds less xs _ _ _ _ a b q1 q2 q3 q4 q5 q6
    · rename_i h8 h50
      exact medianIdx_bounds less xs _ _ _ _ a b (by omega) (by omega) (by omega)
        (by omega) (by omega) (by omega)
  · rename_i h8
    omega

end SortCorrectness5

section SortCorrectness6

variable {α : Type} [Inhabited α] (less : α → α → Bool)

/-! ### `siftDown_func` and `heapSort_func` -/

theorem IsDesc_le {r m : Nat} (h : IsDesc r m) : r ≤ m := by
  induction h with
  | refl => exact Nat.le_refl r
  | left hk ih => omega
  | right hk ih => omega

theorem IsDesc_trans {x y z : Nat} (h1 : IsDesc x y) (h2 : IsDesc y z) : IsDesc x z := by
  induction h2 with
  | refl => exact h1
  | left hk ih => exact IsDesc.left ih
  | right hk ih => exact IsDesc.right ih

theorem IsDesc_parent {r m : Nat} (h : IsDesc r m) :
    m = r ∨ ∃ k, IsDesc r k ∧ (m = 2*k+1 ∨ m = 2*k+2) := by
  cases h with
  | refl => exact Or.inl rfl
  | left hk => exact Or.inr ⟨_, hk, Or.inl rfl⟩
  | right hk => exact Or.inr ⟨_, hk, Or.inr rfl⟩

theorem siftDownGo_spec (ha : Asymm less) (ht : NegTrans less) :
    ∀ (f : Nat) (xs : Array α) (root hi first : Nat),
    hi - root ≤ f → first + hi ≤ xs.size →
    heapFrom less xs first hi (root+1) →
    (siftDownGo less f xs root hi first).size = xs.size ∧
    (∀ k, k < first + root ∨ first + hi ≤ k →
      aget (siftDownGo less f xs root hi first) k = aget xs k) ∧
    (∀ m, ¬ IsDesc root m →
      aget (siftDownGo less f xs root hi first) (first + m) = aget xs (first + m)) ∧
    heapFrom less (siftDownGo less f xs root hi first) first hi root ∧
    (∀ q, less q (aget xs (first+root)) = false →
      (∀ c, (c = 2*root+1 ∨ c = 2*root+2) → c < hi →
        less q (aget xs (first+c)) = false) →
      less q (aget (siftDownGo less f xs root hi first) (first+root)) = false) := by
  intro f
  induction f with
  | zero =>
    intro xs root hi first hf hsz hheap
    refine ⟨rfl, fun k hk => rfl, fun m hm => rfl, ?_, fun q hq1 hq2 => hq1⟩
    intro r c hr hc hchi2
    omega
  | succ f ih =>
    intro xs root hi first hf hsz hheap
    simp only [siftDownGo]
    split
    · rename_i hge
      refine ⟨rfl, fun k hk => rfl, fun m hm => rfl, ?_, fun q hq1 hq2 => hq1⟩
      intro r c hr hc hchi2
      by_cases hrr : r = root
      · omega
      · exact hheap r c (by omega) hc hchi2
    · rename_i hc0lt
      have hcore : ∀ child, (child = 2*root+1 ∨ child = 2*root+2) → child < hi →
          (∀ c, (c = 2*root+1 ∨ c = 2*root+2) → c < hi → c ≠ child →
            less (aget xs (first+child)) (aget xs (first+c)) = false) →
          ((if ¬ lessAt less xs (first+root) (first+child) = true then xs
            else siftDownGo less f (aswap xs (first+root) (first+child))
              child hi first).size = xs.size ∧
          (∀ k, k < first + root ∨ first + hi ≤ k →
            aget (if ¬ lessAt less xs (first+root) (first+child) = true then xs
              else siftDownGo less f (aswap xs (first+root) (first+child))
                child hi first) k = aget xs k) ∧
          (∀ m, ¬ IsDesc root m →
            aget (if ¬ lessAt less xs (first+root) (first+child) = true then xs
              else siftDownGo less f (aswap xs (first+root) (first+child))
                child hi first) (first + m) = aget xs (first + m)) ∧
          heapFrom less (if ¬ lessAt less xs (first+root) (first+child) = true then xs
            else siftDownGo less f (aswap xs (first+root) (first+child))
              child hi first) first hi root ∧
          (∀ q, less q (aget xs (first+root)) = false →
            (∀ c, (c = 2*root+1 ∨ c = 2*root+2) → c < hi →
              less q (aget xs (first+c)) = false) →
            less q (aget (if ¬ lessAt less xs (first+root) (first+child) = true then xs
              else siftDownGo less f (aswap xs (first+root) (first+child))
                child hi first) (first+root)) = false)) := by
        intro child hmem hchi hdom
        have hrc : root < child := by omega
        split
        · rename_i hns
          have hstop : less (aget xs (first+root)) (aget xs (first+child)) = false := by
            cases hb : lessAt less xs (first+root) (first+child) with
            | true => exact absurd hb hns
            | false => rw [lessAt_eq] at hb; exact hb
          refine ⟨rfl, fun k hk => rfl, fun m hm => rfl, ?_, fun q hq1 hq2 => hq1⟩
          intro r c hr hc hchi2
          by_cases hrr : r = root
          · rw [hrr] at hc ⊢
            by_cases hcc : c = child
            · rw [hcc]
              exact hstop
            · exact ht (aget xs (first+c)) (aget xs (first+child))
                (aget xs (first+root)) (hdom c hc hchi2 hcc) hstop
          · exact hheap r c (by omega) hc hchi2
        · rename_i hns
          have hsw : less (aget xs (first+root)) (aget xs (first+child)) = true := by
            rw [Classical.not_not] at hns
            rw [lessAt_eq] at hns
            exact hns
          have hposr : first + root < xs.size := by omega
          have hposc : first + child < xs.size := by omega
          have e1 : aget (aswap xs (first+root) (first+child)) (first+root)
              = aget xs (first+child) :=
            aget_aswap_left xs (first+root) (first+child) hposr hposc
          have e2 : aget (aswap xs (first+root) (first+child)) (first+child)
              = aget xs (first+root) :=
            aget_aswap_right xs (first+root) (first+child) hposr hposc
          have hne : ∀ k, k ≠ first+root → k ≠ first+child →
              aget (aswap xs (first+root) (first+child)) k = aget xs k :=
            fun k h1 h2 => aget_aswap_ne xs (first+root) (first+child) k h1 h2
          have hheap0 : heapFrom less (aswap xs (first+root) (first+child))
              first hi (child+1) := by
            intro r c hr hc hchi2
            rw [hne (first+r) (by omega) (by omega), hne (first+c) (by omega) (by omega)]
            exact hheap r c (by omega) hc hchi2
          obtain ⟨s1, s2, s3, s4, s5⟩ := ih (aswap xs (first+root) (first+child))
            child hi first (by omega) (by rw [aswap_size]; exact hsz) hheap0
          have hdesc : IsDesc root child := by
            rcases hmem with h | h
            · rw [h]; exact IsDesc.left IsDesc.refl
            · rw [h]; exact IsDesc.right IsDesc.refl
          have hroot : aget (siftDownGo less f (aswap xs (first+root) (first+child))
              child hi first) (first+root) = aget xs (first+child) := by
            rw [s2 (first+root) (Or.inl (by omega)), e1]
          refine ⟨?_, ?_, ?_, ?_, ?_⟩
          · rw [s1, aswap_size]
          · intro k hk
            have hk2 : k < first + child ∨ first + hi ≤ k := by omega
            rw [s2 k hk2, hne k (by omega) (by omega)]
          · intro m hm
            have hmroot : m ≠ root := fun h => hm (by rw [h]; exact IsDesc.refl)
            have hmchild : ¬ IsDesc child m := fun h => hm (IsDesc_trans hdesc h)
            have hmc2 : m ≠ child := fun h => hm (by rw [h]; exact hdesc)
            rw [s3 m hmchild, hne (first+m) (by omega) (by omega)]
          · intro r c hr hc hchi2
            by_cases hrch : child ≤ r
            · exact s4 r c hrch hc hchi2
            · by_cases hrr : r = root
              · rw [hrr] at hc ⊢
                by_cases hcc : c = child
                · rw [hroot, hcc]
                  apply s5 (aget xs (first+child))
                  · rw [e2]
                    exact ha _ _ hsw
                  · intro c2 hc2 hc2hi
                    rw [hne (first+c2) (by omega) (by omega)]
                    exact hheap child c2 (by omega) hc2 hc2hi
                · have hcval : aget (siftDownGo less f
                      (aswap xs (first+root) (first+child)) child hi first) (first+c)
                      = aget xs (first+c) := by
                    have hnd : ¬ IsDesc child c := by
                      intro hd
                      rcases IsDesc_parent hd with h | ⟨k, hdk, hk⟩
                      · omega
                      · have := IsDesc_le hdk
                        omega
                    rw [s3 c hnd, hne (first+c) (by omega) (by omega)]
                  rw [hroot, hcval]
                  exact hdom c hc hchi2 hcc
              · have hnd1 : ¬ IsDesc child r := fun hd => by
                  have := IsDesc_le hd
                  omega
                have hnd2 : ¬ IsDesc child c := by
                  intro hd
                  rcases IsDesc_parent hd with h | ⟨k, hdk, hk⟩
                  · omega
                  · have := IsDesc_le hdk
                    omega
                rw [s3 r hnd1, s3 c hnd2, hne (first+r) (by omega) (by omega),
                  hne (first+c) (by omega) (by omega)]
                exact hheap r c (by omega) hc hchi2
          · intro q hq1 hq2
            rw [hroot]
            exact hq2 child hmem hchi
      by_cases hsel : 2*root+1+1 < hi ∧
          lessAt less xs (first+(2*root+1)) (first+(2*root+1)+1) = true
      · rw [if_pos hsel]
        apply hcore (2*root+1+1) (Or.inr (by omega)) hsel.1
        intro c hc hchi2 hcne
        have hsel2 : less (aget xs (first+(2*root+1))) (aget xs (first+(2*root+1)+1))
            = true := by
          have := hsel.2
          rw [lessAt_eq] at this
          exact this
        rcases hc with h | h
        · have hpp : first + (2*root+1+1) = first + (2*root+1) + 1 := by omega
          rw [hpp, h]
          exact ha _ _ hsel2
        · omega
      · rw [if_neg hsel]
        apply hcore (2*root+1) (Or.inl rfl) (by omega)
        intro c hc hchi2 hcne
        rcases hc with h | h
        · omega
        · have hA : 2*root+1+1 < hi := by omega
          have hB : lessAt less xs (first+(2*root+1)) (first+(2*root+1)+1) = false := by
            cases hb : lessAt less xs (first+(2*root+1)) (first+(2*root+1)+1) with
            | true => exact absurd ⟨hA, hb⟩ hsel
            | false => rfl
          rw [lessAt_eq] at hB
          have hpp : first + (2*root+1) + 1 = first + c := by omega
          rw [hpp] at hB
          exact hB

end SortCorrectness6

section SortCorrectness7

variable {α : Type} [Inhabited α] (less : α → α → Bool)

theorem heap_root_max (ha : Asymm less) (ht : NegTrans less) (xs : Array α)
    (first cnt : Nat) (hh : heapFrom less xs first cnt 0) :
    ∀ j, j < cnt → less (aget xs first) (aget xs (first+j)) = false := by
  have key : ∀ n j, j ≤ n → j < cnt →
      less (aget xs first) (aget xs (first+j)) = false := by
    intro n
    induction n with
    | zero =>
      intro j hj hjc
      have hj0 : j = 0 := by omega
      rw [hj0]
      simpa using less_irrefl less ha (aget xs first)
    | succ n ihn =>
      intro j hj hjc
      cases j with
      | zero => simpa using less_irrefl less ha (aget xs first)
      | succ j2 =>
        have hpar : j2+1 = 2*(j2/2)+1 ∨ j2+1 = 2*(j2/2)+2 := by omega
        have h1 : less (aget xs (first+(j2/2))) (aget xs (first+(j2+1))) = false :=
          hh (j2/2) (j2+1) (by omega) hpar hjc
        have h2 : less (aget xs first) (aget xs (first+(j2/2))) = false :=
          ihn (j2/2) (by omega) (by omega)
        exact ht (aget xs (first+(j2+1))) (aget xs (first+(j2/2))) (aget xs first) h1 h2
  exact fun j hj => key j j (Nat.le_refl j) hj

theorem heapBuild_spec (ha : Asymm less) (ht : NegTrans less) :
    ∀ (k : Nat) (xs : Array α) (hi first : Nat),
    first + hi ≤ xs.size → heapFrom less xs first hi k →
    (heapBuild less k xs hi first).size = xs.size ∧
    (∀ p, p < first ∨ first + hi ≤ p →
      aget (heapBuild less k xs hi first) p = aget xs p) ∧
    heapFrom less (heapBuild less k xs hi first) first hi 0 := by
  intro k
  induction k with
  | zero => intro xs hi first hsz hh; exact ⟨rfl, fun p hp => rfl, hh⟩
  | succ k ih =>
    intro xs hi first hsz hh
    simp only [heapBuild]
    obtain ⟨s1, s2, s3, s4, s5⟩ := siftDownGo_spec less ha ht hi xs k hi first
      (by omega) hsz hh
    obtain ⟨b1, b2, b3⟩ := ih (siftDownGo less hi xs k hi first) hi first
      (by rw [s1]; exact hsz) s4
    refine ⟨by rw [b1, s1], ?_, b3⟩
    intro p hp
    rw [b2 p hp, s2 p (by omega)]

theorem heapPop_spec (ha : Asymm less) (ht : NegTrans less) :
    ∀ (n : Nat) (xs : Array α) (first cnt0 : Nat),
    n ≤ cnt0 → first + cnt0 ≤ xs.size →
    heapFrom less xs first n 0 →
    sortedRange less xs (first + n) (first + cnt0) →
    (∀ m j, n ≤ m → m < cnt0 → j < n →
      less (aget xs (first+m)) (aget xs (first+j)) = false) →
    (heapPop less n xs first).size = xs.size ∧
    (∀ k, k < first ∨ first + cnt0 ≤ k → aget (heapPop less n xs first) k = aget xs k) ∧
    sortedRange less (heapPop less n xs first) first (first + cnt0) := by
  intro n
  induction n with
  | zero =>
    intro xs first cnt0 hn hsz hheap hsorted hB
    exact ⟨rfl, fun k hk => rfl, hsorted⟩
  | succ n ih =>
    intro xs first cnt0 hn hsz hheap hsorted hB
    simp only [heapPop]
    have hfsz : first < xs.size := by omega
    have hfnsz : first + n < xs.size := by omega
    have e1 : aget (aswap xs first (first+n)) first = aget xs (first+n) :=
      aget_aswap_left xs first (first+n) hfsz hfnsz
    have e2 : aget (aswap xs first (first+n)) (first+n) = aget xs first :=
      aget_aswap_right xs first (first+n) hfsz hfnsz
    have hne0 : ∀ k, k ≠ first → k ≠ first+n →
        aget (aswap xs first (first+n)) k = aget xs k :=
      fun k h1 h2 => aget_aswap_ne xs first (first+n) k h1 h2
    have hrm := heap_root_max less ha ht xs first (n+1) hheap
    have hheap1 : heapFrom less (aswap xs first (first+n)) first n 1 := by
      intro r c hr hc hchi
      rw [hne0 (first+r) (by omega) (by omega), hne0 (first+c) (by omega) (by omega)]
      exact hheap r c (by omega) hc (by omega)
    obtain ⟨s1, s2, s3, s4, s5⟩ := siftDownGo_spec less ha ht n
      (aswap xs first (first+n)) 0 n first (by omega)
      (by rw [aswap_size]; omega) hheap1
    set ys := siftDownGo less n (aswap xs first (first+n)) 0 n first with hys
    have hyssz : ys.size = xs.size := by rw [hys, s1, aswap_size]
    have hyfr : ∀ k, k < first ∨ first + n ≤ k →
        aget ys k = aget (aswap xs first (first+n)) k := by
      intro k hk
      exact s2 k (by omega)
    have hyout : ∀ k, k < first ∨ first + n + 1 ≤ k → aget ys k = aget xs k := by
      intro k hk
      rw [hyfr k (by omega), hne0 k (by omega) (by omega)]
    have hytop : aget ys (first+n) = aget xs first := by
      rw [hyfr (first+n) (by omega), e2]
    have hperm : ys.toList.Perm (aswap xs first (first+n)).toList :=
      siftDownGo_perm less n _ 0 n first
    have hslice := slice_perm_of_perm_frame (aswap xs first (first+n)) ys
      first (first+n) (by omega) (by rw [aswap_size]; omega) hperm
      (fun k hk => hyfr k (Or.inl hk))
      (fun k hk1 hk2 => hyfr k (Or.inr hk1))
    have htrans : ∀ (P : α → Prop),
        (∀ k, first ≤ k → k < first + n →
          P (aget (aswap xs first (first+n)) k)) →
        ∀ k, first ≤ k → k < first + n → P (aget ys k) := by
      intro P hP
      exact range_all_transfer P (aswap xs first (first+n)) ys first (first+n)
        (by rw [aswap_size]; omega) (by rw [hyssz, aswap_size]) hslice hP
    have hP0 : ∀ k, first ≤ k → k < first + n →
        (less (aget xs first) (aget (aswap xs first (first+n)) k) = false ∧
         ∀ m, n+1 ≤ m → m < cnt0 →
           less (aget xs (first+m)) (aget (aswap xs first (first+n)) k) = false) := by
      intro k hk1 hk2
      by_cases hkf : k = first
      · rw [hkf, e1]
        refine ⟨hrm n (by omega), ?_⟩
        intro m hm1 hm2
        exact hB m n hm1 hm2 (by omega)
      · rw [hne0 k hkf (by omega)]
        have hk3 : k = first + (k - first) := by omega
        refine ⟨?_, ?_⟩
        · rw [hk3]
          exact hrm (k - first) (by omega)
        · intro m hm1 hm2
          rw [hk3]
          exact hB m (k - first) (by omega) hm2 (by omega)
    have hPy := htrans (fun x => less (aget xs first) x = false ∧
      ∀ m, n+1 ≤ m → m < cnt0 → less (aget xs (first+m)) x = false) hP0
    have hPy1 : ∀ k, first ≤ k → k < first + n →
        less (aget xs first) (aget ys k) = false :=
      fun k h1 h2 => (hPy k h1 h2).1
    have hPy2 : ∀ k, first ≤ k → k < first + n → ∀ m, n+1 ≤ m → m < cnt0 →
        less (aget xs (first+m)) (aget ys k) = false :=
      fun k h1 h2 => (hPy k h1 h2).2
    have hsorted2 : sortedRange less ys (first + n) (first + cnt0) := by
      intro i h1 h2
      by_cases hitop : i = first + n
      · rw [hitop, hytop, hyout (first+n+1) (by omega)]
        have hx := hB (n+1) 0 (by omega) (by omega) (by omega)
        have hp1 : first + (n+1) = first + n + 1 := by omega
        have hp2 : first + 0 = first := by omega
        rw [hp1, hp2] at hx
        exact hx
      · rw [hyout i (by omega), hyout (i+1) (by omega)]
        exact hsorted i (by omega) h2
    have hB2 : ∀ m j, n ≤ m → m < cnt0 → j < n →
        less (aget ys (first+m)) (aget ys (first+j)) = false := by
      intro m j hm1 hm2 hj
      by_cases hmn : m = n
      · rw [hmn, hytop]
        exact hPy1 (first+j) (by omega) (by omega)
      · rw [hyout (first+m) (by omega)]
        exact hPy2 (first+j) (by omega) (by omega) m (by omega) hm2
    obtain ⟨r1, r2, r3⟩ := ih ys first cnt0 (by omega) (by rw [hyssz]; exact hsz)
      s4 hsorted2 hB2
    refine ⟨by rw [r1, hyssz], ?_, r3⟩
    intro k hk
    rw [r2 k hk, hyout k (by omega)]

theorem heapSortGo_spec (ha : Asymm less) (ht : NegTrans less)
    (xs : Array α) (a b : Nat) (hab : a < b) (hsz : b ≤ xs.size) :
    (heapSortGo less xs a b).size = xs.size ∧
    (∀ k, k < a ∨ b ≤ k → aget (heapSortGo less xs a b) k = aget xs k) ∧
    sortedRange less (heapSortGo less xs a b) a b := by
  simp only [heapSortGo]
  obtain ⟨b1, b2, b3⟩ := heapBuild_spec less ha ht ((b-a-1)/2 + 1) xs (b-a) a
    (by omega) (by intro r c hr hc hchi; omega)
  obtain ⟨p1, p2, p3⟩ := heapPop_spec less ha ht (b-a)
    (heapBuild less ((b-a-1)/2+1) xs (b-a) a) a (b-a)
    (Nat.le_refl _) (by rw [b1]; omega) b3
    (by intro i h1 h2; omega)
    (by intro m j hm1 hm2 hj; omega)
  refine ⟨by rw [p1, b1], ?_, ?_⟩
  · intro k hk
    rw [p2 k (by omega), b2 k (by omega)]
  · intro i h1 h2
    exact p3 i (by omega) (by omega)

end SortCorrectness7

section SortCorrectness8

variable {α : Type} [Inhabited α] (less : α → α → Bool)

set_option maxHeartbeats 3200000 in
theorem pdqsortGo_spec (ha : Asymm less) (ht : NegTrans less) :
    ∀ (f : Nat) (xs : Array α) (a b limit : Nat) (wb wp : Bool),
    b - a ≤ f → b ≤ xs.size →
    (0 < a → ∀ k, a ≤ k → k < b → less (aget xs k) (aget xs (a-1)) = false) →
    (pdqsortGo less f xs a b limit wb wp).size = xs.size ∧
    (∀ k, k < a → aget (pdqsortGo less f xs a b limit wb wp) k = aget xs k) ∧
    (∀ k, b ≤ k → aget (pdqsortGo less f xs a b limit wb wp) k = aget xs k) ∧
    sortedRange less (pdqsortGo less f xs a b limit wb wp) a b := by
  intro f
  induction f with
  | zero =>
    intro xs a b limit wb wp hf hsz hlb
    exact ⟨rfl, fun k hk => rfl, fun k hk => rfl, fun i h1 h2 => by omega⟩
  | succ f ih =>
    intro xs a b limit wb wp hf hsz hlb
    have heq0 : pdqsortGo less (f+1) xs a b limit wb wp =
        pdqsortGo less (f+1) xs a b limit wb wp := rfl
    conv at heq0 =>
      rhs
      simp only [pdqsortGo]
    by_cases h12 : b - a ≤ 12
    · have heq : pdqsortGo less (f+1) xs a b limit wb wp =
          insertionSortGo less xs a b := by
        rw [heq0, if_pos h12]
      rw [heq]
      exact ⟨insertionSortGo_size less xs a b,
        fun k hk => insertionSortGo_frame less xs a b k (Or.inl hk),
        fun k hk => insertionSortGo_frame less xs a b k (Or.inr hk),
        insertionSortGo_sorted less ha ht xs a b hsz⟩
    · by_cases hlim : limit = 0
      · have heq : pdqsortGo less (f+1) xs a b limit wb wp =
            heapSortGo less xs a b := by
          rw [heq0, if_neg h12, if_pos hlim]
        rw [heq]
        obtain ⟨z1, z2, z3⟩ := heapSortGo_spec less ha ht xs a b (by omega) hsz
        exact ⟨z1, fun k hk => z2 k (Or.inl hk), fun k hk => z2 k (Or.inr hk), z3⟩
      · rw [heq0, if_neg h12, if_neg hlim]
        have hab : a + 13 ≤ b := by omega
        set xsL := if ¬ wb = true then breakPatternsGo xs a b else xs with hxsL
        have hLsz : xsL.size = xs.size := by
          rw [hxsL]; split
          · exact breakPatternsGo_size xs a b
          · rfl
        have hLfr : ∀ k, k < a ∨ b ≤ k → aget xsL k = aget xs k := by
          intro k hk
          rw [hxsL]; split
          · exact breakPatternsGo_frame xs a b k hk
          · rfl
        have hLperm : xsL.toList.Perm xs.toList := by
          rw [hxsL]; split
          · exact breakPatternsGo_perm xs a b
          · exact .refl _
        have hLlb : 0 < a → ∀ k, a ≤ k → k < b →
            less (aget xsL k) (aget xsL (a-1)) = false :=
          lb_transfer less xs xsL a b hsz hLsz hLperm
            (fun k hk => hLfr k (Or.inl hk)) (fun k hk1 hk2 => hLfr k (Or.inr hk1)) hlb
        set pv := choosePivotGo less xsL a b with hpv
        have hpvb := choosePivotGo_bounds less xsL a b (by omega)
        rw [← hpv] at hpvb
        obtain ⟨hpv1, hpv2⟩ := hpvb
        set xsR := if pv.2 = SortedHint.decreasing then reverseRangeGo xsL a b
          else xsL with hxsR
        have hRsz : xsR.size = xs.size := by
          rw [hxsR]; split
          · rw [reverseRangeGo_size, hLsz]
          · exact hLsz
        have hRfr : ∀ k, k < a ∨ b ≤ k → aget xsR k = aget xs k := by
          intro k hk
          rw [hxsR]; split
          · rw [reverseRangeGo_frame xsL a b k hk (by omega)]
            exact hLfr k hk
          · exact hLfr k hk
        have hRperm : xsR.toList.Perm xs.toList := by
          rw [hxsR]; split
          · exact (reverseRangeGo_perm xsL a b).trans hLperm
          · exact hLperm
        have hRlb : 0 < a → ∀ k, a ≤ k → k < b →
            less (aget xsR k) (aget xsR (a-1)) = false :=
          lb_transfer less xs xsR a b hsz hRsz hRperm
            (fun k hk => hRfr k (Or.inl hk)) (fun k hk1 hk2 => hRfr k (Or.inr hk1)) hlb
        set pivot := if pv.2 = SortedHint.decreasing then b - 1 - (pv.1 - a) else pv.1
          with hpivotdef
        have hpvt : a ≤ pivot ∧ pivot < b := by
          rw [hpivotdef]; split
          · omega
          · omega
        set limitN := if ¬ wb = true then limit - 1 else limit with hlimitN
        set ps := if wb = true ∧ wp = true ∧
            (if pv.2 = SortedHint.decreasing then SortedHint.increasing else pv.2)
              = SortedHint.increasing
          then partInsSortGo less xsR a b else (false, xsR) with hps
        have hpsfacts : ps.2.size = xs.size ∧
            (∀ k, k < a → aget ps.2 k = aget xs k) ∧
            (∀ k, b ≤ k → aget ps.2 k = aget xs k) ∧
            ps.2.toList.Perm xs.toList ∧
            (0 < a → ∀ k, a ≤ k → k < b →
              less (aget ps.2 k) (aget ps.2 (a-1)) = false) ∧
            (ps.1 = true → sortedRange less ps.2 a b) := by
          rw [hps]
          by_cases hcnd : wb = true ∧ wp = true ∧
              (if pv.2 = SortedHint.decreasing then SortedHint.increasing else pv.2)
                = SortedHint.increasing
          · rw [if_pos hcnd]
            obtain ⟨w1, w2, w3, w4⟩ := partInsSortGo_spec less ha ht xsR a b
              (by omega) (by omega) hRlb
            refine ⟨by rw [w1, hRsz], ?_, ?_, ?_, ?_, w4⟩
            · intro k hk
              rw [w2 k hk]
              exact hRfr k (Or.inl hk)
            · intro k hk
              rw [w3 k hk]
              exact hRfr k (Or.inr hk)
            · exact (partInsSortGo_perm less xsR a b).trans hRperm
            · exact lb_transfer less xsR (partInsSortGo less xsR a b).2 a b (by omega)
                w1 (partInsSortGo_perm less xsR a b) w2
                (fun k hk1 hk2 => w3 k hk1) hRlb
          · rw [if_neg hcnd]
            exact ⟨hRsz, fun k hk => hRfr k (Or.inl hk), fun k hk => hRfr k (Or.inr hk),
              hRperm, hRlb, fun h => nomatch h⟩
        obtain ⟨hS1, hS2, hS3, hS4, hS5, hS6⟩ := hpsfacts
        split
        · rename_i hsorted
          exact ⟨hS1, hS2, hS3, hS6 hsorted⟩
        · rename_i hnots
          split
          · rename_i hcond
            obtain ⟨h0a, hndesc⟩ := hcond
            have hcond2 : less (aget ps.2 (a-1)) (aget ps.2 pivot) = false := by
              cases hb2 : lessAt less ps.2 (a-1) pivot with
              | true => exact absurd hb2 hndesc
              | false => rw [lessAt_eq] at hb2; exact hb2
            have hmin : ∀ k, a ≤ k → k < b →
                less (aget ps.2 k) (aget ps.2 pivot) = false := by
              intro k hk1 hk2
              exact ht (aget ps.2 pivot) (aget ps.2 (a-1)) (aget ps.2 k) hcond2
                (hS5 h0a k hk1 hk2)
            obtain ⟨q1, q2, q3, q4, q5, q6, q7⟩ := partitionEqualGo_spec less ha ps.2
              a b pivot (by omega) (by omega) hpvt.1 hpvt.2
            set pe := partitionEqualGo less ps.2 a b pivot with hpe
            have hminPe : ∀ k, a ≤ k → k < b →
                less (aget pe.2 k) (aget ps.2 pivot) = false :=
              range_transfer_via (fun x => less x (aget ps.2 pivot) = false)
                ps.2 pe.2 a b (by omega) (by omega) q1
                (partitionEqualGo_perm less ps.2 a b pivot) q4
                (fun k hk1 hk2 => q5 k hk1) hmin
            obtain ⟨r1, r2, r3, r4⟩ := ih pe.2 pe.1 b limitN wb wp (by omega)
              (by rw [q1]; omega)
              (by
                intro hpos k hk1 hk2
                have hx1 : less (aget ps.2 pivot) (aget pe.2 (pe.1 - 1)) = false :=
                  q6 (pe.1 - 1) (by omega) (by omega)
                have hx2 : less (aget pe.2 k) (aget ps.2 pivot) = false :=
                  hminPe k (by omega) hk2
                exact ht (aget pe.2 (pe.1 - 1)) (aget ps.2 pivot) (aget pe.2 k) hx1 hx2)
            have hminRec : ∀ k, pe.1 ≤ k → k < b →
                less (aget (pdqsortGo less f pe.2 pe.1 b limitN wb wp) k)
                  (aget ps.2 pivot) = false :=
              range_transfer_via (fun x => less x (aget ps.2 pivot) = false)
                pe.2 (pdqsortGo less f pe.2 pe.1 b limitN wb wp) pe.1 b (by omega)
                (by rw [q1]; omega) r1 (pdqsortGo_perm less f pe.2 pe.1 b limitN wb wp)
                r2 (fun k hk1 hk2 => r3 k hk1)
                (fun k hk1 hk2 => hminPe k (by omega) hk2)
            refine ⟨?_, ?_, ?_, ?_⟩
            · rw [r1, q1, hS1]
            · intro k hk
              rw [r2 k (by omega), q4 k hk]
              exact hS2 k hk
            · intro k hk
              rw [r3 k hk, q5 k hk]
              exact hS3 k hk
            · intro i h1 h2
              by_cases hi1 : i + 1 < pe.1
              · rw [r2 i (by omega), r2 (i+1) (by omega)]
                have hx1 : less (aget ps.2 pivot) (aget pe.2 i) = false :=
                  q6 i (by omega) (by omega)
                have hx2 : less (aget pe.2 (i+1)) (aget ps.2 pivot) = false :=
                  hminPe (i+1) (by omega) (by omega)
                exact ht (aget pe.2 i) (aget ps.2 pivot) (aget pe.2 (i+1)) hx1 hx2
              · by_cases hi2 : i + 1 = pe.1
                · rw [r2 i (by omega)]
                  have hx1 : less (aget ps.2 pivot) (aget pe.2 i) = false :=
                    q6 i (by omega) (by omega)
                  have hx2 := hminRec (i+1) (by omega) h2
                  exact ht (aget pe.2 i) (aget ps.2 pivot)
                    (aget (pdqsortGo less f pe.2 pe.1 b limitN wb wp) (i+1)) hx1 hx2
                · exact r4 i (by omega) h2
          · rename_i hcond
            obtain ⟨g1, g2, g3, g4, g5, g6, g7, g8⟩ := partitionGo_spec less ps.2
              a b pivot (by omega) (by omega) hpvt.1 hpvt.2
            set pq := partitionGo less ps.2 a b pivot with hpq
            have hQlb : 0 < a → ∀ k, a ≤ k → k < b →
                less (aget pq.2.2 k) (aget pq.2.2 (a-1)) = false :=
              lb_transfer less ps.2 pq.2.2 a b (by omega) g1
                (partitionGo_perm less ps.2 a b pivot) g4
                (fun k hk1 hk2 => g5 k hk1) hS5
            split
            · rename_i hless
              obtain ⟨i1, i2, i3, i4⟩ := ih pq.2.2 a pq.1 limitN true true (by omega)
                (by rw [g1]; omega)
                (fun hpos k hk1 hk2 => hQlb hpos k hk1 (by omega))
              set inner := pdqsortGo less f pq.2.2 a pq.1 limitN true true with hinner
              have hltInner : ∀ k, a ≤ k → k < pq.1 →
                  less (aget inner k) (aget ps.2 pivot) = true :=
                range_transfer_via (fun x => less x (aget ps.2 pivot) = true)
                  pq.2.2 inner a pq.1 (by omega) (by rw [g1]; omega) i1
                  (pdqsortGo_perm less f pq.2.2 a pq.1 limitN true true) i2
                  (fun k hk1 hk2 => i3 k hk1) g7
              obtain ⟨o1, o2, o3, o4⟩ := ih inner (pq.1+1) b limitN
                (decide (min (pq.1 - a) (b - pq.1) ≥ (b - a) / 8)) pq.2.1 (by omega)
                (by rw [i1, g1]; omega)
                (by
                  intro hpos k hk1 hk2
                  have hmid : pq.1 + 1 - 1 = pq.1 := by omega
                  rw [hmid, i3 k (by omega), i3 pq.1 (Nat.le_refl _), g6]
                  exact g8 k (by omega) hk2)
              set outer := pdqsortGo less f inner (pq.1+1) b limitN
                (decide (min (pq.1 - a) (b - pq.1) ≥ (b - a) / 8)) pq.2.1 with houter
              have hgeInner : ∀ k, pq.1 + 1 ≤ k → k < b →
                  less (aget inner k) (aget ps.2 pivot) = false := by
                intro k hk1 hk2
                rw [i3 k (by omega)]
                exact g8 k (by omega) hk2
              have hgeOuter : ∀ k, pq.1 + 1 ≤ k → k < b →
                  less (aget outer k) (aget ps.2 pivot) = false :=
                range_transfer_via (fun x => less x (aget ps.2 pivot) = false)
                  inner outer (pq.1+1) b (by omega) (by rw [i1, g1]; omega) o1
                  (pdqsortGo_perm less f inner (pq.1+1) b limitN _ _) o2
                  (fun k hk1 hk2 => o3 k hk1) hgeInner
              have hvmid : aget outer pq.1 = aget ps.2 pivot := by
                rw [o2 pq.1 (by omega), i3 pq.1 (Nat.le_refl _), g6]
              refine ⟨?_, ?_, ?_, ?_⟩
              · rw [o1, i1, g1, hS1]
              · intro k hk
                rw [o2 k (by omega), i2 k (by omega), g4 k hk]
                exact hS2 k hk
              · intro k hk
                rw [o3 k (by omega), i3 k (by omega), g5 k hk]
                exact hS3 k hk
              · intro i h1 h2
                by_cases hi1 : i + 1 < pq.1
                · rw [o2 i (by omega), o2 (i+1) (by omega)]
                  exact i4 i h1 (by omega)
                · by_cases hi2 : i + 1 = pq.1
                  · rw [o2 i (by omega), hi2, hvmid]
                    have hx := hltInner i (by omega) (by omega)
                    exact ha _ _ hx
                  · by_cases hi3 : i = pq.1
                    · rw [hi3, hvmid]
                      exact hgeOuter (pq.1+1) (Nat.le_refl _) (by omega)
                    · exact o4 i (by omega) h2
            · rename_i hless
              obtain ⟨i1, i2, i3, i4⟩ := ih pq.2.2 (pq.1+1) b limitN true true
                (by omega) (by rw [g1]; omega)
                (by
                  intro hpos k hk1 hk2
                  have hmid : pq.1 + 1 - 1 = pq.1 := by omega
                  rw [hmid, g6]
                  exact g8 k (by omega) hk2)
              set inner := pdqsortGo less f pq.2.2 (pq.1+1) b limitN true true
                with hinner
              have hgeInner : ∀ k, pq.1 + 1 ≤ k → k < b →
                  less (aget inner k) (aget ps.2 pivot) = false :=
                range_transfer_via (fun x => less x (aget ps.2 pivot) = false)
                  pq.2.2 inner (pq.1+1) b (by omega) (by rw [g1]; omega) i1
                  (pdqsortGo_perm less f pq.2.2 (pq.1+1) b limitN true true) i2
                  (fun k hk1 hk2 => i3 k hk1)
                  (fun k hk1 hk2 => g8 k (by omega) hk2)
              obtain ⟨o1, o2, o3, o4⟩ := ih inner a pq.1 limitN
                (decide (min (pq.1 - a) (b - pq.1) ≥ (b - a) / 8)) pq.2.1 (by omega)
                (by rw [i1, g1]; omega)
                (by
                  intro hpos k hk1 hk2
                  rw [i2 k (by omega), i2 (a-1) (by omega)]
                  exact hQlb hpos k hk1 (by omega))
              set outer := pdqsortGo less f inner a pq.1 limitN
                (decide (min (pq.1 - a) (b - pq.1) ≥ (b - a) / 8)) pq.2.1 with houter
              have hltFirst : ∀ k, a ≤ k → k < pq.1 →
                  less (aget inner k) (aget ps.2 pivot) = true := by
                intro k hk1 hk2
                rw [i2 k (by omega)]
                exact g7 k hk1 hk2
              have hltOuter : ∀ k, a ≤ k → k < pq.1 →
                  less (aget outer k) (aget ps.2 pivot) = true :=
                range_transfer_via (fun x => less x (aget ps.2 pivot) = true)
                  inner outer a pq.1 (by omega) (by rw [i1, g1]; omega) o1
                  (pdqsortGo_perm less f inner a pq.1 limitN _ _) o2
                  (fun k hk1 hk2 => o3 k hk1) hltFirst
              have hvmid : aget outer pq.1 = aget ps.2 pivot := by
                rw [o3 pq.1 (Nat.le_refl _), i2 pq.1 (by omega), g6]
              refine ⟨?_, ?_, ?_, ?_⟩
              · rw [o1, i1, g1, hS1]
              · intro k hk
                rw [o2 k (by omega), i2 k (by omega), g4 k hk]
                exact hS2 k hk
              · intro k hk
                rw [o3 k (by omega), i3 k (by omega), g5 k hk]
                exact hS3 k hk
              · intro i h1 h2
                by_cases hi1 : i + 1 < pq.1
                · exact o4 i h1 (by omega)
                · by_cases hi2 : i + 1 = pq.1
                  · rw [hi2, hvmid]
                    have hx := hltOuter i (by omega) (by omega)
                    exact ha _ _ hx
                  · by_cases hi3 : i = pq.1
                    · rw [hi3, hvmid, o3 (pq.1+1) (by omega)]
                      exact hgeInner (pq.1+1) (Nat.le_refl _) (by omega)
                    · rw [o3 i (by omega), o3 (i+1) (by omega)]
                      exact i4 i (by omega) h2

end SortCorrectness8

section SortedPackage

variable {α : Type} [Inhabited α] (less : α → α → Bool)

theorem sortSliceGo_sortedPairs (ha : Asymm less) (ht : NegTrans less) (l : List α) :
    ∀ i j, i < j → j < (sortSliceGo less l).length →
      less ((sortSliceGo less l).getD j default) ((sortSliceGo less l).getD i default)
        = false := by
  intro i j hij hj
  have hlen := (sortSliceGo_perm less l).length_eq
  have hout : sortSliceGo less l =
      (pdqsortGo less l.length l.toArray 0 l.length (bitsLen l.length) true true).toList :=
    rfl
  obtain ⟨s1, s2, s3, s4⟩ := pdqsortGo_spec less ha ht l.length l.toArray 0 l.length
    (bitsLen l.length) true true (Nat.le_refl _) (by simp)
    (fun h => absurd h (by omega))
  rw [hout, ← aget_toList_getD, ← aget_toList_getD]
  exact sortedRange_pairwise less ht s4 i j (Nat.zero_le i) hij (by omega)

end SortedPackage

/-! ## The string comparator is a strict total order -/

theorem charLtGo_true_iff (c d : Char) : charLtGo c d = true ↔ c.toNat < d.toNat := by
  simp [charLtGo]

theorem charLtGo_false_iff (c d : Char) : charLtGo c d = false ↔ ¬ c.toNat < d.toNat := by
  simp [charLtGo]

theorem charsLtGo_nil (s : List Char) : charsLtGo s [] = false := by
  cases s <;> rfl

theorem charsLtGo_asymm : ∀ (s t : List Char),
    charsLtGo s t = true → charsLtGo t s = false := by
  intro s
  induction s with
  | nil =>
    intro t h
    exact charsLtGo_nil t
  | cons c cs ih =>
    intro t h
    cases t with
    | nil => simp [charsLtGo] at h
    | cons d ds =>
      simp only [charsLtGo] at h ⊢
      by_cases h1 : charLtGo c d = true
      · have h2 : charLtGo d c = false :=
          (charLtGo_false_iff d c).mpr (by
            have := (charLtGo_true_iff c d).mp h1
            omega)
      
        rw [if_neg (by simp [h2]), if_pos h1]
      · have h1f : charLtGo c d = false := by
          cases hb : charLtGo c d
          · rfl
          · exact absurd hb h1
        rw [if_neg h1] at h
        by_cases h3 : charLtGo d c = true
        · rw [if_pos h3] at h
          simp at h
        · rw [if_neg h3] at h
          rw [if_neg h3, if_neg h1]
          exact ih ds h

theorem charsLtGo_negtrans : ∀ (s t u : List Char),
    charsLtGo t s = false → charsLtGo u t = false → charsLtGo u s = false := by
  intro s
  induction s with
  | nil =>
    intro t u h1 h2
    exact charsLtGo_nil u
  | cons c cs ih =>
    intro t u h1 h2
    cases t with
    | nil => simp [charsLtGo] at h1
    | cons d ds =>
      cases u with
      | nil => simp [charsLtGo] at h2
      | cons e es =>
        simp only [charsLtGo] at h1 h2 ⊢
        by_cases hdc : charLtGo d c = true
        · rw [if_pos hdc] at h1
          simp at h1
        · rw [if_neg hdc] at h1
          by_cases hed : charLtGo e d = true
          · rw [if_pos hed] at h2
            simp at h2
          · rw [if_neg hed] at h2
            have hn1 : ¬ d.toNat < c.toNat := by
              have hx : charLtGo d c = false := by
                cases hb : charLtGo d c
                · rfl
                · exact absurd hb hdc
              exact (charLtGo_false_iff d c).mp hx
            have hn2 : ¬ e.toNat < d.toNat := by
              have hx : charLtGo e d = false := by
                cases hb : charLtGo e d
                · rfl
                · exact absurd hb hed
              exact (charLtGo_false_iff e d).mp hx
            rw [if_neg (by simp [(charLtGo_false_iff e c).mpr (by omega)])]
            by_cases hcd : charLtGo c d = true
            · have hx : c.toNat < d.toNat := (charLtGo_true_iff c d).mp hcd
              rw [if_pos ((charLtGo_true_iff c e).mpr (by omega))]
            · have hcd' : ¬ c.toNat < d.toNat := by
                have hx : charLtGo c d = false := by
                  cases hb : charLtGo c d
                  · rfl
                  · exact absurd hb hcd
                exact (charLtGo_false_iff c d).mp hx
              rw [if_neg hcd] at h1
              by_cases hde : charLtGo d e = true
              · have hx : d.toNat < e.toNat := (charLtGo_true_iff d e).mp hde
                rw [if_pos ((charLtGo_true_iff c e).mpr (by omega))]
              · have hde' : ¬ d.toNat < e.toNat := by
                  have hx : charLtGo d e = false := by
                    cases hb : charLtGo d e
                    · rfl
                    · exact absurd hb hde
                  exact (charLtGo_false_iff d e).mp hx
                rw [if_neg hde] at h2
                rw [if_neg (by simp [(charLtGo_false_iff c e).mpr (by omega)])]
                exact ih ds es h1 h2

theorem lessAccount_asymm : Asymm lessAccount :=
  fun x y h => charsLtGo_asymm x.accountName.data y.accountName.data h

theorem lessAccount_negtrans : NegTrans lessAccount :=
  fun x y z h1 h2 =>
    charsLtGo_negtrans x.accountName.data y.accountName.data z.accountName.data h1 h2

theorem lessRole_asymm : Asymm lessRole :=
  fun x y h => charsLtGo_asymm x.roleName.data y.roleName.data h

theorem lessRole_negtrans : NegTrans lessRole :=
  fun x y z h1 h2 =>
    charsLtGo_negtrans x.roleName.data y.roleName.data z.roleName.data h1 h2

/-- The account sort is ascending (non-strictly) in Go string order on the
account names: the full pdqsort correctness result, instantiated. -/
theorem sortAccountsGo_sorted (l : List AccountInfo) :
    sortedByKey AccountInfo.accountName (sortAccountsGo l) :=
  fun i hi j hj hij =>
    sortSliceGo_sortedPairs lessAccount lessAccount_asymm lessAccount_negtrans l
      i j hij hj

/-- The role sort is ascending (non-strictly) in Go string order on the role
names. -/
theorem sortRolesGo_sorted (l : List RoleInfo) :
    sortedByKey RoleInfo.roleName (sortRolesGo l) :=
  fun i hi j hj hij =>
    sortSliceGo_sortedPairs lessRole lessRole_asymm lessRole_negtrans l i j hij hj

/-- **C3 (amended)**: before selection the candidate accounts (and roles) are
sorted by name in case-sensitive ordinal ascending order — the sorted list is
a permutation of the input and non-strictly ascending by name for every
input — but the sort (`sort.Slice`, an unstable pattern-defeating quicksort)
is *not* stable: candidates with equal names need not keep their original
enumeration order (`claim3_counterexample` exhibits an input on which an
equal-named pair is swapped). -/
theorem claim3_amended_sorted_ascending_unstable :
    (∀ l : List AccountInfo, (sortAccountsGo l).Perm l ∧
      sortedByKey AccountInfo.accountName (sortAccountsGo l)) ∧
    (∀ l : List RoleInfo, (sortRolesGo l).Perm l ∧
      sortedByKey RoleInfo.roleName (sortRolesGo l)) :=
  ⟨fun l => ⟨sortAccountsGo_perm l, sortAccountsGo_sorted l⟩,
   fun l => ⟨sortRolesGo_perm l, sortRolesGo_sorted l⟩⟩

/-- **C5**: for every candidate list, when no hint is supplied or the hint
matches no candidate case-insensitively, the interactive chooser is invoked
with the full candidate set — every candidate, rendered, in a list that is a
permutation of the input sorted ascending by name — and a valid selection
made by the chooser is returned (identically for accounts and roles). -/
theorem claim5_no_match_chooser_full_sorted :
    (∀ (accounts : List AccountInfo) (hint : String)
        (chooser : List String → Except String Int),
      (hint = "" ∨ ∀ a ∈ accounts, equalFoldGo a.accountName hint = false) →
      (selectAccountGo accounts hint chooser).chooserArgs
        = some ((sortAccountsGo accounts).map renderAccount) ∧
      (sortAccountsGo accounts).Perm accounts ∧
      sortedByKey AccountInfo.accountName (sortAccountsGo accounts) ∧
      (∀ k : Nat, k < (sortAccountsGo accounts).length →
        chooser ((sortAccountsGo accounts).map renderAccount) = .ok (k : Int) →
        (selectAccountGo accounts hint chooser).result
          = .ok ((sortAccountsGo accounts).getD k default))) ∧
    (∀ (roles : List RoleInfo) (hint : String)
        (chooser : List String → Except String Int),
      (hint = "" ∨ ∀ r ∈ roles, equalFoldGo r.roleName hint = false) →
      (selectRoleGo roles hint chooser).chooserArgs
        = some ((sortRolesGo roles).map renderRole) ∧
      (sortRolesGo roles).Perm roles ∧
      sortedByKey RoleInfo.roleName (sortRolesGo roles) ∧
      (∀ k : Nat, k < (sortRolesGo roles).length →
        chooser ((sortRolesGo roles).map renderRole) = .ok (k : Int) →
        (selectRoleGo roles hint chooser).result
          = .ok ((sortRolesGo roles).getD k default))) := by
  constructor
  · intro accounts hint chooser hno
    have hno2 : hint = "" ∨ ∀ x ∈ sortAccountsGo accounts,
        equalFoldGo x.accountName hint = false := by
      rcases hno with h | h
      · exact Or.inl h
      · exact Or.inr fun x hx => h x ((sortAccountsGo_perm accounts).mem_iff.mp hx)
    obtain ⟨n1, n2, n3, n4⟩ := selectFromSorted_no_match renderAccount
      AccountInfo.accountName "error selecting account: " "no account selected"
      (sortAccountsGo accounts) hint chooser hno2
    refine ⟨n1, sortAccountsGo_perm accounts, sortAccountsGo_sorted accounts, ?_⟩
    intro k hk hord
    apply n4 k ((sortAccountsGo accounts).getD k default) hord
    rw [List.get?_eq_getElem?, List.getElem?_eq_getElem hk, List.getD_eq_getElem?_getD,
      List.getElem?_eq_getElem hk]
    rfl
  · intro roles hint chooser hno
    have hno2 : hint = "" ∨ ∀ x ∈ sortRolesGo roles,
        equalFoldGo x.roleName hint = false := by
      rcases hno with h | h
      · exact Or.inl h
      · exact Or.inr fun x hx => h x ((sortRolesGo_perm roles).mem_iff.mp hx)
    obtain ⟨n1, n2, n3, n4⟩ := selectFromSorted_no_match renderRole
      RoleInfo.roleName "error selecting role: " "no role selected"
      (sortRolesGo roles) hint chooser hno2
    refine ⟨n1, sortRolesGo_perm roles, sortRolesGo_sorted roles, ?_⟩
    intro k hk hord
    apply n4 k ((sortRolesGo roles).getD k default) hord
    rw [List.get?_eq_getElem?, List.getElem?_eq_getElem hk, List.getD_eq_getElem?_getD,
      List.getElem?_eq_getElem hk]
    rfl

/-- Witness for C5 at a concrete input: empty hint, two accounts; the chooser
receives both candidates sorted ascending by name, and its selection of
index 1 would be returned. -/
theorem claim5_witness :
    ((("" : String) = "" ∨ ∀ a ∈ [(⟨"222", "Prod"⟩ : AccountInfo), acctDev],
        equalFoldGo a.accountName "" = false) ∧
     (selectAccountGo [(⟨"222", "Prod"⟩ : AccountInfo), acctDev] ""
        (fun _ => .ok 1)).chooserArgs
       = some ((sortAccountsGo [(⟨"222", "Prod"⟩ : AccountInfo), acctDev]).map
           renderAccount) ∧
     (sortAccountsGo [(⟨"222", "Prod"⟩ : AccountInfo), acctDev]).Perm
       [(⟨"222", "Prod"⟩ : AccountInfo), acctDev] ∧
     sortedByKey AccountInfo.accountName
       (sortAccountsGo [(⟨"222", "Prod"⟩ : AccountInfo), acctDev]) ∧
     (∀ k : Nat, k < (sortAccountsGo [(⟨"222", "Prod"⟩ : AccountInfo), acctDev]).length →
       (fun _ => (Except.ok 1 : Except String Int))
           ((sortAccountsGo [(⟨"222", "Prod"⟩ : AccountInfo), acctDev]).map
             renderAccount) = .ok (k : Int) →
       (selectAccountGo [(⟨"222", "Prod"⟩ : AccountInfo), acctDev] ""
          (fun _ => .ok 1)).result
         = .ok ((sortAccountsGo [(⟨"222", "Prod"⟩ : AccountInfo), acctDev]).getD k
             default))) :=
  ⟨Or.inl rfl,
    claim5_no_match_chooser_full_sorted.1 [(⟨"222", "Prod"⟩ : AccountInfo), acctDev] ""
      (fun _ => .ok 1) (Or.inl rfl)⟩

end Swa
